import Mathlib

/-!
Shallow embedding of the STANAL 3D frame-analysis core
(`src/analysis/Matrix.ts`, `src/analysis/Member3DElement.ts`, the `Analyzer`
class) over exact real arithmetic, together with theorems settling the
frozen claims about the specification.

Numbers are modelled by `ℝ` (the claims speak about exact arithmetic);
JavaScript arrays of numbers are modelled by total functions `ℕ → ℝ`
(reads that the source never performs are irrelevant), dynamic matrices by
a record carrying the dimensions and an entry function.  A JavaScript
`throw` is modelled by `Except.error` carrying the message string.
-/

namespace Stanal

noncomputable section

/-- JavaScript `v || d` on an optional numeric field of a load record:
both an absent field and an explicit `0` fall back to the default `d`
(falsy-or), unlike `??` which only replaces an absent field. -/
def jsOr (v : Option ℝ) (d : ℝ) : ℝ :=
  match v with
  | none => d
  | some x => if x = 0 then d else x

/-- JavaScript `s.toUpperCase()` on the ASCII direction tags the model
uses (`FX…MZ` in either case), embedded as a character-wise upper-case
map over the string's characters. -/
def jsToUpper (s : String) : String := String.mk (s.data.map Char.toUpper)

/-! ### Data model (`src/model/types.ts`) -/

/-- `Node`: identifier and 3D coordinates. -/
structure Node where
  id : String
  x : ℝ
  y : ℝ
  z : ℝ

/-- `Material`: elastic modulus `E`, shear modulus `G`, Poisson ratio, density. -/
structure Material where
  id : String
  E : ℝ
  G : ℝ
  nu : ℝ
  rho : ℝ

/-- `Section`: area `A`, moments of inertia `Iy`, `Iz`, torsion constant `J`. -/
structure Section where
  id : String
  A : ℝ
  Iy : ℝ
  Iz : ℝ
  J : ℝ

/-- `Member`: end node ids, material and section ids, optional roll angle.
(The optional `releases` field of the source is not consumed by the
analysis code and is omitted.  The source field `section` is a Lean
keyword and is embedded as `sect`.) -/
structure Member where
  id : String
  iNode : String
  jNode : String
  material : String
  sect : String
  rotation : Option ℝ

/-- `Support`: six boolean constraint flags for one node. -/
structure Support where
  node : String
  dx : Bool
  dy : Bool
  dz : Bool
  rx : Bool
  ry : Bool
  rz : Bool

/-- `NodeLoad`: node id, direction tag (source type is a string union,
compared case-insensitively), magnitude. -/
structure NodeLoad where
  node : String
  direction : String
  magnitude : ℝ

/-- `MemberLoadType = 'distributed' | 'point' | 'moment'`. -/
inductive MemberLoadType where
  | distributed : MemberLoadType
  | point : MemberLoadType
  | moment : MemberLoadType
deriving DecidableEq

/-- `MemberLoad` with its optional numeric fields. -/
structure MemberLoad where
  member : String
  type : MemberLoadType
  direction : String
  magnitude : Option ℝ
  w1 : Option ℝ
  w2 : Option ℝ
  x1 : Option ℝ
  x2 : Option ℝ
  x : Option ℝ

/-- `LoadCase`: a name plus node loads and member loads. -/
structure LoadCase where
  name : String
  nodeLoads : List NodeLoad
  memberLoads : List MemberLoad

/-- `LoadCombination`: name plus case-name/factor pairs (the source's
`factors` object, `Object.entries` order = list order). -/
structure LoadCombination where
  name : String
  factors : List (String × ℝ)

/-- `StanalModel` restricted to the fields the analysis core reads
(`model.info`/units are never consumed by the analyzer). -/
structure StanalModel where
  nodes : List Node
  materials : List Material
  sections : List Section
  members : List Member
  supports : List Support
  loadCases : List LoadCase
  loadCombinations : List LoadCombination

/-! ### Dense matrices (`src/analysis/Matrix.ts`)

A `Matrix` of the source is a `rows × cols` array of numbers; it is
embedded as the dimensions plus a total entry function (out-of-range
reads never happen on the verified paths). -/

/-- Embedded dense matrix. -/
structure Mat where
  rows : ℕ
  cols : ℕ
  entry : ℕ → ℕ → ℝ

/-- `Matrix.zeros(rows, cols)`. -/
def Mat.zeros (r c : ℕ) : Mat := ⟨r, c, fun _ _ => 0⟩

/-- `Matrix.transpose()`. -/
def Mat.transpose (m : Mat) : Mat := ⟨m.cols, m.rows, fun i j => m.entry j i⟩

/-- `Matrix.multiply(other)`: inner sum over this matrix's column count. -/
def Mat.multiply (a b : Mat) : Mat :=
  ⟨a.rows, b.cols, fun i j => ∑ k ∈ Finset.range a.cols, a.entry i k * b.entry k j⟩

/-- `Matrix.multiplyVector(vec)`. -/
def Mat.multiplyVector (a : Mat) (v : ℕ → ℝ) : ℕ → ℝ :=
  fun i => ∑ j ∈ Finset.range a.cols, a.entry i j * v j

/-- `Matrix.subMatrix(rowIndices, colIndices)`. -/
def Mat.subMatrix (a : Mat) (rowIndices colIndices : List ℕ) : Mat :=
  ⟨rowIndices.length, colIndices.length,
    fun i j => a.entry (rowIndices.getD i 0) (colIndices.getD j 0)⟩

/-- `Matrix.extractVector(vec, indices)`. -/
def Mat.extractVector (v : ℕ → ℝ) (indices : List ℕ) : ℕ → ℝ :=
  fun i => v (indices.getD i 0)

/-- `Matrix.setVector(vec, indices, values)`: in-place index-list scatter,
later writes win, exactly like the source loop. -/
def Mat.setVector (v : ℕ → ℝ) (indices : List ℕ) (values : ℕ → ℝ) : ℕ → ℝ :=
  (List.range indices.length).foldl
    (fun w i => Function.update w (indices.getD i 0) (values i)) v

/-! ### `Matrix.solve` : Gaussian elimination with partial pivoting -/

/-- The pivot search of `solve` for column `k`: scan rows `k+1 … n-1`,
keeping the first row whose absolute value strictly exceeds the running
maximum, starting from row `k`.  Returns `(maxRow, maxVal)`. -/
def pivotSearch (A : Mat) (k n : ℕ) : ℕ × ℝ :=
  (List.range' (k + 1) (n - (k + 1))).foldl
    (fun acc i => if |A.entry i k| > acc.2 then (i, |A.entry i k|) else acc)
    (k, |A.entry k k|)

/-- Swap two whole rows (the source swaps only when `maxRow ≠ k`;
swapping a row with itself is the identity, so one definition covers both). -/
def swapRowsM (A : Mat) (r1 r2 : ℕ) : Mat :=
  { A with entry := fun i j =>
      if i = r1 then A.entry r2 j else if i = r2 then A.entry r1 j else A.entry i j }

/-- Swap two entries of the right-hand side. -/
def swapVec (x : ℕ → ℝ) (r1 r2 : ℕ) : ℕ → ℝ :=
  fun i => if i = r1 then x r2 else if i = r2 then x r1 else x i

/-- The in-place reduction of rows `k+1 … n-1` below pivot row `k`
(after the swap): column `k` stores the factor `A[i][k]/akk`, columns
`k+1 … n-1` are reduced, other entries untouched. -/
def reduceM (n k : ℕ) (B : Mat) : Mat :=
  { B with entry := fun i j =>
      if k + 1 ≤ i ∧ i < n then
        if j = k then B.entry i k / B.entry k k
        else if k + 1 ≤ j ∧ j < n then B.entry i j - B.entry i k / B.entry k k * B.entry k j
        else B.entry i j
      else B.entry i j }

/-- The matching reduction of the right-hand side. -/
def reduceV (n k : ℕ) (B : Mat) (y : ℕ → ℝ) : ℕ → ℝ :=
  fun i => if k + 1 ≤ i ∧ i < n then y i - B.entry i k / B.entry k k * y k else y i

/-- Matrix part of elimination step `k`: pivot swap then reduction,
exactly as the source's in-place loop. -/
def elimA (n : ℕ) (A : Mat) (k : ℕ) : Mat :=
  reduceM n k (swapRowsM A k (pivotSearch A k n).1)

/-- Right-hand-side part of elimination step `k`. -/
def elimX (n : ℕ) (A : Mat) (x : ℕ → ℝ) (k : ℕ) : ℕ → ℝ :=
  reduceV n k (swapRowsM A k (pivotSearch A k n).1) (swapVec x k (pivotSearch A k n).1)

/-- One elimination step: pivot search, swap, singularity guard, reduce. -/
def elimStep (n : ℕ) (st : Mat × (ℕ → ℝ)) (k : ℕ) :
    Except String (Mat × (ℕ → ℝ)) :=
  let A1 := swapRowsM st.1 k (pivotSearch st.1 k n).1
  if |A1.entry k k| < 1e-12 then Except.error "Matrix is singular or nearly singular"
  else Except.ok (elimA n st.1 k, elimX n st.1 st.2 k)

/-- The elimination loop `for (k = 0; k < n-1; k++)`, written with an
explicit step count for structural recursion. -/
def elimLoop (n k steps : ℕ) (st : Mat × (ℕ → ℝ)) :
    Except String (Mat × (ℕ → ℝ)) :=
  match steps with
  | 0 => Except.ok st
  | s + 1 =>
    match elimStep n st k with
    | Except.error e => Except.error e
    | Except.ok st' => elimLoop n (k + 1) s st'

/-- Shadow elimination of the matrix part alone (the pivot choice and the
reduction of `A` never read the right-hand side). -/
def elimAIter (n k steps : ℕ) (A : Mat) : Mat :=
  match steps with
  | 0 => A
  | s + 1 => elimAIter n (k + 1) s (elimA n A k)

/-- The post-swap diagonal entry the guard of step `k` tests. -/
def pivot0 (n : ℕ) (B : Mat) (k : ℕ) : ℝ :=
  (swapRowsM B k (pivotSearch B k n).1).entry k k

/-- The pivot the run would test at step `k` (post-swap diagonal entry of
the matrix obtained after `k` completed steps).  At `k = n-1` the search
range is empty, the swap is the identity on the diagonal, and this is the
source's final `A.get(n-1, n-1)` check. -/
def pivotSeq (A : Mat) (n k : ℕ) : ℝ :=
  pivot0 n (elimAIter n 0 k A) k

/-- One step of back substitution:
`x[i] = (x[i] - Σ_{j>i} U[i][j]·x[j]) / U[i][i]`. -/
def bsStep (U : Mat) (n : ℕ) (x : ℕ → ℝ) (i : ℕ) : ℕ → ℝ :=
  Function.update x i
    ((x i - ∑ j ∈ Finset.Ico (i + 1) n, U.entry i j * x j) / U.entry i i)

/-- Back substitution `for (i = n-1; i >= 0; i--)`, in place on `x`. -/
def backSubst (U : Mat) (n : ℕ) (y : ℕ → ℝ) : ℕ → ℝ :=
  (List.range n).reverse.foldl (bsStep U n) y

/-- `solve` after the shape guards: elimination loop, final diagonal
check, back substitution. -/
def solveAux (A : Mat) (b : ℕ → ℝ) : Except String (ℕ → ℝ) :=
  match elimLoop A.rows 0 (A.rows - 1) (A, b) with
  | Except.error e => Except.error e
  | Except.ok st =>
    if |st.1.entry (A.rows - 1) (A.rows - 1)| < 1e-12 then
      Except.error "Matrix is singular or nearly singular"
    else Except.ok (backSubst st.1 A.rows st.2)

/-- `Matrix.solve(b)`: shape guards then pivoted elimination.  The source
works on `this.clone()` and a copy of `b`, never mutating either input;
the embedding is accordingly a pure function of `A` and `b`.  (The
source's `pivot` permutation array is bookkeeping that is never read and
is omitted.) -/
def Mat.solve (A : Mat) (b : ℕ → ℝ) (blen : ℕ) : Except String (ℕ → ℝ) :=
  if A.rows ≠ A.cols then Except.error "Matrix must be square for solving"
  else if A.rows ≠ blen then Except.error "Vector b length must match matrix rows"
  else solveAux A b

/-! ### Rotation and transformation matrices -/

/-- `createRotationMatrix(iNode, jNode, rotation)`.  The source throws
`'Member has zero length'` when `L < 1e-10`; every call site reaches this
function only for an element whose constructor already enforced
`L ≥ 1e-10`, so the embedding is total and the value of the dead branch
is irrelevant (`ℝ` division is total). -/
def createRotationMatrix (iN jN : Node) (rot : ℝ) : Mat :=
  let dx := jN.x - iN.x
  let dy := jN.y - iN.y
  let dz := jN.z - iN.z
  let L := Real.sqrt (dx * dx + dy * dy + dz * dz)
  let cx := dx / L
  let cy := dy / L
  let cz := dz / L
  let hl := Real.sqrt (cx * cx + cz * cz)
  let y0 := if hl < 1e-10 then (if cy > 0 then (-1 : ℝ) else 1) else -cy * cx / hl
  let y1 := if hl < 1e-10 then (0 : ℝ) else hl
  let y2 := if hl < 1e-10 then (0 : ℝ) else -cy * cz / hl
  let z0 := cy * y2 - cz * y1
  let z1 := cz * y0 - cx * y2
  let z2 := cx * y1 - cy * y0
  let rad := rot * Real.pi / 180
  let co := Real.cos rad
  let si := Real.sin rad
  let roll := 1e-10 < |rot|
  let Y0 := if roll then y0 * co + z0 * si else y0
  let Y1 := if roll then y1 * co + z1 * si else y1
  let Y2 := if roll then y2 * co + z2 * si else y2
  let Z0 := if roll then -y0 * si + z0 * co else z0
  let Z1 := if roll then -y1 * si + z1 * co else z1
  let Z2 := if roll then -y2 * si + z2 * co else z2
  ⟨3, 3, fun i j =>
    if j = 0 then (if i = 0 then cx else if i = 1 then cy else if i = 2 then cz else 0)
    else if j = 1 then (if i = 0 then Y0 else if i = 1 then Y1 else if i = 2 then Y2 else 0)
    else if j = 2 then (if i = 0 then Z0 else if i = 1 then Z1 else if i = 2 then Z2 else 0)
    else 0⟩

/-- The 12×12 block-diagonal replication of a 3×3 block (four copies on
the diagonal), i.e. the loop body of `createTransformationMatrix`. -/
def blockDiag4 (R : Mat) : Mat :=
  ⟨12, 12, fun i j =>
    if i < 12 ∧ j < 12 ∧ i / 3 = j / 3 then R.entry (i % 3) (j % 3) else 0⟩

/-- `createTransformationMatrix(iNode, jNode, rotation)`. -/
def createTransformationMatrix (iN jN : Node) (rot : ℝ) : Mat :=
  blockDiag4 (createRotationMatrix iN jN rot)

/-! ### The frame element (`src/analysis/Member3DElement.ts`) -/

/-- A constructed `Member3DElement`: resolved nodes, material, section,
roll angle (`member.rotation || 0`) and the cached length. -/
structure Member3DElement where
  id : String
  iNode : Node
  jNode : Node
  material : Material
  sect : Section
  rotation : ℝ
  length : ℝ

/-- The `Member3DElement` constructor: computes the length and throws
`` `Member ${member.id} has zero length` `` when it is below `1e-10`. -/
def Member3DElement.mk? (member : Member) (iN jN : Node) (mat : Material)
    (sec : Section) : Except String Member3DElement :=
  let dx := jN.x - iN.x
  let dy := jN.y - iN.y
  let dz := jN.z - iN.z
  let len := Real.sqrt (dx * dx + dy * dy + dz * dz)
  if len < 1e-10 then Except.error ("Member " ++ member.id ++ " has zero length")
  else Except.ok ⟨member.id, iN, jN, mat, sec, jsOr member.rotation 0, len⟩

/-- The entry table of `localStiffnessMatrix()`: the source `set`s the
40 nonzero entries of a 12×12 zero matrix; since all written positions
are distinct, the embedding lists the same 40 entries as one if-table
(source order kept: axial, bending about z (`Iz` terms `k_y*`), bending
about y (`Iy` terms `k_z*`), torsion). -/
def kLocalEntry (EA_L GJ_L k_y1 k_y2 k_y3 k_y4 k_z1 k_z2 k_z3 k_z4 : ℝ)
    (i j : ℕ) : ℝ :=
  if i = 0 ∧ j = 0 then EA_L else if i = 0 ∧ j = 6 then -EA_L
    else if i = 6 ∧ j = 0 then -EA_L else if i = 6 ∧ j = 6 then EA_L
    else if i = 1 ∧ j = 1 then k_y1 else if i = 1 ∧ j = 5 then k_y2
    else if i = 1 ∧ j = 7 then -k_y1 else if i = 1 ∧ j = 11 then k_y2
    else if i = 5 ∧ j = 1 then k_y2 else if i = 5 ∧ j = 5 then k_y3
    else if i = 5 ∧ j = 7 then -k_y2 else if i = 5 ∧ j = 11 then k_y4
    else if i = 7 ∧ j = 1 then -k_y1 else if i = 7 ∧ j = 5 then -k_y2
    else if i = 7 ∧ j = 7 then k_y1 else if i = 7 ∧ j = 11 then -k_y2
    else if i = 11 ∧ j = 1 then k_y2 else if i = 11 ∧ j = 5 then k_y4
    else if i = 11 ∧ j = 7 then -k_y2 else if i = 11 ∧ j = 11 then k_y3
    else if i = 2 ∧ j = 2 then k_z1 else if i = 2 ∧ j = 4 then -k_z2
    else if i = 2 ∧ j = 8 then -k_z1 else if i = 2 ∧ j = 10 then -k_z2
    else if i = 4 ∧ j = 2 then -k_z2 else if i = 4 ∧ j = 4 then k_z3
    else if i = 4 ∧ j = 8 then k_z2 else if i = 4 ∧ j = 10 then k_z4
    else if i = 8 ∧ j = 2 then -k_z1 else if i = 8 ∧ j = 4 then k_z2
    else if i = 8 ∧ j = 8 then k_z1 else if i = 8 ∧ j = 10 then k_z2
    else if i = 10 ∧ j = 2 then -k_z2 else if i = 10 ∧ j = 4 then k_z4
    else if i = 10 ∧ j = 8 then k_z2 else if i = 10 ∧ j = 10 then k_z3
    else if i = 3 ∧ j = 3 then GJ_L else if i = 3 ∧ j = 9 then -GJ_L
    else if i = 9 ∧ j = 3 then -GJ_L else if i = 9 ∧ j = 9 then GJ_L
    else 0

/-- `localStiffnessMatrix()` proper: the coefficients `EA/L`, `GJ/L`,
`12EI/L³`, `6EI/L²`, `4EI/L`, `2EI/L` (bending about z uses `Iz`, about
y uses `Iy`) feeding the entry table. -/
def Member3DElement.localStiffnessMatrix (e : Member3DElement) : Mat :=
  let E := e.material.E
  let G := e.material.G
  let A := e.sect.A
  let Iy := e.sect.Iy
  let Iz := e.sect.Iz
  let J := e.sect.J
  let L := e.length
  let L2 := L * L
  let L3 := L2 * L
  let EA_L := E * A / L
  let GJ_L := G * J / L
  let EIz := E * Iz
  let EIy := E * Iy
  ⟨12, 12, kLocalEntry EA_L GJ_L
    (12 * EIz / L3) (6 * EIz / L2) (4 * EIz / L) (2 * EIz / L)
    (12 * EIy / L3) (6 * EIy / L2) (4 * EIy / L) (2 * EIy / L)⟩

/-- `transformationMatrix()`. -/
def Member3DElement.transformationMatrix (e : Member3DElement) : Mat :=
  createTransformationMatrix e.iNode e.jNode e.rotation

/-- `globalStiffnessMatrix() = Tᵗ · K_local · T`. -/
def Member3DElement.globalStiffnessMatrix (e : Member3DElement) : Mat :=
  let kLocal := e.localStiffnessMatrix
  let T := e.transformationMatrix
  (T.transpose.multiply kLocal).multiply T

/-- `fer[i] += v` on the local fixed-end-reaction accumulator. -/
def addAt (f : ℕ → ℝ) (i : ℕ) (v : ℝ) : ℕ → ℝ :=
  Function.update f i (f i + v)

/-- `addUniformLoadFER`: full-span closed-form branch, otherwise the
simplified statics-based partial-span branch. -/
def addUniformLoadFER (fer : ℕ → ℝ) (dir : String) (w x1 x2 L : ℝ) : ℕ → ℝ :=
  if |x1| < 1e-10 ∧ |x2 - L| < 1e-10 then
    let wL := w * L
    let wL2 := w * L * L
    if dir = "FY" then
      addAt (addAt (addAt (addAt fer 1 (wL / 2)) 5 (wL2 / 12)) 7 (wL / 2)) 11 (-wL2 / 12)
    else if dir = "FZ" then
      addAt (addAt (addAt (addAt fer 2 (wL / 2)) 4 (-wL2 / 12)) 8 (wL / 2)) 10 (wL2 / 12)
    else if dir = "FX" then
      addAt (addAt fer 0 (wL / 2)) 6 (wL / 2)
    else fer
  else
    let a := x1
    let b := x2
    let loadLen := b - a
    if dir = "FY" then
      let R1 := w * loadLen * (L - (a + b) / 2) / L
      let R2 := w * loadLen - R1
      let M1 := w * loadLen * ((a + b) / 2 - a * (L - (a + b) / 2) / L)
      addAt (addAt (addAt (addAt fer 1 R1) 7 R2) 5 M1) 11 (-M1)
    else if dir = "FZ" then
      let R1 := w * loadLen * (L - (a + b) / 2) / L
      let R2 := w * loadLen - R1
      addAt (addAt fer 2 R1) 8 R2
    else if dir = "FX" then
      let R1 := w * loadLen * (L - (a + b) / 2) / L
      let R2 := w * loadLen - R1
      addAt (addAt fer 0 R1) 6 R2
    else fer

/-- `addLinearLoadFER`: trapezoid split into a uniform part at the
minimum intensity plus a uniform part at half the intensity difference. -/
def addLinearLoadFER (fer : ℕ → ℝ) (dir : String) (w1 w2 x1 x2 L : ℝ) : ℕ → ℝ :=
  let wMin := min w1 w2
  let wDiff := |w2 - w1|
  let fer1 := addUniformLoadFER fer dir wMin x1 x2 L
  addUniformLoadFER fer1 dir (wDiff / 2) x1 x2 L

/-- `addPointLoadFER`: exact fixed-end formulas for a concentrated load
(`FX`,`FY`,`FZ`) or concentrated moment (`MX`,`MY`,`MZ`) at distance `a`
from the i-end. -/
def addPointLoadFER (fer : ℕ → ℝ) (dir : String) (P a L : ℝ) : ℕ → ℝ :=
  let b := L - a
  let L2 := L * L
  let L3 := L2 * L
  if dir = "FY" then
    addAt (addAt (addAt (addAt fer 1 (P * b * b * (3 * a + b) / L3))
      5 (P * a * b * b / L2)) 7 (P * a * a * (a + 3 * b) / L3)) 11 (-(P * a * a * b) / L2)
  else if dir = "FZ" then
    addAt (addAt (addAt (addAt fer 2 (P * b * b * (3 * a + b) / L3))
      4 (-(P * a * b * b) / L2)) 8 (P * a * a * (a + 3 * b) / L3)) 10 (P * a * a * b / L2)
  else if dir = "FX" then
    addAt (addAt fer 0 (P * b / L)) 6 (P * a / L)
  else if dir = "MZ" then
    addAt (addAt (addAt (addAt fer 1 (6 * P * a * b / L3))
      5 (P * b * (2 * a - b) / L2)) 7 (-(6 * P * a * b) / L3)) 11 (P * a * (2 * b - a) / L2)
  else if dir = "MY" then
    addAt (addAt (addAt (addAt fer 2 (-(6 * P * a * b) / L3))
      4 (P * b * (2 * a - b) / L2)) 8 (6 * P * a * b / L3)) 10 (P * a * (2 * b - a) / L2)
  else if dir = "MX" then
    addAt (addAt fer 3 (P * b / L)) 9 (P * a / L)
  else fer

/-- The local fixed-end-reaction accumulation loop of
`fixedEndReactions`: loads of other members are skipped, `distributed`
and `point` loads dispatch on (numerically) equal intensities resp. the
defaulted position, and any other load type (`moment`) falls through
without contributing. -/
def ferLocalOf (e : Member3DElement) (memberLoads : List MemberLoad) : ℕ → ℝ :=
  memberLoads.foldl (fun fer load =>
    if load.member ≠ e.id then fer
    else
      let dir := jsToUpper load.direction
      match load.type with
      | MemberLoadType.distributed =>
        let w1 := jsOr load.w1 0
        let w2 := load.w2.getD w1
        let x1 := jsOr load.x1 0 * e.length
        let x2 := load.x2.getD 1 * e.length
        if |w1 - w2| < 1e-10 then addUniformLoadFER fer dir w1 x1 x2 e.length
        else addLinearLoadFER fer dir w1 w2 x1 x2 e.length
      | MemberLoadType.point =>
        let P := jsOr load.magnitude 0
        let x := jsOr load.x 0.5 * e.length
        addPointLoadFER fer dir P x e.length
      | MemberLoadType.moment => fer)
    (fun _ => 0)

/-- `fixedEndReactions(memberLoads)`: local accumulation followed by the
local→global conversion `Tᵗ · fer` (the source routes the vector through
a 12×1 matrix; the values are those of `Tᵗ.multiplyVector`). -/
def Member3DElement.fixedEndReactions (e : Member3DElement)
    (memberLoads : List MemberLoad) : ℕ → ℝ :=
  let fer := ferLocalOf e memberLoads
  e.transformationMatrix.transpose.multiplyVector fer

/-- One sampled point of the member-force diagram: position along the
member and the six force components. -/
structure ForcePoint where
  x : ℝ
  forces : List ℝ

/-- `computeMemberForces(displacements, memberLoads, numPoints)`:
local displacements `T·d`, local end forces `K_local·(T·d)`, then
`numPoints+1` linearly interpolated samples.  The member's fixed-end
reaction vector is computed (`ferLocalTransformed`) but never added to
the sampled forces, exactly as in the source. -/
def Member3DElement.computeMemberForces (e : Member3DElement)
    (displacements : ℕ → ℝ) (memberLoads : List MemberLoad)
    (numPoints : ℕ) : List ForcePoint :=
  let T := e.transformationMatrix
  let kLocal := e.localStiffnessMatrix
  let dLocal := T.multiplyVector displacements
  let fLocal := kLocal.multiplyVector dLocal
  let fer := e.fixedEndReactions memberLoads
  let _ferLocalTransformed := T.multiplyVector fer
  (List.range (numPoints + 1)).map (fun (i : ℕ) =>
    let x := ((i : ℝ) / (numPoints : ℝ)) * e.length
    let frac := x / e.length
    { x := x
      forces :=
        [fLocal 0 * (1 - frac) + fLocal 6 * frac,
         fLocal 1 * (1 - frac) + fLocal 7 * frac,
         fLocal 2 * (1 - frac) + fLocal 8 * frac,
         fLocal 3 * (1 - frac) + fLocal 9 * frac,
         fLocal 4 * (1 - frac) + fLocal 10 * frac,
         fLocal 5 * (1 - frac) + fLocal 11 * frac] })

/-! ### Result structures (`src/model/types.ts`) -/

/-- Six displacement/rotation (or force/moment) components of one node. -/
structure NodeDOF where
  dx : ℝ
  dy : ℝ
  dz : ℝ
  rx : ℝ
  ry : ℝ
  rz : ℝ

/-- Component `c ∈ {0,…,5}` of a `NodeDOF` (the DOF-index order of the
analyzer: translations then rotations). -/
def NodeDOF.comp (d : NodeDOF) (c : ℕ) : ℝ :=
  if c = 0 then d.dx else if c = 1 then d.dy else if c = 2 then d.dz
  else if c = 3 then d.rx else if c = 4 then d.ry else d.rz

/-- `NodeResult`. -/
structure NodeResult where
  nodeId : String
  displacement : NodeDOF
  reaction : NodeDOF

/-- An extremum value together with its location along the member. -/
structure ValueLoc where
  value : ℝ
  location : ℝ

/-- `MemberForces` (one sampled station). -/
structure MemberForces where
  x : ℝ
  axial : ℝ
  shearY : ℝ
  shearZ : ℝ
  torsion : ℝ
  momentY : ℝ
  momentZ : ℝ

/-- The per-component extrema of `MemberResult.maxForces`. -/
structure MaxForces where
  axial : ValueLoc
  shearY : ValueLoc
  shearZ : ValueLoc
  momentY : ValueLoc
  momentZ : ValueLoc

/-- `MemberResult`. -/
structure MemberResult where
  memberId : String
  forces : List MemberForces
  maxForces : MaxForces

/-- Summary extreme over nodes. -/
structure NodeExtreme where
  nodeId : String
  value : ℝ
  direction : String

/-- Summary extreme over members. -/
structure MemberExtreme where
  memberId : String
  value : ℝ
  location : ℝ

/-- `AnalysisResult['summary']`. -/
structure Summary where
  maxDisplacement : NodeExtreme
  maxReaction : NodeExtreme
  maxMoment : MemberExtreme
  maxShear : MemberExtreme

/-- `AnalysisResult` (failure keeps empty node/member lists and the empty
summary, success carries `error = none`). -/
structure AnalysisResult where
  success : Bool
  error : Option String
  loadCase : String
  nodes : List NodeResult
  members : List MemberResult
  summary : Summary

/-- `emptySummary()`. -/
def emptySummary : Summary :=
  ⟨⟨"", 0, ""⟩, ⟨"", 0, ""⟩, ⟨"", 0, 0⟩, ⟨"", 0, 0⟩⟩

/-! ### The analyzer (`Analyzer` class) -/

/-- `Map.set` in a `forEach` over a list: the last entry with the key
wins, so a lookup is a `find?` over the reversed list. -/
def lookupLast {α : Type} (l : List α) (key : α → String) (k : String) : Option α :=
  l.reverse.find? (fun a => key a = k)

/-- `nodeMap.get(id)`. -/
def StanalModel.findNode (m : StanalModel) (id : String) : Option Node :=
  lookupLast m.nodes (fun n => n.id) id

/-- `materialMap.get(id)`. -/
def StanalModel.findMaterial (m : StanalModel) (id : String) : Option Material :=
  lookupLast m.materials (fun n => n.id) id

/-- `sectionMap.get(id)`. -/
def StanalModel.findSection (m : StanalModel) (id : String) : Option Section :=
  lookupLast m.sections (fun n => n.id) id

/-- `supportMap.get(nodeId)`. -/
def StanalModel.findSupport (m : StanalModel) (id : String) : Option Support :=
  lookupLast m.supports (fun s => s.node) id

/-- `nodeIndexMap.get(id)`: index of the last node with this id. -/
def StanalModel.nodeIndexOf (m : StanalModel) (id : String) : Option ℕ :=
  (m.nodes.enum.reverse.find? (fun p => p.2.id = id)).map (fun p => p.1)

/-- One iteration of the element-construction loop of `initialize()`:
members whose node, material or section references do not resolve are
silently skipped; a resolvable member is constructed (which may throw). -/
def buildStep (m : StanalModel) (acc : List Member3DElement) (mem : Member) :
    Except String (List Member3DElement) :=
  match m.findNode mem.iNode, m.findNode mem.jNode,
      m.findMaterial mem.material, m.findSection mem.sect with
  | some iN, some jN, some mat, some sec =>
    match Member3DElement.mk? mem iN jN mat sec with
    | Except.error e => Except.error e
    | Except.ok el => Except.ok (acc ++ [el])
  | _, _, _, _ => Except.ok acc

/-- The element-construction loop of `initialize()`. -/
def buildElements (m : StanalModel) : Except String (List Member3DElement) :=
  m.members.foldlM (buildStep m) []

/-- Constraint flag of node index `i`, component `j`: absent node or
absent support means free (`false`). -/
def constraintAt (m : StanalModel) (i j : ℕ) : Bool :=
  match m.nodes[i]? with
  | none => false
  | some node =>
    match m.findSupport node.id with
    | none => false
    | some s => [s.dx, s.dy, s.dz, s.rx, s.ry, s.rz].getD j false

/-- `classifyDOF()`: the free-DOF index list, in loop order. -/
def freeDOFList (m : StanalModel) : List ℕ :=
  (List.range m.nodes.length).flatMap (fun i =>
    ((List.range 6).filter (fun j => !(constraintAt m i j))).map (fun j => 6 * i + j))

/-- `classifyDOF()`: the fixed-DOF index list, in loop order. -/
def fixedDOFList (m : StanalModel) : List ℕ :=
  (List.range m.nodes.length).flatMap (fun i =>
    ((List.range 6).filter (fun j => constraintAt m i j)).map (fun j => 6 * i + j))

/-- The analyzer state built by the constructor. -/
structure Analyzer where
  model : StanalModel
  elements : List Member3DElement
  numDOF : ℕ
  freeDOF : List ℕ
  fixedDOF : List ℕ

/-- The `Analyzer` constructor (`constructor` + `initialize()`); the
zero-length throw of element construction escapes it uncaught. -/
def Analyzer.mk? (m : StanalModel) : Except String Analyzer :=
  match buildElements m with
  | Except.error e => Except.error e
  | Except.ok es =>
    Except.ok ⟨m, es, m.nodes.length * 6, freeDOFList m, fixedDOFList m⟩

/-- The element DOF → global DOF map of the assembly loop (entries
`0…5` to node `iIndex`, `6…11` to node `jIndex`; the source's non-null
assertion on the index lookups is modelled by `getD 0`, the lookups are
`some` for every constructed element). -/
def dofMapOf (m : StanalModel) (e : Member3DElement) : ℕ → ℕ :=
  fun t =>
    if t < 6 then 6 * ((m.nodeIndexOf e.iNode.id).getD 0) + t
    else 6 * ((m.nodeIndexOf e.jNode.id).getD 0) + (t - 6)

/-- One element's additive scatter `K.add(dofMap[i], dofMap[j], kG[i][j])`
over all 144 positions. -/
def scatterAdd (K : Mat) (dm : ℕ → ℕ) (kG : Mat) : Mat :=
  { K with entry := fun r s =>
      K.entry r s + ∑ a ∈ Finset.range 12, ∑ b ∈ Finset.range 12,
        if dm a = r ∧ dm b = s then kG.entry a b else 0 }

/-- `assembleGlobalStiffnessMatrix()`. -/
def Analyzer.assembleGlobalStiffnessMatrix (a : Analyzer) : Mat :=
  a.elements.foldl
    (fun K e => scatterAdd K (dofMapOf a.model e) e.globalStiffnessMatrix)
    (Mat.zeros a.numDOF a.numDOF)

/-- `getDOFOffset(direction)`: the source returns `-1` for an unknown
tag and the caller skips negative offsets; the embedding returns `none`. -/
def getDOFOffset (dir : String) : Option ℕ :=
  if dir = "FX" then some 0 else if dir = "FY" then some 1
  else if dir = "FZ" then some 2 else if dir = "MX" then some 3
  else if dir = "MY" then some 4 else if dir = "MZ" then some 5
  else none

/-- The direct nodal-load part of `assembleLoadVector`. -/
def Analyzer.nodalLoadVector (a : Analyzer) (lc : LoadCase) : ℕ → ℝ :=
  lc.nodeLoads.foldl (fun P load =>
    match a.model.nodeIndexOf load.node with
    | none => P
    | some ni =>
      match getDOFOffset (jsToUpper load.direction) with
      | none => P
      | some off => addAt P (ni * 6 + off) load.magnitude)
    (fun _ => 0)

/-- The member-load (fixed-end reaction) part of `assembleLoadVector`:
each element's global FER is applied with reversed sign at its two
nodes. -/
def Analyzer.memberLoadVector (a : Analyzer) (lc : LoadCase) : ℕ → ℝ :=
  a.elements.foldl (fun P e =>
    let fer := e.fixedEndReactions lc.memberLoads
    let iIdx := (a.model.nodeIndexOf e.iNode.id).getD 0
    let jIdx := (a.model.nodeIndexOf e.jNode.id).getD 0
    (List.range 6).foldl
      (fun Q i => addAt (addAt Q (iIdx * 6 + i) (-(fer i))) (jIdx * 6 + i) (-(fer (i + 6))))
      P)
    (fun _ => 0)

/-- `assembleLoadVector(loadCase)`: the source accumulates the nodal and
the member contributions into one array; additive accumulation splits
into the sum of the two parts. -/
def Analyzer.assembleLoadVector (a : Analyzer) (lc : LoadCase) : ℕ → ℝ :=
  fun i => a.nodalLoadVector lc i + a.memberLoadVector lc i

/-- `loadCases.find(...)` (first match, like `Array.prototype.find`). -/
def findLoadCase (m : StanalModel) (name : String) : Option LoadCase :=
  m.loadCases.find? (fun lc => lc.name = name)

/-- `loadCombinations.find(...)`. -/
def findCombo (m : StanalModel) (name : String) : Option LoadCombination :=
  m.loadCombinations.find? (fun c => c.name = name)

/-- The factor-weighted combined load vector of `analyze` (cases the
model does not contain are skipped). -/
def Analyzer.combinedLoadVector (a : Analyzer) (combo : LoadCombination) : ℕ → ℝ :=
  combo.factors.foldl (fun P cf =>
    match findLoadCase a.model cf.1 with
    | none => P
    | some lc => fun i => P i + cf.2 * a.assembleLoadVector lc i)
    (fun _ => 0)

/-- The combined nodal-only part (same recursion, nodal contributions
only); `combinedLoadVector = combinedNodalVector + combinedMemberVector`
pointwise. -/
def Analyzer.combinedNodalVector (a : Analyzer) (combo : LoadCombination) : ℕ → ℝ :=
  combo.factors.foldl (fun P cf =>
    match findLoadCase a.model cf.1 with
    | none => P
    | some lc => fun i => P i + cf.2 * a.nodalLoadVector lc i)
    (fun _ => 0)

/-- The combined member-load (equivalent nodal load) part. -/
def Analyzer.combinedMemberVector (a : Analyzer) (combo : LoadCombination) : ℕ → ℝ :=
  combo.factors.foldl (fun P cf =>
    match findLoadCase a.model cf.1 with
    | none => P
    | some lc => fun i => P i + cf.2 * a.memberLoadVector lc i)
    (fun _ => 0)

/-- `extractNodeResults(D, reactions)`. -/
def extractNodeResults (m : StanalModel) (D reactions : ℕ → ℝ) : List NodeResult :=
  m.nodes.enum.map (fun p =>
    let base := p.1 * 6
    { nodeId := p.2.id
      displacement :=
        ⟨D base, D (base + 1), D (base + 2), D (base + 3), D (base + 4), D (base + 5)⟩
      reaction :=
        ⟨reactions base, reactions (base + 1), reactions (base + 2),
         reactions (base + 3), reactions (base + 4), reactions (base + 5)⟩ })

/-- `findMax(forces, key)`: largest absolute value wins, strictly-greater
update, seeded with value 0 at location 0. -/
def findMax (forces : List MemberForces) (key : MemberForces → ℝ) : ValueLoc :=
  forces.foldl (fun acc f => if |key f| > |acc.value| then ⟨key f, f.x⟩ else acc) ⟨0, 0⟩

/-- The combined member loads of `extractMemberResults`: for each factor
pair, the matching member loads of the case with `magnitude`, `w1`, `w2`
scaled by the factor (`(ml.magnitude || 0) * factor` etc.). -/
def combinedLoadsFor (m : StanalModel) (combo : LoadCombination)
    (memberId : String) : List MemberLoad :=
  combo.factors.foldl (fun acc cf =>
    match findLoadCase m cf.1 with
    | none => acc
    | some lc =>
      acc ++ (lc.memberLoads.filter (fun ml => ml.member = memberId)).map (fun ml =>
        { ml with
          magnitude := some (jsOr ml.magnitude 0 * cf.2)
          w1 := some (jsOr ml.w1 0 * cf.2)
          w2 := some (jsOr ml.w2 0 * cf.2) }))
    []

/-- `extractMemberResults(D, combo)`: per element, gather the 12 nodal
displacements, recombine the member loads, sample the forces
(`numPoints = 11` default), convert to `MemberForces` records and take
the extremes. -/
def Analyzer.extractMemberResults (a : Analyzer) (D : ℕ → ℝ)
    (combo : LoadCombination) : List MemberResult :=
  a.elements.map (fun e =>
    let iIdx := (a.model.nodeIndexOf e.iNode.id).getD 0
    let jIdx := (a.model.nodeIndexOf e.jNode.id).getD 0
    let elementD : ℕ → ℝ := fun t =>
      if t < 6 then D (6 * iIdx + t) else if t < 12 then D (6 * jIdx + (t - 6)) else 0
    let combinedLoads := combinedLoadsFor a.model combo e.id
    let forcePoints := e.computeMemberForces elementD combinedLoads 11
    let forces : List MemberForces := forcePoints.map (fun fp =>
      ⟨fp.x, fp.forces.getD 0 0, fp.forces.getD 1 0, fp.forces.getD 2 0,
       fp.forces.getD 3 0, fp.forces.getD 4 0, fp.forces.getD 5 0⟩)
    { memberId := e.id
      forces := forces
      maxForces :=
        ⟨findMax forces (fun f => f.axial), findMax forces (fun f => f.shearY),
         findMax forces (fun f => f.shearZ), findMax forces (fun f => f.momentY),
         findMax forces (fun f => f.momentZ)⟩ })

/-- The `maxDisplacement` fold of `computeSummary` (directions scanned in
order `dx`, `dy`, `dz`, strictly-greater absolute-value update). -/
def summaryNodeFold (get : NodeResult → NodeDOF) (nodes : List NodeResult) : NodeExtreme :=
  nodes.foldl (fun acc nr =>
    let d := get nr
    let acc1 := if |d.dx| > |acc.value| then ⟨nr.nodeId, d.dx, "dx"⟩ else acc
    let acc2 := if |d.dy| > |acc1.value| then ⟨nr.nodeId, d.dy, "dy"⟩ else acc1
    if |d.dz| > |acc2.value| then ⟨nr.nodeId, d.dz, "dz"⟩ else acc2)
    ⟨"", 0, ""⟩

/-- The member folds of `computeSummary` over a chosen `maxForces`
component. -/
def summaryMemberFold (get : MemberResult → ValueLoc) (members : List MemberResult) :
    MemberExtreme :=
  members.foldl (fun acc mr =>
    if |(get mr).value| > |acc.value| then ⟨mr.memberId, (get mr).value, (get mr).location⟩
    else acc)
    ⟨"", 0, 0⟩

/-- `computeSummary(nodes, members)`. -/
def computeSummary (nodes : List NodeResult) (members : List MemberResult) : Summary :=
  { maxDisplacement := summaryNodeFold (fun nr => nr.displacement) nodes
    maxReaction := summaryNodeFold (fun nr => nr.reaction) nodes
    maxMoment := summaryMemberFold (fun mr => mr.maxForces.momentZ) members
    maxShear := summaryMemberFold (fun mr => mr.maxForces.shearY) members }

/-- The solve stage of `analyze`: free-free sub-block of the assembled
stiffness matrix against the free part of the combined load vector. -/
def Analyzer.solveDisp (a : Analyzer) (combo : LoadCombination) :
    Except String (ℕ → ℝ) :=
  (a.assembleGlobalStiffnessMatrix.subMatrix a.freeDOF a.freeDOF).solve
    (Mat.extractVector (a.combinedLoadVector combo) a.freeDOF) a.freeDOF.length

/-- The full displacement vector of `analyze`: free DOFs from the solve,
fixed DOFs at zero (no support settlement). -/
def Analyzer.fullDisp (a : Analyzer) (D1 : ℕ → ℝ) : ℕ → ℝ :=
  Mat.setVector (fun _ => 0) a.freeDOF D1

/-- The reaction vector of `analyze`: `R = K·D − P`. -/
def Analyzer.reactionsOf (a : Analyzer) (combo : LoadCombination) (D1 : ℕ → ℝ) :
    ℕ → ℝ :=
  fun i => a.assembleGlobalStiffnessMatrix.multiplyVector (a.fullDisp D1) i -
    a.combinedLoadVector combo i

/-- The success record built at the end of `analyze`. -/
def Analyzer.successResult (a : Analyzer) (combinationName : String)
    (combo : LoadCombination) (D1 : ℕ → ℝ) : AnalysisResult :=
  let nodeResults := extractNodeResults a.model (a.fullDisp D1) (a.reactionsOf combo D1)
  let memberResults := a.extractMemberResults (a.fullDisp D1) combo
  ⟨true, none, combinationName, nodeResults, memberResults,
    computeSummary nodeResults memberResults⟩

/-- The failure record for an unknown combination name. -/
def comboNotFoundResult (combinationName : String) : AnalysisResult :=
  ⟨false, some ("Load combination '" ++ combinationName ++ "' not found"),
    combinationName, [], [], emptySummary⟩

/-- The failure record for a caught solver error. -/
def solveFailedResult (combinationName e : String) : AnalysisResult :=
  ⟨false, some e, combinationName, [], [], emptySummary⟩

/-- `analyze(combinationName)`: combination lookup, assembly, combined
load vector, free-free partition, solve, displacement scatter, reactions
`K·D − P`, result extraction.  The `try/catch` around the body catches
exactly the solver's throws (all other embedded operations are total),
surfacing them as a failed result. -/
def Analyzer.analyze (a : Analyzer) (combinationName : String) : AnalysisResult :=
  match findCombo a.model combinationName with
  | none => comboNotFoundResult combinationName
  | some combo =>
    match a.solveDisp combo with
    | Except.error e => solveFailedResult combinationName e
    | Except.ok D1 => a.successResult combinationName combo D1

/-- `analyze` with the analyzer state threaded explicitly: the method
reads `this.model`, `this.elements`, `this.freeDOF` … but assigns to no
field, so the faithful state-passing embedding returns the state
unchanged. -/
def Analyzer.analyzeSt (a : Analyzer) (combinationName : String) :
    AnalysisResult × Analyzer :=
  (a.analyze combinationName, a)

/-! ## Helper lemmas -/

/-- The sampled member forces never depend on the member-load list: the
fixed-end-reaction vector is computed but never added to the sampled
forces. -/
theorem computeMemberForces_loads_irrelevant (e : Member3DElement) (d : ℕ → ℝ)
    (loads loads' : List MemberLoad) (numPoints : ℕ) :
    e.computeMemberForces d loads numPoints = e.computeMemberForces d loads' numPoints := rfl

/-- `getD` over a mapped range. -/
theorem getD_map_range {α : Type} (n i : ℕ) (g : ℕ → α) (d : α) (h : i < n) :
    ((List.range n).map g).getD i d = g i := by
  simp [List.getD_eq_getElem?_getD, List.getElem?_map, List.getElem?_range h]

/-- The sample the claim predicts at position `xi`: every component is
the linear interpolation `(1 - xi/L)·f_end1 + (xi/L)·f_end2` of the
corresponding pair of entries of the local end-force vector. -/
def linInterp6 (fL : ℕ → ℝ) (L xi : ℝ) : ForcePoint :=
  { x := xi
    forces := (List.range 6).map (fun c => fL c * (1 - xi / L) + fL (c + 6) * (xi / L)) }

/-! ## C1 -/

/-- C1: for every member element, global displacement vector `d`,
member-load list and `numPoints ≥ 1`, `computeMemberForces` returns
exactly `numPoints+1` samples, the `i`-th at position
`x_i = (i/numPoints)·L`, each of whose six components is the linear
interpolation `(1 - x_i/L)·f_end1 + (x_i/L)·f_end2` of the corresponding
pair of entries of `f = K_local·(T·d)`; consequently the samples are
identical for any two member-load lists (the local fixed-end-reaction
vector is computed but never added). -/
theorem C1_computeMemberForces_linear_interpolation (e : Member3DElement)
    (d : ℕ → ℝ) (loads : List MemberLoad) (numPoints : ℕ) (hnp : 1 ≤ numPoints) :
    (e.computeMemberForces d loads numPoints).length = numPoints + 1 ∧
    (∀ i, i ≤ numPoints →
      (e.computeMemberForces d loads numPoints).getD i ⟨0, []⟩ =
        linInterp6
          (e.localStiffnessMatrix.multiplyVector (e.transformationMatrix.multiplyVector d))
          e.length (((i : ℝ) / (numPoints : ℝ)) * e.length)) ∧
    (∀ loads', e.computeMemberForces d loads numPoints =
      e.computeMemberForces d loads' numPoints) := by
  refine ⟨?_, ?_, fun loads' => rfl⟩
  · simp only [Member3DElement.computeMemberForces, List.length_map, List.length_range]
  · intro i hi
    have hlt : i < numPoints + 1 := Nat.lt_succ_of_le hi
    rw [show e.computeMemberForces d loads numPoints =
        (List.range (numPoints + 1)).map _ from rfl, getD_map_range _ _ _ _ hlt]
    rfl

/-- A concrete unit element for witnesses: the member `M1` from
`N1 = (0,0,0)` to `N2 = (1,0,0)` with `E = G = A = Iy = Iz = J = 1`. -/
def unitElement : Member3DElement :=
  ⟨"M1", ⟨"N1", 0, 0, 0⟩, ⟨"N2", 1, 0, 0⟩, ⟨"MAT", 1, 1, 0.3, 1⟩,
    ⟨"SEC", 1, 1, 1, 1⟩, 0, 1⟩

/-- Witness for C1 at a concrete element and sample count. -/
theorem C1_witness :
    1 ≤ 2 ∧
    (unitElement.computeMemberForces (fun _ => 0) [] 2).length = 2 + 1 :=
  ⟨by norm_num,
    (C1_computeMemberForces_linear_interpolation unitElement (fun _ => 0) [] 2
      (by norm_num)).1⟩

/-! ## C9 -/

/-- C9: two consecutive `analyze` calls with the same combination name on
an unmodified analyzer return identical results, and each call leaves the
analyzer state (model, element list, DOF classification) unchanged: the
method assigns to no field, so the state-passing embedding returns the
state untouched. -/
theorem C9_analyze_idempotent (a : Analyzer) (combinationName : String) :
    (a.analyzeSt combinationName).2 = a ∧
    ((a.analyzeSt combinationName).2.analyzeSt combinationName).1 =
      (a.analyzeSt combinationName).1 ∧
    ((a.analyzeSt combinationName).2.analyzeSt combinationName).2 = a :=
  ⟨rfl, rfl, rfl⟩

/-! ## C3 and C10 : fixed-end reactions of point/moment loads -/

/-- Pointwise form of `addAt`. -/
theorem addAt_apply (f : ℕ → ℝ) (i : ℕ) (v : ℝ) (j : ℕ) :
    addAt f i v j = if j = i then f i + v else f j := by
  rw [addAt, Function.update_apply]

/-- A `moment`-type member load (any direction, magnitude, position) on a
concrete element: its local fixed-end vector entry 1 is `0` and its
global fixed-end-reaction vector vanishes identically, although the
moment fixed-end shear term `6·P·a·b/L³` the claim requires is nonzero
at this input. -/
def momentLoadMZ : MemberLoad :=
  ⟨"M1", MemberLoadType.moment, "MZ", some 1, none, none, none, none, some 0.3⟩

/-- C3 counterexample: a member load of type `'moment'` (direction `MZ`,
magnitude 1, position 0.3) contributes nothing at all to
`fixedEndReactions` — the dispatch handles only `'distributed'` and
`'point'` — even though the claimed moment fixed-end shear term
`6·P·a·b/L³` is nonzero there. -/
theorem C3_counterexample :
    ferLocalOf unitElement [momentLoadMZ] 1 = 0 ∧
    (∀ i, unitElement.fixedEndReactions [momentLoadMZ] i = 0) ∧
    6 * (1 : ℝ) * (0.3 * unitElement.length) *
      (unitElement.length - 0.3 * unitElement.length) /
      (unitElement.length * unitElement.length * unitElement.length) ≠ 0 := by
  have hzero : ferLocalOf unitElement [momentLoadMZ] = fun _ => 0 := by
    simp [ferLocalOf, momentLoadMZ, unitElement]
  refine ⟨by rw [hzero], ?_, ?_⟩
  · intro i
    simp [Member3DElement.fixedEndReactions, hzero, Mat.multiplyVector]
  · show 6 * (1 : ℝ) * (0.3 * (1 : ℝ)) * ((1 : ℝ) - 0.3 * (1 : ℝ)) /
      ((1 : ℝ) * (1 : ℝ) * (1 : ℝ)) ≠ 0
    norm_num

/-- C3 amended: the exact moment fixed-end formulas (shear terms
`±6·P·a·b/L³`, moment terms `P·b·(2a−b)/L²` and `P·a·(2b−a)/L²`) are
applied to member loads of type `'point'` whose direction is `MZ` or
`MY`; member loads of type `'moment'` are ignored by
`fixedEndReactions`. -/
theorem C3_moment_formulas_on_point_loads (e : Member3DElement) (l : MemberLoad)
    (P a b : ℝ) (hm : l.member = e.id) (ht : l.type = MemberLoadType.point)
    (hP : P = jsOr l.magnitude 0) (ha : a = jsOr l.x 0.5 * e.length)
    (hb : b = e.length - a) :
    (jsToUpper l.direction = "MZ" →
      ferLocalOf e [l] 1 = 6 * P * a * b / (e.length * e.length * e.length) ∧
      ferLocalOf e [l] 5 = P * b * (2 * a - b) / (e.length * e.length) ∧
      ferLocalOf e [l] 7 = -(6 * P * a * b) / (e.length * e.length * e.length) ∧
      ferLocalOf e [l] 11 = P * a * (2 * b - a) / (e.length * e.length)) ∧
    (jsToUpper l.direction = "MY" →
      ferLocalOf e [l] 2 = -(6 * P * a * b) / (e.length * e.length * e.length) ∧
      ferLocalOf e [l] 4 = P * b * (2 * a - b) / (e.length * e.length) ∧
      ferLocalOf e [l] 8 = 6 * P * a * b / (e.length * e.length * e.length) ∧
      ferLocalOf e [l] 10 = P * a * (2 * b - a) / (e.length * e.length)) ∧
    (∀ l' : MemberLoad, l'.member = e.id → l'.type = MemberLoadType.moment →
      ferLocalOf e [l'] = fun _ => 0) := by
  subst hP ha hb
  have hfold : ferLocalOf e [l] =
      addPointLoadFER (fun _ => 0) (jsToUpper l.direction) (jsOr l.magnitude 0)
        (jsOr l.x 0.5 * e.length) e.length := by
    simp [ferLocalOf, hm, ht]
  refine ⟨?_, ?_, ?_⟩
  · intro hd
    rw [hfold, hd]
    refine ⟨?_, ?_, ?_, ?_⟩ <;> simp [addPointLoadFER, addAt_apply]
  · intro hd
    rw [hfold, hd]
    refine ⟨?_, ?_, ?_, ?_⟩ <;> simp [addPointLoadFER, addAt_apply]
  · intro l' h1 h2
    simp [ferLocalOf, h1, h2]

/-- Witness for the amended C3 at a concrete `point`-type `MZ` load. -/
theorem C3_witness :
    ferLocalOf unitElement
      [⟨"M1", MemberLoadType.point, "MZ", some 1, none, none, none, none, some 0.3⟩] 1 =
      6 * jsOr (some 1) 0 * (jsOr (some 0.3) 0.5 * unitElement.length) *
        (unitElement.length - jsOr (some 0.3) 0.5 * unitElement.length) /
        (unitElement.length * unitElement.length * unitElement.length) :=
  ((C3_moment_formulas_on_point_loads unitElement
    ⟨"M1", MemberLoadType.point, "MZ", some 1, none, none, none, none, some 0.3⟩
    (jsOr (some 1) 0) (jsOr (some 0.3) 0.5 * unitElement.length)
    (unitElement.length - jsOr (some 0.3) 0.5 * unitElement.length)
    rfl rfl rfl rfl rfl).1 (by rfl)).1

/-- C10: a `point` member load whose normalized position is given as `0`
is placed at mid-span — `load.x || 0.5` treats the falsy `0` like an
absent field — so it produces exactly the fixed-end reactions of a load
at `x = 0.5` (and of a load with `x` omitted). -/
theorem C10_point_load_at_zero_defaults_to_midspan (e : Member3DElement)
    (l : MemberLoad) (hm : l.member = e.id) (ht : l.type = MemberLoadType.point)
    (hx : l.x = some 0) :
    e.fixedEndReactions [l] = e.fixedEndReactions [{ l with x := some 0.5 }] ∧
    e.fixedEndReactions [l] = e.fixedEndReactions [{ l with x := none }] ∧
    ferLocalOf e [l] = ferLocalOf e [{ l with x := some 0.5 }] := by
  have h05 : jsOr (some (0.5 : ℝ)) 0.5 = (0.5 : ℝ) := by norm_num [jsOr]
  have h0 : jsOr (some (0 : ℝ)) 0.5 = (0.5 : ℝ) := by norm_num [jsOr]
  have hn : jsOr (none : Option ℝ) 0.5 = (0.5 : ℝ) := by norm_num [jsOr]
  have hfer : ∀ xv : Option ℝ, ferLocalOf e [{ l with x := xv }] =
      addPointLoadFER (fun _ => 0) (jsToUpper l.direction) (jsOr l.magnitude 0)
        (jsOr xv 0.5 * e.length) e.length := by
    intro xv
    simp [ferLocalOf, hm, ht]
  have hl : { l with x := some (0 : ℝ) } = l := by
    cases l
    simp_all
  have key : ferLocalOf e [l] = ferLocalOf e [{ l with x := some 0.5 }] := by
    rw [← hl, hfer, hfer, h0, h05]
  have key2 : ferLocalOf e [l] = ferLocalOf e [{ l with x := none }] := by
    rw [← hl, hfer, hfer, h0, hn]
  exact ⟨by rw [Member3DElement.fixedEndReactions, Member3DElement.fixedEndReactions, key],
    by rw [Member3DElement.fixedEndReactions, Member3DElement.fixedEndReactions, key2], key⟩

/-- Witness for C10 at a concrete `FY` point load given at `x = 0`. -/
theorem C10_witness :
    unitElement.fixedEndReactions
        [⟨"M1", MemberLoadType.point, "FY", some 1, none, none, none, none, some 0⟩] =
      unitElement.fixedEndReactions
        [⟨"M1", MemberLoadType.point, "FY", some 1, none, none, none, none, some 0.5⟩] :=
  (C10_point_load_at_zero_defaults_to_midspan unitElement
    ⟨"M1", MemberLoadType.point, "FY", some 1, none, none, none, none, some 0⟩
    rfl rfl rfl).1

/-! ## C4 : zero-length members and the Analyzer entry points -/

/-- Shared concrete material. -/
def mat1 : Material := ⟨"MAT", 1, 1, 0.3, 1⟩

/-- Shared concrete section. -/
def sec1 : Section := ⟨"SEC", 1, 1, 1, 1⟩

/-- Shared concrete member record. -/
def memb1 : Member := ⟨"M1", "N1", "N2", "MAT", "SEC", none⟩

/-- A model whose single member connects two coincident nodes. -/
def zeroLenModel : StanalModel :=
  ⟨[⟨"N1", 0, 0, 0⟩, ⟨"N2", 0, 0, 0⟩], [mat1], [sec1], [memb1], [], [], []⟩

/-- `Member3DElement.mk?` fails exactly on the zero-length check, with
the fixed message shape. -/
theorem mk?_error_shape (mem : Member) (iN jN : Node) (mat : Material)
    (sec : Section) (e : String)
    (h : Member3DElement.mk? mem iN jN mat sec = Except.error e) :
    e = "Member " ++ mem.id ++ " has zero length" := by
  rw [Member3DElement.mk?] at h
  split at h
  · injection h with h
    exact h.symm
  · cases h

/-- `buildStep` fails only with a zero-length message. -/
theorem buildStep_error_shape (m : StanalModel) (acc : List Member3DElement)
    (mem : Member) (e : String) (h : buildStep m acc mem = Except.error e) :
    e = "Member " ++ mem.id ++ " has zero length" := by
  rw [buildStep] at h
  rcases h1 : m.findNode mem.iNode with _ | iN <;> rw [h1] at h
  · simp at h
  rcases h2 : m.findNode mem.jNode with _ | jN <;> rw [h2] at h
  · simp at h
  rcases h3 : m.findMaterial mem.material with _ | mat <;> rw [h3] at h
  · simp at h
  rcases h4 : m.findSection mem.sect with _ | sec <;> rw [h4] at h
  · simp at h
  replace h : (match Member3DElement.mk? mem iN jN mat sec with
      | Except.error e => Except.error e
      | Except.ok el => Except.ok (acc ++ [el])) = Except.error e := h
  rcases h5 : Member3DElement.mk? mem iN jN mat sec with e' | el <;> rw [h5] at h
  · replace h : Except.error e' = Except.error e := h
    injection h with h
    exact h ▸ mk?_error_shape mem iN jN mat sec e' h5
  · replace h : Except.ok (acc ++ [el]) = Except.error e := h
    cases h

/-- If some member of the remaining list is resolvable and has zero
length, the construction fold fails with a zero-length message. -/
theorem foldlM_buildStep_error (m : StanalModel) (mem : Member)
    (iN jN : Node) (mat : Material) (sec : Section)
    (hi : m.findNode mem.iNode = some iN) (hj : m.findNode mem.jNode = some jN)
    (hmat : m.findMaterial mem.material = some mat)
    (hsec : m.findSection mem.sect = some sec)
    (hlen : Real.sqrt ((jN.x - iN.x) * (jN.x - iN.x) + (jN.y - iN.y) * (jN.y - iN.y) +
      (jN.z - iN.z) * (jN.z - iN.z)) < 1e-10) :
    ∀ (ms : List Member) (acc : List Member3DElement), mem ∈ ms →
      ∃ mid, ms.foldlM (buildStep m) acc =
        Except.error ("Member " ++ mid ++ " has zero length") := by
  intro ms
  induction ms with
  | nil => intro acc h; cases h
  | cons a t ih =>
    intro acc hmem
    rw [List.foldlM_cons]
    rcases hstep : buildStep m acc a with e | acc'
    · refine ⟨a.id, ?_⟩
      have hshape := buildStep_error_shape m acc a e hstep
      show Except.error e = _
      rw [hshape]
    · rcases List.mem_cons.mp hmem with rfl | hmem'
      · exfalso
        rw [buildStep, hi, hj, hmat, hsec] at hstep
        replace hstep : (match Member3DElement.mk? mem iN jN mat sec with
            | Except.error e => Except.error e
            | Except.ok el => Except.ok (acc ++ [el])) = Except.ok acc' := hstep
        rw [show Member3DElement.mk? mem iN jN mat sec =
            Except.error ("Member " ++ mem.id ++ " has zero length") from
          by rw [Member3DElement.mk?]; exact if_pos hlen] at hstep
        replace hstep : Except.error ("Member " ++ mem.id ++ " has zero length") =
          Except.ok acc' := hstep
        cases hstep
      · obtain ⟨mid, hm⟩ := ih acc' hmem'
        refine ⟨mid, ?_⟩
        show List.foldlM (buildStep m) acc' t = _
        exact hm

/-- C4 amended: a resolvable member whose endpoints coincide (computed
length below `1e-10`) makes `Analyzer` *construction* fail with the
human-readable message `` `Member <id> has zero length` `` — the error is
thrown from `initialize` inside the constructor and is not caught there,
so it never becomes a failed `analyze` result. -/
theorem C4_zero_length_fails_construction (m : StanalModel) (mem : Member)
    (iN jN : Node) (mat : Material) (sec : Section)
    (hmem : mem ∈ m.members)
    (hi : m.findNode mem.iNode = some iN) (hj : m.findNode mem.jNode = some jN)
    (hmat : m.findMaterial mem.material = some mat)
    (hsec : m.findSection mem.sect = some sec)
    (hlen : Real.sqrt ((jN.x - iN.x) * (jN.x - iN.x) + (jN.y - iN.y) * (jN.y - iN.y) +
      (jN.z - iN.z) * (jN.z - iN.z)) < 1e-10) :
    ∃ mid, Analyzer.mk? m = Except.error ("Member " ++ mid ++ " has zero length") := by
  obtain ⟨mid, hbuild⟩ :=
    foldlM_buildStep_error m mem iN jN mat sec hi hj hmat hsec hlen m.members [] hmem
  refine ⟨mid, ?_⟩
  rw [Analyzer.mk?, buildElements, hbuild]

/-- Witness for the amended C4 on the concrete coincident-node model. -/
theorem C4_witness :
    ∃ mid, Analyzer.mk? zeroLenModel =
      Except.error ("Member " ++ mid ++ " has zero length") :=
  C4_zero_length_fails_construction zeroLenModel memb1
    ⟨"N1", 0, 0, 0⟩ ⟨"N2", 0, 0, 0⟩ mat1 sec1
    (by simp [zeroLenModel]) rfl rfl rfl rfl (by norm_num)

/-- C4 counterexample: on the concrete model with a zero-length member,
the `Analyzer` constructor itself returns the thrown error
(`initialize` has no `try/catch`), so the failure is *not* surfaced as a
failed analysis result — the exception escapes Analyzer construction. -/
theorem C4_counterexample :
    Analyzer.mk? zeroLenModel = Except.error "Member M1 has zero length" := by
  have hmk : Member3DElement.mk? memb1 ⟨"N1", 0, 0, 0⟩ ⟨"N2", 0, 0, 0⟩ mat1 sec1 =
      Except.error "Member M1 has zero length" := by
    rw [Member3DElement.mk?]
    rw [if_pos (by norm_num [Real.sqrt_zero])]
    rfl
  have hstep : buildStep zeroLenModel [] memb1 =
      Except.error "Member M1 has zero length" := by
    have hred : buildStep zeroLenModel [] memb1 =
        (match Member3DElement.mk? memb1 ⟨"N1", 0, 0, 0⟩ ⟨"N2", 0, 0, 0⟩ mat1 sec1 with
         | Except.error e => Except.error e
         | Except.ok el => Except.ok ([] ++ [el])) := rfl
    rw [hred, hmk]
  rw [Analyzer.mk?, buildElements]
  rw [show zeroLenModel.members = [memb1] from rfl]
  rw [List.foldlM_cons, hstep]
  rfl

/-! ## Local stiffness table lemmas -/

/-- Entries right of the 12 written columns of the entry table are zero. -/
theorem kLocalEntry_oor_right (c1 c2 c3 c4 c5 c6 c7 c8 c9 c10 : ℝ) (i j : ℕ)
    (h : 12 ≤ j) : kLocalEntry c1 c2 c3 c4 c5 c6 c7 c8 c9 c10 i j = 0 := by
  rw [kLocalEntry]
  iterate 40 rw [if_neg (by omega)]

/-- Entries below the 12 written rows of the entry table are zero. -/
theorem kLocalEntry_oor_left (c1 c2 c3 c4 c5 c6 c7 c8 c9 c10 : ℝ) (i j : ℕ)
    (h : 12 ≤ i) : kLocalEntry c1 c2 c3 c4 c5 c6 c7 c8 c9 c10 i j = 0 := by
  rw [kLocalEntry]
  iterate 40 rw [if_neg (by omega)]

/-- The entry table is symmetric at every index pair. -/
theorem kLocalEntry_symm (c1 c2 c3 c4 c5 c6 c7 c8 c9 c10 : ℝ) (i j : ℕ) :
    kLocalEntry c1 c2 c3 c4 c5 c6 c7 c8 c9 c10 i j =
      kLocalEntry c1 c2 c3 c4 c5 c6 c7 c8 c9 c10 j i := by
  rcases Nat.lt_or_ge i 12 with hi | hi
  · rcases Nat.lt_or_ge j 12 with hj | hj
    · interval_cases i <;> interval_cases j <;> simp [kLocalEntry]
    · rw [kLocalEntry_oor_right _ _ _ _ _ _ _ _ _ _ _ _ hj,
        kLocalEntry_oor_left _ _ _ _ _ _ _ _ _ _ _ _ hj]
  · rw [kLocalEntry_oor_left _ _ _ _ _ _ _ _ _ _ _ _ hi,
      kLocalEntry_oor_right _ _ _ _ _ _ _ _ _ _ _ _ hi]

/-- Rows `m` and `m+6` of the entry table cancel for `m < 3` (force
equilibrium of the element in its local axes). -/
theorem kLocalEntry_row_pair (c1 c2 c3 c4 c5 c6 c7 c8 c9 c10 : ℝ) (m q : ℕ)
    (hm : m < 3) :
    kLocalEntry c1 c2 c3 c4 c5 c6 c7 c8 c9 c10 m q +
      kLocalEntry c1 c2 c3 c4 c5 c6 c7 c8 c9 c10 (m + 6) q = 0 := by
  rcases Nat.lt_or_ge q 12 with hq | hq
  · interval_cases m <;> interval_cases q <;> simp [kLocalEntry]
  · rw [kLocalEntry_oor_right _ _ _ _ _ _ _ _ _ _ _ _ hq,
      kLocalEntry_oor_right _ _ _ _ _ _ _ _ _ _ _ _ hq]
    norm_num

/-- The local stiffness matrix is symmetric (at every index pair). -/
theorem kLocal_symm (e : Member3DElement) (i j : ℕ) :
    e.localStiffnessMatrix.entry i j = e.localStiffnessMatrix.entry j i :=
  kLocalEntry_symm _ _ _ _ _ _ _ _ _ _ i j

/-- Rows `m` and `m+6` of the local stiffness matrix cancel for the three
translation components `m < 3`. -/
theorem kLocal_row_pair (e : Member3DElement) (m q : ℕ) (hm : m < 3) :
    e.localStiffnessMatrix.entry m q + e.localStiffnessMatrix.entry (m + 6) q = 0 :=
  kLocalEntry_row_pair _ _ _ _ _ _ _ _ _ _ m q hm

/-! ## C8 : symmetry of the assembled global stiffness matrix -/

/-- `Tᵗ·M·T` is symmetric for a symmetric 12×12 `M` and any 12×12 `T`. -/
theorem sandwich_symm (T M : Mat) (hM : ∀ p q, M.entry p q = M.entry q p)
    (hr : T.rows = 12) (hc : T.cols = 12) (hMc : M.cols = 12) (a b : ℕ) :
    ((T.transpose.multiply M).multiply T).entry a b =
      ((T.transpose.multiply M).multiply T).entry b a := by
  have L1 : ∀ a b : ℕ, ((T.transpose.multiply M).multiply T).entry a b =
      ∑ q ∈ Finset.range 12, ∑ p ∈ Finset.range 12,
        T.entry p a * M.entry p q * T.entry q b := by
    intro a b
    simp only [Mat.multiply, Mat.transpose, hr, hc, hMc, Finset.sum_mul]
  rw [L1, L1, Finset.sum_comm]
  refine Finset.sum_congr rfl fun q _ => Finset.sum_congr rfl fun p _ => ?_
  rw [hM p q]
  ring

/-- The element's global stiffness matrix is symmetric. -/
theorem kGlobal_symm (e : Member3DElement) (a b : ℕ) :
    e.globalStiffnessMatrix.entry a b = e.globalStiffnessMatrix.entry b a := by
  exact sandwich_symm e.transformationMatrix e.localStiffnessMatrix
    (kLocal_symm e) rfl rfl rfl a b

/-- `scatterAdd` preserves symmetry when the scattered block is
symmetric. -/
theorem scatterAdd_symm (K : Mat) (dm : ℕ → ℕ) (kG : Mat)
    (hK : ∀ r s, K.entry r s = K.entry s r) (hG : ∀ a b, kG.entry a b = kG.entry b a)
    (r s : ℕ) : (scatterAdd K dm kG).entry r s = (scatterAdd K dm kG).entry s r := by
  simp only [scatterAdd]
  rw [hK r s]
  congr 1
  rw [Finset.sum_comm]
  refine Finset.sum_congr rfl fun b _ => Finset.sum_congr rfl fun a _ => ?_
  rw [hG a b]
  exact if_congr and_comm rfl rfl

/-- The assembly fold preserves symmetry. -/
theorem foldl_scatter_symm (m : StanalModel) (es : List Member3DElement) :
    ∀ K : Mat, (∀ r s, K.entry r s = K.entry s r) → ∀ r s,
      (es.foldl (fun K e => scatterAdd K (dofMapOf m e) e.globalStiffnessMatrix) K).entry r s =
      (es.foldl (fun K e => scatterAdd K (dofMapOf m e) e.globalStiffnessMatrix) K).entry s r := by
  induction es with
  | nil => intro K hK r s; exact hK r s
  | cons e t ih =>
    intro K hK r s
    exact ih (scatterAdd K (dofMapOf m e) e.globalStiffnessMatrix)
      (fun r s => scatterAdd_symm K (dofMapOf m e) e.globalStiffnessMatrix hK
        (kGlobal_symm e) r s) r s

/-- C8: for every analyzer state, the assembled global stiffness matrix
is exactly symmetric — each element's local matrix is symmetric, the
congruence transform `Tᵗ·K_local·T` preserves symmetry, and the additive
scatter of symmetric blocks through one shared DOF map keeps the
accumulated matrix symmetric. -/
theorem C8_global_stiffness_symmetric (a : Analyzer) (i j : ℕ) :
    a.assembleGlobalStiffnessMatrix.entry i j =
      a.assembleGlobalStiffnessMatrix.entry j i := by
  exact foldl_scatter_symm a.model a.elements (Mat.zeros a.numDOF a.numDOF)
    (fun _ _ => rfl) i j

/-! ## Row sums of the assembled stiffness matrix (translation components) -/

/-- A sum over a range with only two nonzero terms. -/
theorem sum_range_eq_pair (n u v : ℕ) (g : ℕ → ℝ) (hu : u < n) (hv : v < n)
    (huv : u ≠ v) (hz : ∀ x, x < n → x ≠ u → x ≠ v → g x = 0) :
    (∑ x ∈ Finset.range n, g x) = g u + g v := by
  have hsub : ({u, v} : Finset ℕ) ⊆ Finset.range n := by
    intro x hx
    rcases Finset.mem_insert.mp hx with rfl | hx
    · exact Finset.mem_range.mpr hu
    · exact Finset.mem_range.mpr (Finset.mem_singleton.mp hx ▸ hv)
  rw [← Finset.sum_subset hsub, Finset.sum_pair huv]
  intro x hx hnot
  refine hz x (Finset.mem_range.mp hx) ?_ ?_ <;>
    (intro h; exact hnot (by simp [h]))

/-- Exactly one node index `i < N` satisfies `x = 6·i + c` when
`x % 6 = c` and `x / 6 < N`, and none otherwise. -/
theorem sum_indicator_dof (N c x : ℕ) (hc : c < 6) (v : ℝ) :
    (∑ i ∈ Finset.range N, if x = 6 * i + c then v else 0) =
      if x % 6 = c ∧ x / 6 < N then v else 0 := by
  by_cases h : x % 6 = c ∧ x / 6 < N
  · rw [if_pos h, Finset.sum_eq_single (x / 6)]
    · rw [if_pos (by omega)]
    · intro i _ hne
      rw [if_neg (by omega)]
    · intro habs
      exact absurd (Finset.mem_range.mpr h.2) habs
  · rw [if_neg h]
    apply Finset.sum_eq_zero
    intro i hi
    have hiN := Finset.mem_range.mp hi
    rw [if_neg (by omega)]

/-- Column `c < 3` of the block-diagonal transformation matrix. -/
theorem blockDiag4_col_low (R : Mat) (c : ℕ) (hc : c < 3) (p : ℕ) :
    (blockDiag4 R).entry p c = if p < 3 then R.entry p c else 0 := by
  simp only [blockDiag4]
  by_cases hp : p < 3
  · rw [if_pos ⟨by omega, by omega, by omega⟩, if_pos hp,
      Nat.mod_eq_of_lt hp, Nat.mod_eq_of_lt (by omega)]
  · rw [if_neg ?_, if_neg hp]
    rintro ⟨h1, h2, h3⟩
    exact hp (by omega)

/-- Column `c + 6` (`c < 3`) of the block-diagonal transformation matrix. -/
theorem blockDiag4_col_high (R : Mat) (c : ℕ) (hc : c < 3) (p : ℕ) :
    (blockDiag4 R).entry p (c + 6) = if 6 ≤ p ∧ p < 9 then R.entry (p - 6) c else 0 := by
  simp only [blockDiag4]
  by_cases hp : 6 ≤ p ∧ p < 9
  · rw [if_pos ⟨by omega, by omega, by omega⟩, if_pos hp,
      show p % 3 = p - 6 from by omega, show (c + 6) % 3 = c from by omega]
  · rw [if_neg ?_, if_neg hp]
    rintro ⟨h1, h2, h3⟩
    exact hp (by omega)

/-- Rows `c` and `c+6` (`c < 3`) of an element's global stiffness matrix
cancel: global force equilibrium of the element for each translation
direction. -/
theorem kGlobal_row_pair (e : Member3DElement) (c b : ℕ) (hc : c < 3) :
    e.globalStiffnessMatrix.entry c b + e.globalStiffnessMatrix.entry (c + 6) b = 0 := by
  have L1 : ∀ x y : ℕ, e.globalStiffnessMatrix.entry x y =
      ∑ q ∈ Finset.range 12,
        (∑ p ∈ Finset.range 12,
          e.transformationMatrix.entry p x * e.localStiffnessMatrix.entry p q) *
        e.transformationMatrix.entry q y := fun x y => rfl
  rw [L1, L1, ← Finset.sum_add_distrib]
  apply Finset.sum_eq_zero
  intro q _
  rw [← add_mul]
  have hinner : (∑ p ∈ Finset.range 12,
        e.transformationMatrix.entry p c * e.localStiffnessMatrix.entry p q) +
      (∑ p ∈ Finset.range 12,
        e.transformationMatrix.entry p (c + 6) * e.localStiffnessMatrix.entry p q) = 0 := by
    rw [← Finset.sum_add_distrib]
    have hT : ∀ p : ℕ, e.transformationMatrix.entry p c =
        if p < 3 then (createRotationMatrix e.iNode e.jNode e.rotation).entry p c else 0 :=
      blockDiag4_col_low _ c hc
    have hT6 : ∀ p : ℕ, e.transformationMatrix.entry p (c + 6) =
        if 6 ≤ p ∧ p < 9 then (createRotationMatrix e.iNode e.jNode e.rotation).entry (p - 6) c
        else 0 :=
      blockDiag4_col_high _ c hc
    simp only [Finset.sum_range_succ, Finset.sum_range_zero, hT, hT6]
    norm_num
    have h0 := kLocal_row_pair e 0 q (by omega)
    have h1 := kLocal_row_pair e 1 q (by omega)
    have h2 := kLocal_row_pair e 2 q (by omega)
    linear_combination
      (createRotationMatrix e.iNode e.jNode e.rotation).entry 0 c * h0 +
      (createRotationMatrix e.iNode e.jNode e.rotation).entry 1 c * h1 +
      (createRotationMatrix e.iNode e.jNode e.rotation).entry 2 c * h2
  rw [hinner, zero_mul]

/-- Scattering one element's global stiffness block does not change the
per-direction row sums `Σ_i K[6·i+c][j]` for translation components. -/
theorem scatterAdd_rowsum (K kG : Mat) (dm : ℕ → ℕ) (N c j : ℕ) (hc : c < 3)
    (i1 i2 : ℕ) (hdm : ∀ t, dm t = if t < 6 then 6 * i1 + t else 6 * i2 + (t - 6))
    (h1 : i1 < N) (h2 : i2 < N)
    (hpair : ∀ b, kG.entry c b + kG.entry (c + 6) b = 0) :
    (∑ i ∈ Finset.range N, (scatterAdd K dm kG).entry (6 * i + c) j) =
      ∑ i ∈ Finset.range N, K.entry (6 * i + c) j := by
  simp only [scatterAdd]
  rw [Finset.sum_add_distrib]
  have main : (∑ i ∈ Finset.range N, ∑ a ∈ Finset.range 12, ∑ b ∈ Finset.range 12,
      if dm a = 6 * i + c ∧ dm b = j then kG.entry a b else 0) = 0 := by
    rw [Finset.sum_comm]
    rw [show (∑ a ∈ Finset.range 12, ∑ i ∈ Finset.range N, ∑ b ∈ Finset.range 12,
        if dm a = 6 * i + c ∧ dm b = j then kG.entry a b else 0) =
      ∑ a ∈ Finset.range 12, ∑ b ∈ Finset.range 12, ∑ i ∈ Finset.range N,
        if dm a = 6 * i + c ∧ dm b = j then kG.entry a b else 0 from
      Finset.sum_congr rfl fun a _ => Finset.sum_comm]
    have step2 : ∀ a b : ℕ, (∑ i ∈ Finset.range N,
        if dm a = 6 * i + c ∧ dm b = j then kG.entry a b else 0) =
        if dm a % 6 = c ∧ dm a / 6 < N then
          (if dm b = j then kG.entry a b else 0) else 0 := by
      intro a b
      rw [show (∑ i ∈ Finset.range N,
          if dm a = 6 * i + c ∧ dm b = j then kG.entry a b else 0) =
        ∑ i ∈ Finset.range N,
          if dm a = 6 * i + c then (if dm b = j then kG.entry a b else 0) else 0 from
        Finset.sum_congr rfl fun i _ => ite_and _ _ _ _]
      exact sum_indicator_dof N c (dm a) (by omega) _
    simp only [step2]
    have pull : ∀ a, (∑ b ∈ Finset.range 12,
        if dm a % 6 = c ∧ dm a / 6 < N then
          (if dm b = j then kG.entry a b else 0) else 0) =
        if dm a % 6 = c ∧ dm a / 6 < N then
          (∑ b ∈ Finset.range 12, if dm b = j then kG.entry a b else 0) else 0 := by
      intro a
      by_cases hcond : dm a % 6 = c ∧ dm a / 6 < N
      · simp only [if_pos hcond]
      · simp only [if_neg hcond, Finset.sum_const_zero]
    simp only [pull]
    have hz : ∀ x, x < 12 → x ≠ c → x ≠ c + 6 →
        (if dm x % 6 = c ∧ dm x / 6 < N then
          (∑ b ∈ Finset.range 12, if dm b = j then kG.entry x b else 0) else 0) = 0 := by
      intro x hx hxc hxc6
      rw [if_neg]
      intro hcond
      rcases Nat.lt_or_ge x 6 with hx6 | hx6
      · rw [hdm x, if_pos hx6] at hcond
        omega
      · rw [hdm x, if_neg (by omega)] at hcond
        omega
    rw [sum_range_eq_pair 12 c (c + 6)
      (fun a => if dm a % 6 = c ∧ dm a / 6 < N then
        (∑ b ∈ Finset.range 12, if dm b = j then kG.entry a b else 0) else 0)
      (by omega) (by omega) (by omega) hz]
    have hcondc : dm c % 6 = c ∧ dm c / 6 < N := by
      rw [hdm c, if_pos (by omega)]
      omega
    have hcondc6 : dm (c + 6) % 6 = c ∧ dm (c + 6) / 6 < N := by
      rw [hdm (c + 6), if_neg (by omega)]
      constructor <;> omega
    show (if dm c % 6 = c ∧ dm c / 6 < N then
        (∑ b ∈ Finset.range 12, if dm b = j then kG.entry c b else 0) else 0) +
      (if dm (c + 6) % 6 = c ∧ dm (c + 6) / 6 < N then
        (∑ b ∈ Finset.range 12, if dm b = j then kG.entry (c + 6) b else 0) else 0) = 0
    rw [if_pos hcondc, if_pos hcondc6, ← Finset.sum_add_distrib]
    apply Finset.sum_eq_zero
    intro b _
    by_cases hb : dm b = j
    · rw [if_pos hb, if_pos hb, hpair b]
    · rw [if_neg hb, if_neg hb, add_zero]
  rw [main, add_zero]

/-- A successful `findNode` returns a node of the model carrying the
looked-up id. -/
theorem findNode_spec (m : StanalModel) (key : String) (nd : Node)
    (h : m.findNode key = some nd) : nd ∈ m.nodes ∧ nd.id = key := by
  unfold StanalModel.findNode lookupLast at h
  refine ⟨List.mem_reverse.mp (List.mem_of_find?_eq_some h), ?_⟩
  have := List.find?_some h
  simpa using this

/-- Every node of the model has a valid index in `nodeIndexMap`. -/
theorem nodeIndexOf_valid (m : StanalModel) (nd : Node) (h : nd ∈ m.nodes) :
    ∃ idx, m.nodeIndexOf nd.id = some idx ∧ idx < m.nodes.length := by
  obtain ⟨n, hn, hget⟩ := List.mem_iff_getElem.mp h
  have hmem : (⟨n, nd⟩ : ℕ × Node) ∈ m.nodes.enum.reverse := by
    rw [List.mem_reverse, List.mem_enum_iff_getElem?]
    exact List.getElem?_eq_some.mpr ⟨hn, hget⟩
  have hsome : (m.nodes.enum.reverse.find? (fun p => p.2.id = nd.id)).isSome :=
    List.find?_isSome.mpr ⟨_, hmem, by simp⟩
  rcases hfind : m.nodes.enum.reverse.find? (fun p => p.2.id = nd.id) with _ | p
  · rw [hfind] at hsome
    cases hsome
  · refine ⟨p.1, ?_, ?_⟩
    · unfold StanalModel.nodeIndexOf
      rw [hfind]
      rfl
    · have hp := List.mem_reverse.mp (List.mem_of_find?_eq_some hfind)
      have := List.mem_enum_iff_getElem?.mp hp
      exact (List.getElem?_eq_some.mp this).1

/-- Validity of one constructed element: both end-node ids resolve to
indices below the node count. -/
def elemValid (m : StanalModel) (e : Member3DElement) : Prop :=
  (∃ i1, m.nodeIndexOf e.iNode.id = some i1 ∧ i1 < m.nodes.length) ∧
  (∃ i2, m.nodeIndexOf e.jNode.id = some i2 ∧ i2 < m.nodes.length)

/-- Elements produced by the construction fold are valid. -/
theorem foldlM_buildStep_valid (m : StanalModel) :
    ∀ (ms : List Member) (acc es : List Member3DElement),
      ms.foldlM (buildStep m) acc = Except.ok es →
      (∀ e ∈ acc, elemValid m e) → ∀ e ∈ es, elemValid m e := by
  intro ms
  induction ms with
  | nil =>
    intro acc es h hacc
    rw [List.foldlM_nil] at h
    cases h
    exact hacc
  | cons a t ih =>
    intro acc es h hacc
    rw [List.foldlM_cons] at h
    rcases hstep : buildStep m acc a with e' | acc'
    · rw [hstep] at h
      cases h
    · rw [hstep] at h
      replace h : t.foldlM (buildStep m) acc' = Except.ok es := h
      refine ih acc' es h ?_
      rw [buildStep] at hstep
      rcases h1 : m.findNode a.iNode with _ | iN <;> rw [h1] at hstep
      · replace hstep : (Except.ok acc : Except String (List Member3DElement)) =
          Except.ok acc' := hstep
        injection hstep with hstep
        exact hstep ▸ hacc
      rcases h2 : m.findNode a.jNode with _ | jN <;> rw [h2] at hstep
      · replace hstep : (Except.ok acc : Except String (List Member3DElement)) =
          Except.ok acc' := hstep
        injection hstep with hstep
        exact hstep ▸ hacc
      rcases h3 : m.findMaterial a.material with _ | mat <;> rw [h3] at hstep
      · replace hstep : (Except.ok acc : Except String (List Member3DElement)) =
          Except.ok acc' := hstep
        injection hstep with hstep
        exact hstep ▸ hacc
      rcases h4 : m.findSection a.sect with _ | sec <;> rw [h4] at hstep
      · replace hstep : (Except.ok acc : Except String (List Member3DElement)) =
          Except.ok acc' := hstep
        injection hstep with hstep
        exact hstep ▸ hacc
      replace hstep : (match Member3DElement.mk? a iN jN mat sec with
          | Except.error e => Except.error e
          | Except.ok el => Except.ok (acc ++ [el])) = Except.ok acc' := hstep
      rcases h5 : Member3DElement.mk? a iN jN mat sec with e' | el <;> rw [h5] at hstep
      · replace hstep : (Except.error e' : Except String (List Member3DElement)) =
          Except.ok acc' := hstep
        cases hstep
      · replace hstep : (Except.ok (acc ++ [el]) : Except String (List Member3DElement)) =
          Except.ok acc' := hstep
        injection hstep with hstep
        subst hstep
        intro e he
        rcases List.mem_append.mp he with he | he
        · exact hacc e he
        · rw [List.mem_singleton.mp he]
          have hel : el.iNode = iN ∧ el.jNode = jN := by
            rw [Member3DElement.mk?] at h5
            split at h5
            · cases h5
            · injection h5 with h5
              rw [← h5]
              exact ⟨rfl, rfl⟩
          constructor
          · rw [hel.1]
            exact nodeIndexOf_valid m iN (findNode_spec m a.iNode iN h1).1
          · rw [hel.2]
            exact nodeIndexOf_valid m jN (findNode_spec m a.jNode jN h2).1

/-- Elements of an analyzer built by the constructor are valid. -/
theorem analyzer_elements_valid (m : StanalModel) (a : Analyzer)
    (hA : Analyzer.mk? m = Except.ok a) : a.model = m ∧ a.numDOF = m.nodes.length * 6 ∧
    a.freeDOF = freeDOFList m ∧ a.fixedDOF = fixedDOFList m ∧
    ∀ e ∈ a.elements, elemValid m e := by
  rw [Analyzer.mk?] at hA
  rcases hb : buildElements m with e' | es <;> rw [hb] at hA
  · cases hA
  · replace hA : (Except.ok (⟨m, es, m.nodes.length * 6, freeDOFList m, fixedDOFList m⟩ :
      Analyzer) : Except String Analyzer) = Except.ok a := hA
    injection hA with hA
    subst hA
    exact ⟨rfl, rfl, rfl, rfl, foldlM_buildStep_valid m m.members [] es hb (by simp)⟩

/-- The per-direction row sums of the assembled global stiffness matrix
vanish for translation components. -/
theorem foldl_scatter_rowsum (m : StanalModel) (c j : ℕ) (hc : c < 3) :
    ∀ (es : List Member3DElement) (K : Mat),
      (∀ e ∈ es, elemValid m e) →
      (∑ i ∈ Finset.range m.nodes.length,
        (es.foldl (fun K e => scatterAdd K (dofMapOf m e) e.globalStiffnessMatrix) K).entry
          (6 * i + c) j) =
      ∑ i ∈ Finset.range m.nodes.length, K.entry (6 * i + c) j := by
  intro es
  induction es with
  | nil => intro K _; rfl
  | cons e t ih =>
    intro K hval
    obtain ⟨⟨i1, hi1, hi1N⟩, ⟨i2, hi2, hi2N⟩⟩ := hval e (by simp)
    rw [List.foldl_cons,
      ih (scatterAdd K (dofMapOf m e) e.globalStiffnessMatrix)
        (fun e' he' => hval e' (by simp [he'])),
      scatterAdd_rowsum K e.globalStiffnessMatrix (dofMapOf m e) m.nodes.length c j hc
        i1 i2 ?_ hi1N hi2N (fun b => kGlobal_row_pair e c b hc)]
    intro t
    rw [dofMapOf, hi1, hi2]
    rfl

/-- The assembled global stiffness matrix of a constructed analyzer has
vanishing translation row sums: `Σ_i K[6·i+c][j] = 0` for `c < 3`. -/
theorem assembled_K_rowsum (m : StanalModel) (a : Analyzer)
    (hA : Analyzer.mk? m = Except.ok a) (c j : ℕ) (hc : c < 3) :
    (∑ i ∈ Finset.range m.nodes.length,
      a.assembleGlobalStiffnessMatrix.entry (6 * i + c) j) = 0 := by
  obtain ⟨hm, hn, hf, hx, hval⟩ := analyzer_elements_valid m a hA
  rw [Analyzer.assembleGlobalStiffnessMatrix, hm]
  rw [foldl_scatter_rowsum m c j hc a.elements (Mat.zeros a.numDOF a.numDOF) hval]
  simp [Mat.zeros]

/-! ## C2 : global equilibrium of the computed results -/

/-- `analyze` on an unknown combination name. -/
theorem analyze_not_found (a : Analyzer) (name : String)
    (h : findCombo a.model name = none) :
    a.analyze name = comboNotFoundResult name := by
  rw [Analyzer.analyze, h]

/-- `analyze` when the solve stage fails. -/
theorem analyze_solve_error (a : Analyzer) (name : String) (combo : LoadCombination)
    (e : String) (hfind : findCombo a.model name = some combo)
    (hs : a.solveDisp combo = Except.error e) :
    a.analyze name = solveFailedResult name e := by
  rw [Analyzer.analyze, hfind]
  show (match a.solveDisp combo with
    | Except.error e => solveFailedResult name e
    | Except.ok D1 => a.successResult name combo D1) = _
  rw [hs]

/-- `analyze` when the solve stage succeeds. -/
theorem analyze_solve_ok (a : Analyzer) (name : String) (combo : LoadCombination)
    (D1 : ℕ → ℝ) (hfind : findCombo a.model name = some combo)
    (hs : a.solveDisp combo = Except.ok D1) :
    a.analyze name = a.successResult name combo D1 := by
  rw [Analyzer.analyze, hfind]
  show (match a.solveDisp combo with
    | Except.error e => solveFailedResult name e
    | Except.ok D1 => a.successResult name combo D1) = _
  rw [hs]

/-- List-range map sum as a `Finset` sum. -/
theorem list_range_map_sum (n : ℕ) (g : ℕ → ℝ) :
    ((List.range n).map g).sum = ∑ i ∈ Finset.range n, g i := by
  induction n with
  | zero => rfl
  | succ k ih =>
    rw [List.range_succ, List.map_append, List.sum_append, Finset.sum_range_succ, ih]
    simp

/-- A map over `enum` depending only on the index. -/
theorem sum_map_enum_index {α : Type} (l : List α) (f : ℕ × α → ℝ) (g : ℕ → ℝ)
    (hfg : ∀ p : ℕ × α, f p = g p.1) :
    ((l.enum.map f).sum) = ∑ i ∈ Finset.range l.length, g i := by
  have h1 : l.enum.map f = l.enum.map (g ∘ Prod.fst) := by
    apply List.map_congr_left
    intro p _
    exact hfg p
  rw [h1, ← List.map_map, List.enum_map_fst, list_range_map_sum]

/-- The reaction-component sum over extracted node results is the sum of
the reaction vector over the per-node DOF indices. -/
theorem extract_reaction_sum (m : StanalModel) (D R : ℕ → ℝ) (c : ℕ) (hc : c < 6) :
    ((extractNodeResults m D R).map (fun nr => nr.reaction.comp c)).sum =
      ∑ i ∈ Finset.range m.nodes.length, R (6 * i + c) := by
  rw [extractNodeResults, List.map_map]
  apply sum_map_enum_index
  intro p
  show NodeDOF.comp _ c = R (6 * p.1 + c)
  interval_cases c <;> simp [NodeDOF.comp] <;> (congr 1; ring)

/-- `combinedLoadVector` splits pointwise into its nodal and member
parts. -/
theorem combined_split (a : Analyzer) (combo : LoadCombination) (i : ℕ) :
    a.combinedLoadVector combo i =
      a.combinedNodalVector combo i + a.combinedMemberVector combo i := by
  rw [Analyzer.combinedLoadVector, Analyzer.combinedNodalVector,
    Analyzer.combinedMemberVector]
  suffices h : ∀ (fs : List (String × ℝ)) (P Q R : ℕ → ℝ),
      (∀ i, P i = Q i + R i) →
      ∀ i, (fs.foldl (fun P cf =>
          match findLoadCase a.model cf.1 with
          | none => P
          | some lc => fun i => P i + cf.2 * a.assembleLoadVector lc i) P) i =
        (fs.foldl (fun P cf =>
          match findLoadCase a.model cf.1 with
          | none => P
          | some lc => fun i => P i + cf.2 * a.nodalLoadVector lc i) Q) i +
        (fs.foldl (fun P cf =>
          match findLoadCase a.model cf.1 with
          | none => P
          | some lc => fun i => P i + cf.2 * a.memberLoadVector lc i) R) i by
    exact h combo.factors (fun _ => 0) (fun _ => 0) (fun _ => 0) (by simp) i
  intro fs
  induction fs with
  | nil => intro P Q R h i; exact h i
  | cons cf t ih =>
    intro P Q R h i
    simp only [List.foldl_cons]
    rcases hlc : findLoadCase a.model cf.1 with _ | lc
    · exact ih P Q R h i
    · apply ih
      intro x
      show P x + cf.2 * a.assembleLoadVector lc x =
        (Q x + cf.2 * a.nodalLoadVector lc x) + (R x + cf.2 * a.memberLoadVector lc x)
      rw [h x, Analyzer.assembleLoadVector]
      ring

/-- The column count survives the assembly fold. -/
theorem foldl_scatter_cols (m : StanalModel) (es : List Member3DElement) :
    ∀ K : Mat,
      (es.foldl (fun K e => scatterAdd K (dofMapOf m e) e.globalStiffnessMatrix) K).cols =
        K.cols := by
  induction es with
  | nil => intro K; rfl
  | cons e t ih => intro K; exact ih _

/-- C2 amended (translation components): for every model, constructed
analyzer and combination for which `analyze` succeeds, the sum over all
nodes of the factor-weighted applied nodal loads, plus the sum of the
factor-weighted fixed-end-reaction-derived equivalent nodal loads, plus
the sum of the computed reactions (`R = K·D − P`), is exactly zero for
each translation component `c ∈ {0,1,2}`. -/
theorem C2_translation_equilibrium (m : StanalModel) (a : Analyzer)
    (hA : Analyzer.mk? m = Except.ok a) (name : String) (combo : LoadCombination)
    (hfind : findCombo m name = some combo)
    (hsucc : (a.analyze name).success = true) (c : ℕ) (hc : c < 3) :
    (∑ i ∈ Finset.range m.nodes.length, a.combinedNodalVector combo (6 * i + c)) +
    (∑ i ∈ Finset.range m.nodes.length, a.combinedMemberVector combo (6 * i + c)) +
    ((a.analyze name).nodes.map (fun nr => nr.reaction.comp c)).sum = 0 := by
  obtain ⟨hm, hnum, hfree, hfixed, hval⟩ := analyzer_elements_valid m a hA
  have hfind' : findCombo a.model name = some combo := by rw [hm]; exact hfind
  rcases hs : a.solveDisp combo with e | D1
  · rw [analyze_solve_error a name combo e hfind' hs] at hsucc
    cases hsucc
  have hres := analyze_solve_ok a name combo D1 hfind' hs
  rw [hres]
  show _ + _ + ((extractNodeResults a.model (a.fullDisp D1)
    (a.reactionsOf combo D1)).map (fun nr => nr.reaction.comp c)).sum = 0
  rw [hm, extract_reaction_sum m (a.fullDisp D1) (a.reactionsOf combo D1) c (by omega)]
  have hreac : ∀ i : ℕ, a.reactionsOf combo D1 i =
      a.assembleGlobalStiffnessMatrix.multiplyVector (a.fullDisp D1) i -
        a.combinedLoadVector combo i := fun i => rfl
  simp only [hreac]
  rw [Finset.sum_sub_distrib]
  have hKD : (∑ i ∈ Finset.range m.nodes.length,
      a.assembleGlobalStiffnessMatrix.multiplyVector (a.fullDisp D1) (6 * i + c)) = 0 := by
    simp only [Mat.multiplyVector]
    rw [Finset.sum_comm]
    apply Finset.sum_eq_zero
    intro j _
    rw [← Finset.sum_mul, assembled_K_rowsum m a hA c j hc, zero_mul]
  rw [hKD]
  have hP : ∀ i : ℕ, a.combinedLoadVector combo i =
      a.combinedNodalVector combo i + a.combinedMemberVector combo i :=
    combined_split a combo
  simp only [hP]
  rw [Finset.sum_add_distrib]
  ring

/-! ## C5 : the Gaussian-elimination solver

The invariant: after `k` completed steps, the *effective* system (the
matrix with the stored multipliers in the processed columns masked to
zero) has exactly the solutions of the original system, and the
processed diagonal entries have passed the pivot guard. -/

/-- The effective entry: positions `j < min i k` of row `i` hold stored
multipliers and count as zero. -/
def maskEntry (k : ℕ) (M : Mat) (i j : ℕ) : ℝ :=
  if j < min i k then 0 else M.entry i j

/-- `z` solves the effective system of `(M, rhs)` at mask level `mask`. -/
def sysHolds (n : ℕ) (M : Mat) (rhs : ℕ → ℝ) (mask : ℕ) (z : ℕ → ℝ) : Prop :=
  ∀ i, i < n → (∑ j ∈ Finset.range n, maskEntry mask M i j * z j) = rhs i

/-- The diagonal entries of the processed rows passed the pivot guard. -/
def diagOK (M : Mat) (k : ℕ) : Prop := ∀ i, i < k → 1e-12 ≤ |M.entry i i|

/-- The pivot row chosen at step `k` lies in `[k, n)`. -/
theorem pivotSearch_bounds (A : Mat) (k n : ℕ) (hk : k < n) :
    k ≤ (pivotSearch A k n).1 ∧ (pivotSearch A k n).1 < n := by
  rw [pivotSearch]
  have hgen : ∀ (l : List ℕ), (∀ x ∈ l, k ≤ x ∧ x < n) →
      ∀ acc : ℕ × ℝ, k ≤ acc.1 → acc.1 < n →
      k ≤ (l.foldl (fun acc i =>
        if |A.entry i k| > acc.2 then (i, |A.entry i k|) else acc) acc).1 ∧
      (l.foldl (fun acc i =>
        if |A.entry i k| > acc.2 then (i, |A.entry i k|) else acc) acc).1 < n := by
    intro l
    induction l with
    | nil => intro _ acc h1 h2; exact ⟨h1, h2⟩
    | cons a t ih =>
      intro hmem acc h1 h2
      rw [List.foldl_cons]
      by_cases hcmp : |A.entry a k| > acc.2
      · rw [if_pos hcmp]
        exact ih (fun x hx => hmem x (by simp [hx]))
          _ (hmem a (by simp)).1 (hmem a (by simp)).2
      · rw [if_neg hcmp]
        exact ih (fun x hx => hmem x (by simp [hx])) acc h1 h2
  refine hgen _ ?_ (k, |A.entry k k|) le_rfl hk
  intro x hx
  have := List.mem_range'_1.mp hx
  omega

/-- Entry form of `swapRowsM`. -/
theorem swapRowsM_entry (A : Mat) (r1 r2 i j : ℕ) :
    (swapRowsM A r1 r2).entry i j =
      if i = r1 then A.entry r2 j else if i = r2 then A.entry r1 j else A.entry i j := rfl

/-- `sysHolds` only reads the masked entries and the right-hand side. -/
theorem sysHolds_congr (n mask : ℕ) (M M' : Mat) (rhs rhs' : ℕ → ℝ)
    (hE : ∀ i, i < n → ∀ j, maskEntry mask M i j = maskEntry mask M' i j)
    (hr : ∀ i, i < n → rhs i = rhs' i) (z : ℕ → ℝ) :
    sysHolds n M rhs mask z ↔ sysHolds n M' rhs' mask z := by
  constructor <;> intro h i hi
  · rw [← hr i hi, ← h i hi]
    exact Finset.sum_congr rfl fun j _ => by rw [hE i hi j]
  · rw [hr i hi, ← h i hi]
    exact Finset.sum_congr rfl fun j _ => by rw [hE i hi j]

/-- One direction of swap preservation. -/
theorem swap_forward (n k r : ℕ) (A : Mat) (x : ℕ → ℝ)
    (hkr : k ≤ r) (hr : r < n) (hkn : k < n) (z : ℕ → ℝ)
    (h : sysHolds n A x k z) : sysHolds n (swapRowsM A k r) (swapVec x k r) k z := by
  intro i hi
  by_cases hik : i = k
  · have hmask : ∀ j, maskEntry k (swapRowsM A k r) i j = maskEntry k A r j := by
      intro j
      rw [maskEntry, maskEntry, swapRowsM_entry, if_pos hik,
        show min i k = k from by omega, show min r k = k from by omega]
    have hv : swapVec x k r i = x r := by
      rw [swapVec, if_pos hik]
    rw [Finset.sum_congr rfl fun j _ => by rw [hmask j], hv]
    exact h r hr
  · by_cases hir : i = r
    · have hmask : ∀ j, maskEntry k (swapRowsM A k r) i j = maskEntry k A k j := by
        intro j
        rw [maskEntry, maskEntry, swapRowsM_entry, if_neg hik, if_pos hir,
          show min i k = k from by omega, show min k k = k from by omega]
      have hv : swapVec x k r i = x k := by
        rw [swapVec, if_neg hik, if_pos hir]
      rw [Finset.sum_congr rfl fun j _ => by rw [hmask j], hv]
      exact h k hkn
    · have hmask : ∀ j, maskEntry k (swapRowsM A k r) i j = maskEntry k A i j := by
        intro j
        rw [maskEntry, maskEntry, swapRowsM_entry, if_neg hik, if_neg hir]
      have hv : swapVec x k r i = x i := by
        rw [swapVec, if_neg hik, if_neg hir]
      rw [Finset.sum_congr rfl fun j _ => by rw [hmask j], hv]
      exact h i hi

/-- Swapping two rows at or beyond the mask level preserves the effective
system. -/
theorem swap_preserves (n k : ℕ) (A : Mat) (x : ℕ → ℝ) (r : ℕ)
    (hkr : k ≤ r) (hr : r < n) (hkn : k < n) (z : ℕ → ℝ) :
    sysHolds n A x k z ↔ sysHolds n (swapRowsM A k r) (swapVec x k r) k z := by
  constructor
  · exact swap_forward n k r A x hkr hr hkn z
  · intro h
    have h2 := swap_forward n k r (swapRowsM A k r) (swapVec x k r) hkr hr hkn z h
    refine (sysHolds_congr n k _ A _ x ?_ ?_ z).mp h2
    · intro i _ j
      rw [maskEntry, maskEntry]
      have hdbl : (swapRowsM (swapRowsM A k r) k r).entry i j = A.entry i j := by
        simp only [swapRowsM_entry]
        by_cases hik : i = k <;> by_cases hir : i = r <;> by_cases hrk : r = k <;>
          simp_all
      rw [hdbl]
    · intro i _
      show swapVec (swapVec x k r) k r i = x i
      simp only [swapVec]
      by_cases hik : i = k <;> by_cases hir : i = r <;> by_cases hrk : r = k <;>
        simp_all

/-- Entry form of `reduceM`. -/
theorem reduceM_entry (n k : ℕ) (B : Mat) (i j : ℕ) :
    (reduceM n k B).entry i j =
      if k + 1 ≤ i ∧ i < n then
        if j = k then B.entry i k / B.entry k k
        else if k + 1 ≤ j ∧ j < n then B.entry i j - B.entry i k / B.entry k k * B.entry k j
        else B.entry i j
      else B.entry i j := rfl

/-- Masked entries below the mask level. -/
theorem maskEntry_lt (k : ℕ) (M : Mat) (i j : ℕ) (h : j < min i k) :
    maskEntry k M i j = 0 := if_pos h

/-- Unmasked entries at or above the mask level. -/
theorem maskEntry_ge (k : ℕ) (M : Mat) (i j : ℕ) (h : ¬j < min i k) :
    maskEntry k M i j = M.entry i j := if_neg h

/-- The reduction step advances the mask level while preserving the
effective system (the pivot entry must be nonzero). -/
theorem reduce_preserves (n k : ℕ) (B : Mat) (y : ℕ → ℝ) (hk : k < n)
    (hakk : B.entry k k ≠ 0) (z : ℕ → ℝ) :
    sysHolds n B y k z ↔ sysHolds n (reduceM n k B) (reduceV n k B y) (k + 1) z := by
  have hunch : ∀ i, i ≤ k → ∀ j, maskEntry (k + 1) (reduceM n k B) i j = maskEntry k B i j := by
    intro i hik j
    by_cases hj : j < min i k
    · rw [maskEntry_lt _ _ _ _ hj, maskEntry_lt _ _ _ _ (by omega)]
    · rw [maskEntry_ge _ _ _ _ hj, maskEntry_ge _ _ _ _ (by omega),
        reduceM_entry, if_neg (by omega)]
  have hrow : ∀ i, k + 1 ≤ i → i < n → ∀ zz : ℕ → ℝ,
      (∑ j ∈ Finset.range n, maskEntry (k + 1) (reduceM n k B) i j * zz j) =
      (∑ j ∈ Finset.range n, maskEntry k B i j * zz j) -
        B.entry i k / B.entry k k * (∑ j ∈ Finset.range n, maskEntry k B k j * zz j) := by
    intro i hi hin zz
    rw [Finset.mul_sum, ← Finset.sum_sub_distrib]
    apply Finset.sum_congr rfl
    intro j hj
    have hjn := Finset.mem_range.mp hj
    rcases Nat.lt_or_ge j k with hjk | hjk
    · rw [maskEntry_lt _ _ _ _ (by omega), maskEntry_lt _ _ _ _ (by omega),
        maskEntry_lt _ _ _ _ (by omega)]
      ring
    · rcases Nat.eq_or_lt_of_le hjk with rfl | hjk'
      · rw [maskEntry_lt _ _ _ _ (by omega), maskEntry_ge _ _ _ _ (by omega),
          maskEntry_ge _ _ _ _ (by omega)]
        field_simp
        ring
      · rw [maskEntry_ge _ _ _ _ (by omega), maskEntry_ge _ _ _ _ (by omega),
          maskEntry_ge _ _ _ _ (by omega), reduceM_entry, if_pos ⟨hi, hin⟩,
          if_neg (by omega), if_pos ⟨by omega, hjn⟩]
        ring
  have hrowk : ∀ j, maskEntry (k + 1) (reduceM n k B) k j = maskEntry k B k j :=
    hunch k le_rfl
  constructor
  · intro h i hi
    rcases Nat.lt_or_ge i (k + 1) with hik | hik
    · rw [Finset.sum_congr rfl fun j _ => by rw [hunch i (by omega) j]]
      rw [show reduceV n k B y i = y i from by rw [reduceV, if_neg (by omega)]]
      exact h i hi
    · rw [hrow i hik hi z, h i hi, h k hk,
        show reduceV n k B y i = y i - B.entry i k / B.entry k k * y k from
          by rw [reduceV, if_pos ⟨hik, hi⟩]]
  · intro h i hi
    rcases Nat.lt_or_ge i (k + 1) with hik | hik
    · have := h i hi
      rw [Finset.sum_congr rfl fun j _ => by rw [hunch i (by omega) j]] at this
      rw [show reduceV n k B y i = y i from by rw [reduceV, if_neg (by omega)]] at this
      exact this
    · have hk' := h k hk
      rw [Finset.sum_congr rfl fun j _ => by rw [hrowk j]] at hk'
      rw [show reduceV n k B y k = y k from by rw [reduceV, if_neg (by omega)]] at hk'
      have hi' := h i hi
      rw [hrow i hik hi z, hk'] at hi'
      rw [show reduceV n k B y i = y i - B.entry i k / B.entry k k * y k from
        by rw [reduceV, if_pos ⟨hik, hi⟩]] at hi'
      linarith

/-- Rows below the pivot row are untouched by the swap. -/
theorem swapRowsM_below (A : Mat) (k r i j : ℕ) (hik : i < k) (hkr : k ≤ r) :
    (swapRowsM A k r).entry i j = A.entry i j := by
  rw [swapRowsM_entry, if_neg (by omega), if_neg (by omega)]

/-- Rows at or below the pivot row are untouched by the reduction. -/
theorem reduceM_low (n k : ℕ) (B : Mat) (i j : ℕ) (hik : i ≤ k) :
    (reduceM n k B).entry i j = B.entry i j := by
  rw [reduceM_entry, if_neg (by omega)]

/-- `elimStep` either fails on a small pivot or performs the reduction. -/
theorem elimStep_cases (n k : ℕ) (A : Mat) (x : ℕ → ℝ) :
    (elimStep n (A, x) k = Except.error "Matrix is singular or nearly singular" ∧
      |pivot0 n A k| < 1e-12) ∨
    (elimStep n (A, x) k = Except.ok (elimA n A k, elimX n A x k) ∧
      ¬|pivot0 n A k| < 1e-12) := by
  by_cases hguard : |(swapRowsM A k (pivotSearch A k n).1).entry k k| < 1e-12
  · left
    exact ⟨by rw [elimStep]; exact if_pos hguard, hguard⟩
  · right
    exact ⟨by rw [elimStep]; exact if_neg hguard, hguard⟩

/-- One successful elimination step preserves the invariant and extends
the guarded diagonal. -/
theorem elimStep_inv (n k : ℕ) (hk : k < n) (A : Mat) (x : ℕ → ℝ)
    (st' : Mat × (ℕ → ℝ)) (hstep : elimStep n (A, x) k = Except.ok st') :
    (∀ z, sysHolds n A x k z ↔ sysHolds n st'.1 st'.2 (k + 1) z) ∧
    (diagOK A k → diagOK st'.1 (k + 1)) := by
  rcases elimStep_cases n k A x with ⟨herr, _⟩ | ⟨hok, hbig⟩
  · rw [herr] at hstep
    cases hstep
  · rw [hok] at hstep
    injection hstep with hstep
    subst hstep
    obtain ⟨hmr1, hmr2⟩ := pivotSearch_bounds A k n hk
    have hBkk : (swapRowsM A k (pivotSearch A k n).1).entry k k ≠ 0 := by
      intro h0
      apply hbig
      rw [pivot0, h0]
      norm_num

    constructor
    · intro z
      exact (swap_preserves n k A x (pivotSearch A k n).1 hmr1 hmr2 hk z).trans
        (reduce_preserves n k (swapRowsM A k (pivotSearch A k n).1)
          (swapVec x k (pivotSearch A k n).1) hk hBkk z)
    · intro hd i hik1
      show 1e-12 ≤ |(reduceM n k (swapRowsM A k (pivotSearch A k n).1)).entry i i|
      rcases Nat.lt_or_ge i k with hik | hik
      · rw [reduceM_low _ _ _ _ _ (by omega), swapRowsM_below A k _ i i hik hmr1]
        exact hd i hik
      · have hieq : i = k := by omega
        subst hieq
        rw [reduceM_low _ _ _ _ _ le_rfl]
        exact not_lt.mp hbig

/-- Invariant preservation across the elimination loop. -/
theorem elimLoop_inv (n : ℕ) : ∀ (steps k : ℕ) (A : Mat) (x : ℕ → ℝ) (U : Mat)
    (y : ℕ → ℝ), k + steps ≤ n →
    elimLoop n k steps (A, x) = Except.ok (U, y) →
    (∀ z, sysHolds n A x k z ↔ sysHolds n U y (k + steps) z) ∧
    (diagOK A k → diagOK U (k + steps)) := by
  intro steps
  induction steps with
  | zero =>
    intro k A x U y hkn hloop
    replace hloop : (Except.ok (A, x) : Except String (Mat × (ℕ → ℝ))) =
      Except.ok (U, y) := hloop
    injection hloop with hloop
    rw [Prod.mk.injEq] at hloop
    obtain ⟨rfl, rfl⟩ := hloop
    exact ⟨fun z => Iff.rfl, id⟩
  | succ s ih =>
    intro k A x U y hkn hloop
    replace hloop : (match elimStep n (A, x) k with
      | Except.error e => Except.error e
      | Except.ok st' => elimLoop n (k + 1) s st') = Except.ok (U, y) := hloop
    rcases hstep : elimStep n (A, x) k with e | st' <;> rw [hstep] at hloop
    · replace hloop : (Except.error e : Except String (Mat × (ℕ → ℝ))) =
        Except.ok (U, y) := hloop
      cases hloop
    · replace hloop : elimLoop n (k + 1) s st' = Except.ok (U, y) := hloop
      obtain ⟨hiff, hdiag⟩ := elimStep_inv n k (by omega) A x st' hstep
      have hst : (st'.1, st'.2) = st' := rfl
      obtain ⟨hiff2, hdiag2⟩ := ih (k + 1) st'.1 st'.2 U y (by omega) (by rw [hst]; exact hloop)

      refine ⟨fun z => (hiff z).trans ?_, fun hd => ?_⟩
      · rw [show k + (s + 1) = k + 1 + s from by omega]
        exact hiff2 z
      · rw [show k + (s + 1) = k + 1 + s from by omega]
        exact hdiag2 (hdiag hd)

/-- The matrix part of the run is determined by `A` alone. -/
theorem elimLoop_ok_A (n : ℕ) : ∀ (steps k : ℕ) (A : Mat) (x : ℕ → ℝ) (U : Mat)
    (y : ℕ → ℝ), elimLoop n k steps (A, x) = Except.ok (U, y) →
    U = elimAIter n k steps A := by
  intro steps
  induction steps with
  | zero =>
    intro k A x U y hloop
    replace hloop : (Except.ok (A, x) : Except String (Mat × (ℕ → ℝ))) =
      Except.ok (U, y) := hloop
    injection hloop with hloop
    rw [Prod.mk.injEq] at hloop
    exact hloop.1.symm
  | succ s ih =>
    intro k A x U y hloop
    replace hloop : (match elimStep n (A, x) k with
      | Except.error e => Except.error e
      | Except.ok st' => elimLoop n (k + 1) s st') = Except.ok (U, y) := hloop
    rcases elimStep_cases n k A x with ⟨herr, _⟩ | ⟨hok, _⟩
    · rw [herr] at hloop
      replace hloop : (Except.error "Matrix is singular or nearly singular" :
        Except String (Mat × (ℕ → ℝ))) = Except.ok (U, y) := hloop
      cases hloop
    · rw [hok] at hloop
      replace hloop : elimLoop n (k + 1) s (elimA n A k, elimX n A x k) =
        Except.ok (U, y) := hloop
      exact ih (k + 1) (elimA n A k) (elimX n A x k) U y hloop

/-- The elimination loop fails only with the singular message. -/
theorem elimLoop_error_msg (n : ℕ) : ∀ (steps k : ℕ) (A : Mat) (x : ℕ → ℝ)
    (e : String), elimLoop n k steps (A, x) = Except.error e →
    e = "Matrix is singular or nearly singular" := by
  intro steps
  induction steps with
  | zero =>
    intro k A x e hloop
    replace hloop : (Except.ok (A, x) : Except String (Mat × (ℕ → ℝ))) =
      Except.error e := hloop
    cases hloop
  | succ s ih =>
    intro k A x e hloop
    replace hloop : (match elimStep n (A, x) k with
      | Except.error e => Except.error e
      | Except.ok st' => elimLoop n (k + 1) s st') = Except.error e := hloop
    rcases elimStep_cases n k A x with ⟨herr, _⟩ | ⟨hok, _⟩
    · rw [herr] at hloop
      replace hloop : (Except.error "Matrix is singular or nearly singular" :
        Except String (Mat × (ℕ → ℝ))) = Except.error e := hloop
      injection hloop with hloop
      exact hloop.symm
    · rw [hok] at hloop
      replace hloop : elimLoop n (k + 1) s (elimA n A k, elimX n A x k) =
        Except.error e := hloop
      exact ih (k + 1) (elimA n A k) (elimX n A x k) e hloop

/-- The elimination loop fails exactly when some tested pivot is small. -/
theorem elimLoop_error_iff (n : ℕ) : ∀ (steps k : ℕ) (A : Mat) (x : ℕ → ℝ),
    (∃ e, elimLoop n k steps (A, x) = Except.error e) ↔
    (∃ s, s < steps ∧ |pivot0 n (elimAIter n k s A) (k + s)| < 1e-12) := by
  intro steps
  induction steps with
  | zero =>
    intro k A x
    constructor
    · rintro ⟨e, hloop⟩
      replace hloop : (Except.ok (A, x) : Except String (Mat × (ℕ → ℝ))) =
        Except.error e := hloop
      cases hloop
    · rintro ⟨s, hs, _⟩
      omega
  | succ s ih =>
    intro k A x
    rcases elimStep_cases n k A x with ⟨herr, hsmall⟩ | ⟨hok, hbig⟩
    · constructor
      · intro _
        exact ⟨0, by omega, by rw [show k + 0 = k from rfl]; exact hsmall⟩
      · intro _
        refine ⟨"Matrix is singular or nearly singular", ?_⟩
        show (match elimStep n (A, x) k with
          | Except.error e => Except.error e
          | Except.ok st' => elimLoop n (k + 1) s st') = _
        rw [herr]
    · have hred : elimLoop n k (s + 1) (A, x) =
          elimLoop n (k + 1) s (elimA n A k, elimX n A x k) := by
        show (match elimStep n (A, x) k with
          | Except.error e => Except.error e
          | Except.ok st' => elimLoop n (k + 1) s st') = _
        rw [hok]
      rw [hred, ih (k + 1) (elimA n A k) (elimX n A x k)]
      constructor
      · rintro ⟨s', hs', hsm⟩
        refine ⟨s' + 1, by omega, ?_⟩
        have hidx : k + (s' + 1) = k + 1 + s' := by omega
        rw [hidx]
        exact hsm
      · rintro ⟨t, ht, hsm⟩
        rcases t with _ | s'
        · exfalso
          exact hbig (by simpa using hsm)
        · refine ⟨s', by omega, ?_⟩
          have hidx : k + 1 + s' = k + (s' + 1) := by omega
          rw [hidx]
          exact hsm

/-- The reversed range peels its largest element first. -/
theorem range_reverse_succ (m : ℕ) :
    (List.range (m + 1)).reverse = m :: (List.range m).reverse := by
  rw [List.range_succ, List.reverse_append]
  rfl

/-- The back-substitution fold never touches indices at or above its
range. -/
theorem bs_notouch (U : Mat) (n : ℕ) : ∀ (m : ℕ) (x₀ : ℕ → ℝ) (i : ℕ), m ≤ i →
    ((List.range m).reverse.foldl (bsStep U n) x₀) i = x₀ i := by
  intro m
  induction m with
  | zero => intro x₀ i _; rfl
  | succ m ih =>
    intro x₀ i hi
    rw [range_reverse_succ, List.foldl_cons, ih (bsStep U n x₀ m) i (by omega),
      bsStep, Function.update_noteq (by omega)]

/-- The recurrence satisfied by the back-substitution result. -/
theorem bs_char (U : Mat) (n : ℕ) : ∀ (m : ℕ), m ≤ n → ∀ (x₀ : ℕ → ℝ) (i : ℕ), i < m →
    ((List.range m).reverse.foldl (bsStep U n) x₀) i =
      (x₀ i - ∑ j ∈ Finset.Ico (i + 1) n,
        U.entry i j * ((List.range m).reverse.foldl (bsStep U n) x₀) j) / U.entry i i := by
  intro m
  induction m with
  | zero => intro _ x₀ i hi; omega
  | succ m ih =>
    intro hm x₀ i hi
    rw [range_reverse_succ, List.foldl_cons]
    rcases Nat.lt_or_ge i m with him | him
    · rw [ih (by omega) (bsStep U n x₀ m) i him]
      rw [show bsStep U n x₀ m i = x₀ i from Function.update_noteq (by omega) _ _]
    · have hieq : i = m := by omega
      subst hieq
      rw [bs_notouch U n i (bsStep U n x₀ i) i le_rfl]
      rw [show bsStep U n x₀ i i =
        (x₀ i - ∑ j ∈ Finset.Ico (i + 1) n, U.entry i j * x₀ j) / U.entry i i from
        Function.update_same _ _ _]
      congr 2
      apply Finset.sum_congr rfl
      intro j hj
      have hji := (Finset.mem_Ico.mp hj).1
      rw [bs_notouch U n i (bsStep U n x₀ i) j (by omega),
        bsStep, Function.update_noteq (by omega)]

/-- Back substitution solves the upper-triangular (masked) system when
all diagonal entries are nonzero. -/
theorem backSubst_solves (U : Mat) (n : ℕ) (y : ℕ → ℝ)
    (hdiag : ∀ i, i < n → U.entry i i ≠ 0) (i : ℕ) (hi : i < n) :
    (∑ j ∈ Finset.Ico i n, U.entry i j * backSubst U n y j) = y i := by
  have hchar := bs_char U n n le_rfl y i hi
  rw [← Nat.Ico_insert_succ_left hi, Finset.sum_insert (by simp)]
  show U.entry i i * backSubst U n y i + _ = _
  rw [show backSubst U n y i =
    (y i - ∑ j ∈ Finset.Ico (i + 1) n, U.entry i j * backSubst U n y j) / U.entry i i from
    hchar]
  rw [mul_div_cancel₀ _ (hdiag i hi)]
  ring

/-- A successful `solveAux` run returns an exact solution of `A·x = b`. -/
theorem solveAux_ok_solves (A : Mat) (b x : ℕ → ℝ) (hn : 1 ≤ A.rows)
    (hok : solveAux A b = Except.ok x) :
    ∀ i, i < A.rows → (∑ j ∈ Finset.range A.rows, A.entry i j * x j) = b i := by
  rw [solveAux] at hok
  rcases hloop : elimLoop A.rows 0 (A.rows - 1) (A, b) with e | st <;> rw [hloop] at hok
  · cases hok
  obtain ⟨U, y⟩ := st
  replace hok : (if |U.entry (A.rows - 1) (A.rows - 1)| < 1e-12
      then (Except.error "Matrix is singular or nearly singular" : Except String (ℕ → ℝ))
      else Except.ok (backSubst U A.rows y)) = Except.ok x := hok
  by_cases hcheck : |U.entry (A.rows - 1) (A.rows - 1)| < 1e-12
  · rw [if_pos hcheck] at hok
    cases hok
  rw [if_neg hcheck] at hok
  injection hok with hok
  subst hok
  obtain ⟨hiff, hdiag⟩ := elimLoop_inv A.rows (A.rows - 1) 0 A b U y (by omega) hloop
  have hdiagN : ∀ i, i < A.rows → 1e-12 ≤ |U.entry i i| := by
    intro i hi
    rcases Nat.lt_or_ge i (A.rows - 1) with h | h
    · have := hdiag (fun i h0 => absurd h0 (Nat.not_lt_zero i)) i (by omega)
      exact this
    · have hieq : i = A.rows - 1 := by omega
      rw [hieq]
      exact not_lt.mp hcheck
  have hdne : ∀ i, i < A.rows → U.entry i i ≠ 0 := by
    intro i hi h0
    have := hdiagN i hi
    rw [h0] at this
    norm_num at this
  have hsolved : sysHolds A.rows U y (0 + (A.rows - 1)) (backSubst U A.rows y) := by
    intro i hi
    have hsplit : (∑ j ∈ Finset.range A.rows,
        maskEntry (0 + (A.rows - 1)) U i j * backSubst U A.rows y j) =
        ∑ j ∈ Finset.Ico i A.rows, U.entry i j * backSubst U A.rows y j := by
      rw [Finset.range_eq_Ico,
        ← Finset.sum_Ico_consecutive _ (Nat.zero_le i) (le_of_lt hi)]
      have hlow : (∑ j ∈ Finset.Ico 0 i,
          maskEntry (0 + (A.rows - 1)) U i j * backSubst U A.rows y j) = 0 := by
        apply Finset.sum_eq_zero
        intro j hj
        have hji := (Finset.mem_Ico.mp hj).2
        rw [maskEntry_lt _ _ _ _ (by omega), zero_mul]
      rw [hlow, zero_add]
      apply Finset.sum_congr rfl
      intro j hj
      have hji := (Finset.mem_Ico.mp hj).1
      rw [maskEntry_ge _ _ _ _ (by omega)]
    rw [hsplit]
    exact backSubst_solves U A.rows y hdne i hi
  have hmain := (hiff (backSubst U A.rows y)).mpr hsolved
  intro i hi
  have h2 := hmain i hi
  rw [Finset.sum_congr rfl (fun j _ => by
    rw [maskEntry_ge 0 A i j (by omega)])] at h2
  exact h2

/-- The pivot search at the last column scans nothing. -/
theorem pivotSearch_last (B : Mat) (n : ℕ) (hn : 1 ≤ n) :
    (pivotSearch B (n - 1) n).1 = n - 1 := by
  rw [pivotSearch, show n - (n - 1 + 1) = 0 from by omega]
  rfl

/-- The final diagonal check is the last pivot of the shadow run. -/
theorem pivot0_last (U : Mat) (n : ℕ) (hn : 1 ≤ n) :
    pivot0 n U (n - 1) = U.entry (n - 1) (n - 1) := by
  rw [pivot0, pivotSearch_last U n hn, swapRowsM_entry, if_pos rfl]

/-- C5 core, error direction: `solve` fails with the singular message iff
some pivot tested during the (partial-pivoted) run is below `1e-12`. -/
theorem solve_singular_iff (A : Mat) (b : ℕ → ℝ) (n : ℕ)
    (hr : A.rows = n) (hc : A.cols = n) (hn : 1 ≤ n) :
    (A.solve b n = Except.error "Matrix is singular or nearly singular") ↔
      ∃ k, k < n ∧ |pivotSeq A n k| < 1e-12 := by
  subst hr
  rw [Mat.solve, if_neg (by simp [hc]), if_neg (by simp), solveAux]
  rcases hloop : elimLoop A.rows 0 (A.rows - 1) (A, b) with e | st
  · constructor
    · intro _
      obtain ⟨s, hs, hsm⟩ := (elimLoop_error_iff A.rows (A.rows - 1) 0 A b).mp ⟨e, hloop⟩
      refine ⟨s, by omega, ?_⟩
      rw [pivotSeq]
      simpa using hsm
    · intro _
      rw [elimLoop_error_msg A.rows (A.rows - 1) 0 A b e hloop]
  · obtain ⟨U, y⟩ := st
    have hU := elimLoop_ok_A A.rows (A.rows - 1) 0 A b U y hloop
    have hnone : ∀ s, s < A.rows - 1 → ¬|pivot0 A.rows (elimAIter A.rows 0 s A) (0 + s)| < 1e-12 := by
      intro s hs hsm
      obtain ⟨e, herr⟩ := (elimLoop_error_iff A.rows (A.rows - 1) 0 A b).mpr ⟨s, hs, hsm⟩
      rw [hloop] at herr
      cases herr
    have hlast : pivotSeq A A.rows (A.rows - 1) = U.entry (A.rows - 1) (A.rows - 1) := by
      rw [pivotSeq, ← hU, pivot0_last U A.rows hn]
    show (if |U.entry (A.rows - 1) (A.rows - 1)| < 1e-12
        then (Except.error "Matrix is singular or nearly singular" : Except String (ℕ → ℝ))
        else Except.ok (backSubst U A.rows y)) =
          Except.error "Matrix is singular or nearly singular" ↔
      ∃ k, k < A.rows ∧ |pivotSeq A A.rows k| < 1e-12
    by_cases hcheck : |U.entry (A.rows - 1) (A.rows - 1)| < 1e-12
    · rw [if_pos hcheck]
      constructor
      · intro _
        refine ⟨A.rows - 1, by omega, ?_⟩
        rw [hlast]
        exact hcheck
      · intro _
        rfl
    · rw [if_neg hcheck]
      constructor
      · intro h
        cases h
      · rintro ⟨k, hk, hsm⟩
        exfalso
        rcases Nat.lt_or_ge k (A.rows - 1) with hk1 | hk1
        · refine hnone k hk1 ?_
          rw [pivotSeq] at hsm
          simpa using hsm
        · have hke : k = A.rows - 1 := by omega
          subst hke
          rw [hlast] at hsm
          exact hcheck hsm

/-- C5: `Matrix.solve` on a square `n×n` system (`n ≥ 1`) throws
`'Matrix is singular or nearly singular'` exactly when the elimination
with partial pivoting (greatest absolute value among the remaining rows,
rows and right-hand side swapped) meets a pivot of magnitude below
`1e-12` (including the final diagonal check), and otherwise returns a
vector `x` with `A·x = b` exactly; `A` and `b` are never modified — the
embedding of `solve` is a pure function of its inputs, matching the
source's work on `this.clone()` and a copy of `b`. -/
theorem C5_solve_partial_pivoting_spec (A : Mat) (b : ℕ → ℝ) (n : ℕ)
    (hr : A.rows = n) (hc : A.cols = n) (hn : 1 ≤ n) :
    ((A.solve b n = Except.error "Matrix is singular or nearly singular") ↔
      ∃ k, k < n ∧ |pivotSeq A n k| < 1e-12) ∧
    (∀ x, A.solve b n = Except.ok x →
      ∀ i, i < n → (∑ j ∈ Finset.range n, A.entry i j * x j) = b i) := by
  refine ⟨solve_singular_iff A b n hr hc hn, fun x hok i hi => ?_⟩
  rw [Mat.solve, if_neg (by simp [hr, hc]), if_neg (by simp [hr])] at hok
  subst hr
  exact solveAux_ok_solves A b x hn hok i hi

/-- Concrete diagonal system for the C5 witness. -/
def witMat : Mat :=
  ⟨2, 2, fun i j => if i = 0 ∧ j = 0 then 2 else if i = 1 ∧ j = 1 then 3 else 0⟩

/-- Concrete right-hand side for the C5 witness. -/
def witRhs : ℕ → ℝ := fun i => if i = 0 then 2 else 3

/-- Witness for C5 on a concrete 2×2 system. -/
theorem C5_witness :
    ((witMat.solve witRhs 2 = Except.error "Matrix is singular or nearly singular") ↔
      ∃ k, k < 2 ∧ |pivotSeq witMat 2 k| < 1e-12) ∧
    (∀ x, witMat.solve witRhs 2 = Except.ok x →
      ∀ i, i < 2 → (∑ j ∈ Finset.range 2, witMat.entry i j * x j) = witRhs i) :=
  C5_solve_partial_pivoting_spec witMat witRhs 2 rfl rfl (by norm_num)

/-! ## A concrete two-node model with an applied nodal moment

One member along the global x-axis, node `N1` fully fixed, node `N2`
fixed in every component except the rotation about y (global DOF 10),
unit member properties, a unit `MY` nodal moment at `N2`.  The rotation
matrix is the identity, the assembled stiffness matrix restricted to the
single free DOF is the scalar `4`, and the whole pipeline evaluates in
closed form. -/

def cexN1 : Node := ⟨"N1", 0, 0, 0⟩

def cexN2 : Node := ⟨"N2", 1, 0, 0⟩

def cexMat : Material := ⟨"MAT", 1, 1, 3 / 10, 1⟩

def cexSec : Section := ⟨"SEC", 1, 1, 1, 1⟩

def cexMemb : Member := ⟨"M1", "N1", "N2", "MAT", "SEC", none⟩

def cexSup1 : Support := ⟨"N1", true, true, true, true, true, true⟩

def cexSup2 : Support := ⟨"N2", true, true, true, true, false, true⟩

def cexLCA : LoadCase := ⟨"A", [⟨"N2", "MY", 1⟩], []⟩

def cexCombo1 : LoadCombination := ⟨"C1", [("A", 1)]⟩

def cexCombo2 : LoadCombination := ⟨"C2", [("A", 2)]⟩

def cexModel : StanalModel :=
  ⟨[cexN1, cexN2], [cexMat], [cexSec], [cexMemb], [cexSup1, cexSup2],
   [cexLCA], [cexCombo1, cexCombo2]⟩

def cexElem : Member3DElement := ⟨"M1", cexN1, cexN2, cexMat, cexSec, 0, 1⟩

def cexAnalyzer : Analyzer :=
  ⟨cexModel, [cexElem], 12, [10], [0, 1, 2, 3, 4, 5, 6, 7, 8, 9, 11]⟩

/-- The member length evaluates to `1`. -/
theorem cex_len : Real.sqrt ((cexN2.x - cexN1.x) * (cexN2.x - cexN1.x) +
    (cexN2.y - cexN1.y) * (cexN2.y - cexN1.y) +
    (cexN2.z - cexN1.z) * (cexN2.z - cexN1.z)) = 1 := by
  show Real.sqrt ((1 - 0) * (1 - 0) + (0 - 0) * (0 - 0) + (0 - 0) * (0 - 0)) = 1
  norm_num [Real.sqrt_one]

/-- Element construction succeeds with the concrete element. -/
theorem cex_mkE : Member3DElement.mk? cexMemb cexN1 cexN2 cexMat cexSec
    = Except.ok cexElem := by
  rw [Member3DElement.mk?, if_neg (by rw [cex_len]; norm_num), cex_len]
  rfl

/-- `initialize()` builds the single element. -/
theorem cex_build : buildElements cexModel = Except.ok [cexElem] := by
  have h1 : buildElements cexModel =
      ((match Member3DElement.mk? cexMemb cexN1 cexN2 cexMat cexSec with
        | Except.error e => Except.error e
        | Except.ok el => Except.ok ([] ++ [el])) >>= fun acc =>
          Except.ok acc) := rfl
  rw [h1, cex_mkE]
  rfl

/-- The analyzer constructor succeeds with the concrete state. -/
theorem cex_mkA : Analyzer.mk? cexModel = Except.ok cexAnalyzer := by
  have h1 : Analyzer.mk? cexModel =
      (match buildElements cexModel with
       | Except.error e => Except.error e
       | Except.ok es => Except.ok ⟨cexModel, es, cexModel.nodes.length * 6,
           freeDOFList cexModel, fixedDOFList cexModel⟩) := rfl
  rw [h1, cex_build]
  rfl

/-- The rotation matrix of the concrete member is the 3×3 identity. -/
theorem cex_R (i j : ℕ) :
    (createRotationMatrix cexN1 cexN2 0).entry i j =
      if i = j ∧ j < 3 then 1 else 0 := by
  rcases i with _ | _ | _ | i <;> rcases j with _ | _ | _ | j <;>
    simp only [createRotationMatrix, cexN1, cexN2] <;>
    norm_num [Real.sqrt_one] <;>
    first
      | omega
      | (split_ifs <;> first | rfl | (exfalso; omega))

/-- The 12×12 transformation matrix of the concrete member is the
identity. -/
theorem cex_T (i j : ℕ) :
    cexElem.transformationMatrix.entry i j = if i = j ∧ i < 12 then 1 else 0 := by
  show (if i < 12 ∧ j < 12 ∧ i / 3 = j / 3 then
      (createRotationMatrix cexN1 cexN2 0).entry (i % 3) (j % 3) else 0) = _
  rw [cex_R]
  by_cases h : i < 12 ∧ j < 12 ∧ i / 3 = j / 3
  · rw [if_pos h]
    by_cases h2 : i % 3 = j % 3 ∧ j % 3 < 3
    · rw [if_pos h2, if_pos ⟨by omega, by omega⟩]
    · rw [if_neg h2, if_neg (by omega)]
  · rw [if_neg h, if_neg (by omega)]

/-- The concrete local stiffness coefficients. -/
theorem cex_kL (i j : ℕ) :
    cexElem.localStiffnessMatrix.entry i j =
      kLocalEntry 1 1 12 6 4 2 12 6 4 2 i j := by
  show kLocalEntry ((1 : ℝ) * 1 / 1) ((1 : ℝ) * 1 / 1)
      (12 * ((1 : ℝ) * 1) / (1 * 1 * 1)) (6 * ((1 : ℝ) * 1) / (1 * 1))
      (4 * ((1 : ℝ) * 1) / 1) (2 * ((1 : ℝ) * 1) / 1)
      (12 * ((1 : ℝ) * 1) / (1 * 1 * 1)) (6 * ((1 : ℝ) * 1) / (1 * 1))
      (4 * ((1 : ℝ) * 1) / 1) (2 * ((1 : ℝ) * 1) / 1) i j = _
  norm_num

/-- With an identity transformation the global element matrix equals the
local one. -/
theorem cex_kG (p q : ℕ) (hp : p < 12) (hq : q < 12) :
    cexElem.globalStiffnessMatrix.entry p q =
      kLocalEntry 1 1 12 6 4 2 12 6 4 2 p q := by
  have h1 : ∀ k, (cexElem.transformationMatrix.transpose.multiply
      cexElem.localStiffnessMatrix).entry p k =
      kLocalEntry 1 1 12 6 4 2 12 6 4 2 p k := by
    intro k
    show (∑ t ∈ Finset.range 12, cexElem.transformationMatrix.entry t p *
        cexElem.localStiffnessMatrix.entry t k) = _
    have hterm : ∀ t ∈ Finset.range 12,
        cexElem.transformationMatrix.entry t p *
          cexElem.localStiffnessMatrix.entry t k =
        if t = p then kLocalEntry 1 1 12 6 4 2 12 6 4 2 p k else 0 := by
      intro t ht
      rw [cex_T, cex_kL]
      by_cases h : t = p
      · subst h
        rw [if_pos ⟨rfl, Finset.mem_range.mp ht⟩, if_pos rfl, one_mul]
      · rw [if_neg (by tauto), if_neg h, zero_mul]
    rw [Finset.sum_congr rfl hterm, Finset.sum_ite_eq' (Finset.range 12) p
      (fun _ => kLocalEntry 1 1 12 6 4 2 12 6 4 2 p k),
      if_pos (Finset.mem_range.mpr hp)]
  show (∑ t ∈ Finset.range 12, (cexElem.transformationMatrix.transpose.multiply
      cexElem.localStiffnessMatrix).entry p t *
      cexElem.transformationMatrix.entry t q) = _
  have hterm2 : ∀ t ∈ Finset.range 12,
      (cexElem.transformationMatrix.transpose.multiply
        cexElem.localStiffnessMatrix).entry p t *
        cexElem.transformationMatrix.entry t q =
      if t = q then kLocalEntry 1 1 12 6 4 2 12 6 4 2 p q else 0 := by
    intro t ht
    rw [h1 t, cex_T]
    by_cases h : t = q
    · subst h
      rw [if_pos ⟨rfl, Finset.mem_range.mp ht⟩, mul_one, if_pos rfl]
    · rw [if_neg (by tauto), mul_zero, if_neg h]
  rw [Finset.sum_congr rfl hterm2, Finset.sum_ite_eq' (Finset.range 12) q
    (fun _ => kLocalEntry 1 1 12 6 4 2 12 6 4 2 p q),
    if_pos (Finset.mem_range.mpr hq)]

/-- The DOF map of the single element is the identity. -/
theorem cex_dm (t : ℕ) : dofMapOf cexModel cexElem t = t := by
  simp only [dofMapOf]
  rw [show cexModel.nodeIndexOf cexElem.iNode.id = some 0 from rfl,
      show cexModel.nodeIndexOf cexElem.jNode.id = some 1 from rfl]
  simp only [Option.getD_some]
  by_cases h : t < 6
  · rw [if_pos h]
    omega
  · rw [if_neg h]
    omega

/-- The assembled global stiffness matrix of the concrete model. -/
theorem cex_K (r s : ℕ) :
    cexAnalyzer.assembleGlobalStiffnessMatrix.entry r s =
      if r < 12 ∧ s < 12 then kLocalEntry 1 1 12 6 4 2 12 6 4 2 r s else 0 := by
  show (Mat.zeros 12 12).entry r s + (∑ a ∈ Finset.range 12, ∑ b ∈ Finset.range 12,
      if dofMapOf cexModel cexElem a = r ∧ dofMapOf cexModel cexElem b = s
      then cexElem.globalStiffnessMatrix.entry a b else 0) = _
  rw [show (Mat.zeros 12 12).entry r s = 0 from rfl, zero_add]
  have step : ∀ a ∈ Finset.range 12, (∑ b ∈ Finset.range 12,
      if dofMapOf cexModel cexElem a = r ∧ dofMapOf cexModel cexElem b = s
      then cexElem.globalStiffnessMatrix.entry a b else 0) =
      if a = r then (if s < 12 then cexElem.globalStiffnessMatrix.entry a s else 0)
      else 0 := by
    intro a ha
    have hdm : ∀ b ∈ Finset.range 12,
        (if dofMapOf cexModel cexElem a = r ∧ dofMapOf cexModel cexElem b = s
         then cexElem.globalStiffnessMatrix.entry a b else 0) =
        (if a = r ∧ b = s then cexElem.globalStiffnessMatrix.entry a b else 0) := by
      intro b hb
      rw [cex_dm a, cex_dm b]
    rw [Finset.sum_congr rfl hdm]
    by_cases har : a = r
    · subst har
      rw [if_pos rfl]
      have hinner : ∀ b ∈ Finset.range 12,
          (if a = a ∧ b = s then cexElem.globalStiffnessMatrix.entry a b else 0) =
          if b = s then cexElem.globalStiffnessMatrix.entry a s else 0 := by
        intro b hb
        by_cases hbs : b = s
        · subst hbs
          rw [if_pos ⟨rfl, rfl⟩, if_pos rfl]
        · rw [if_neg (by tauto), if_neg hbs]
      rw [Finset.sum_congr rfl hinner, Finset.sum_ite_eq' (Finset.range 12) s
        (fun _ => cexElem.globalStiffnessMatrix.entry a s)]
      by_cases hs : s < 12
      · rw [if_pos (Finset.mem_range.mpr hs), if_pos hs]
      · rw [if_neg (by simpa using hs), if_neg hs]
    · have hz : ∀ b ∈ Finset.range 12,
          (if a = r ∧ b = s then cexElem.globalStiffnessMatrix.entry a b else 0) = 0 := by
        intro b hb
        exact if_neg (by tauto)
      rw [Finset.sum_congr rfl hz, Finset.sum_const_zero, if_neg har]
  rw [Finset.sum_congr rfl step, Finset.sum_ite_eq' (Finset.range 12) r
    (fun a => if s < 12 then cexElem.globalStiffnessMatrix.entry a s else 0)]
  by_cases hr : r < 12
  · rw [if_pos (Finset.mem_range.mpr hr)]
    by_cases hs : s < 12
    · rw [if_pos hs, if_pos ⟨hr, hs⟩, cex_kG r s hr hs]
    · rw [if_neg hs, if_neg (by tauto)]
  · rw [if_neg (by simpa using hr), if_neg (by tauto)]

/-- The nodal part of the assembled load vector: a unit value at global
DOF 10 (`MY` at node index 1). -/
theorem cex_nodalP (i : ℕ) :
    cexAnalyzer.nodalLoadVector cexLCA i = if i = 10 then 1 else 0 := by
  show addAt (fun _ => 0) (1 * 6 + 4) 1 i = _
  show Function.update (fun _ => (0 : ℝ)) (1 * 6 + 4)
      ((fun _ => (0 : ℝ)) (1 * 6 + 4) + 1) i = _
  rw [Function.update_apply]
  by_cases h : i = 10
  · rw [if_pos (by omega), if_pos h]
    norm_num
  · rw [if_neg (by omega), if_neg h]

/-- With no member loads the fixed-end reactions vanish. -/
theorem cex_fer0 (i : ℕ) : cexElem.fixedEndReactions [] i = 0 := by
  show (∑ j ∈ Finset.range 12, cexElem.transformationMatrix.transpose.entry i j *
      ferLocalOf cexElem [] j) = 0
  have h0 : ∀ j ∈ Finset.range 12,
      cexElem.transformationMatrix.transpose.entry i j * ferLocalOf cexElem [] j = 0 := by
    intro j hj
    rw [show ferLocalOf cexElem [] j = 0 from rfl, mul_zero]
  rw [Finset.sum_congr rfl h0, Finset.sum_const_zero]

/-- The two-`addAt` inner loop adds nothing when the FER vector is zero. -/
theorem foldl_addAt_zero (fer : ℕ → ℝ) (hf : ∀ j, fer j = 0) (iIdx jIdx : ℕ)
    (l : List ℕ) : ∀ (P : ℕ → ℝ) (x : ℕ),
      (l.foldl (fun Q i => addAt (addAt Q (iIdx * 6 + i) (-(fer i))) (jIdx * 6 + i)
        (-(fer (i + 6)))) P) x = P x := by
  induction l with
  | nil => intro P x; rfl
  | cons a t ih =>
    intro P x
    rw [List.foldl_cons, ih]
    simp [addAt, hf]

/-- The member-load part of the assembled load vector is zero. -/
theorem cex_memP (i : ℕ) : cexAnalyzer.memberLoadVector cexLCA i = 0 := by
  show ((List.range 6).foldl (fun Q t => addAt (addAt Q (0 * 6 + t)
      (-(cexElem.fixedEndReactions [] t))) (1 * 6 + t)
      (-(cexElem.fixedEndReactions [] (t + 6)))) (fun _ => 0)) i = 0
  rw [foldl_addAt_zero (cexElem.fixedEndReactions []) cex_fer0 0 1
    (List.range 6) (fun _ => 0) i]

/-- The combined load vector of combination `C1`. -/
theorem cex_combP1 (i : ℕ) :
    cexAnalyzer.combinedLoadVector cexCombo1 i = if i = 10 then 1 else 0 := by
  show (0 : ℝ) + 1 * (cexAnalyzer.nodalLoadVector cexLCA i +
      cexAnalyzer.memberLoadVector cexLCA i) = _
  rw [cex_nodalP, cex_memP, add_zero, one_mul, zero_add]

/-- The combined nodal part of combination `C1`. -/
theorem cex_combN1 (i : ℕ) :
    cexAnalyzer.combinedNodalVector cexCombo1 i = if i = 10 then 1 else 0 := by
  show (0 : ℝ) + 1 * cexAnalyzer.nodalLoadVector cexLCA i = _
  rw [cex_nodalP, one_mul, zero_add]

/-- The combined member part of combination `C1` is zero. -/
theorem cex_combM1 (i : ℕ) :
    cexAnalyzer.combinedMemberVector cexCombo1 i = 0 := by
  show (0 : ℝ) + 1 * cexAnalyzer.memberLoadVector cexLCA i = 0
  rw [cex_memP, mul_zero, zero_add]

/-- The single free-free stiffness entry is `4` (`4·E·Iy/L`). -/
theorem cex_M00 :
    (cexAnalyzer.assembleGlobalStiffnessMatrix.subMatrix [10] [10]).entry 0 0 = 4 := by
  show cexAnalyzer.assembleGlobalStiffnessMatrix.entry 10 10 = 4
  rw [cex_K, if_pos ⟨by norm_num, by norm_num⟩]
  rfl

/-- The solve stage succeeds on the concrete system. -/
theorem cex_solveDisp :
    cexAnalyzer.solveDisp cexCombo1 = Except.ok (backSubst
      (cexAnalyzer.assembleGlobalStiffnessMatrix.subMatrix [10] [10]) 1
      (Mat.extractVector (cexAnalyzer.combinedLoadVector cexCombo1) [10])) := by
  show (if |(cexAnalyzer.assembleGlobalStiffnessMatrix.subMatrix [10] [10]).entry 0 0|
        < 1e-12
      then Except.error "Matrix is singular or nearly singular"
      else Except.ok (backSubst
        (cexAnalyzer.assembleGlobalStiffnessMatrix.subMatrix [10] [10]) 1
        (Mat.extractVector (cexAnalyzer.combinedLoadVector cexCombo1) [10]))) = _
  rw [if_neg (by rw [cex_M00]; norm_num)]

/-- The solved free displacement vector. -/
def cexD1 : ℕ → ℝ := backSubst
  (cexAnalyzer.assembleGlobalStiffnessMatrix.subMatrix [10] [10]) 1
  (Mat.extractVector (cexAnalyzer.combinedLoadVector cexCombo1) [10])

/-- The free rotation solves to `1/4`. -/
theorem cex_D1 : cexD1 0 = 1 / 4 := by
  show Function.update (Mat.extractVector (cexAnalyzer.combinedLoadVector cexCombo1) [10]) 0
      ((Mat.extractVector (cexAnalyzer.combinedLoadVector cexCombo1) [10] 0 -
        ∑ j ∈ Finset.Ico 1 1,
          (cexAnalyzer.assembleGlobalStiffnessMatrix.subMatrix [10] [10]).entry 0 j *
            Mat.extractVector (cexAnalyzer.combinedLoadVector cexCombo1) [10] j) /
        (cexAnalyzer.assembleGlobalStiffnessMatrix.subMatrix [10] [10]).entry 0 0) 0
      = 1 / 4
  rw [Function.update_same, Finset.Ico_self, Finset.sum_empty, sub_zero, cex_M00]
  have hy0 : Mat.extractVector (cexAnalyzer.combinedLoadVector cexCombo1) [10] 0 = 1 := by
    show cexAnalyzer.combinedLoadVector cexCombo1 10 = 1
    rw [cex_combP1]
    norm_num
  rw [hy0]

/-- The full displacement vector: `1/4` at DOF 10, zero elsewhere. -/
theorem cex_fullDisp (j : ℕ) :
    cexAnalyzer.fullDisp cexD1 j = if j = 10 then 1 / 4 else 0 := by
  show (Function.update (fun _ => (0 : ℝ)) 10 (cexD1 0)) j = _
  rw [Function.update_apply, cex_D1]

/-- The reaction vector in closed form. -/
theorem cex_reaction (i : ℕ) :
    cexAnalyzer.reactionsOf cexCombo1 cexD1 i =
      (if i < 12 then kLocalEntry 1 1 12 6 4 2 12 6 4 2 i 10 else 0) * (1 / 4) -
        (if i = 10 then 1 else 0) := by
  show cexAnalyzer.assembleGlobalStiffnessMatrix.multiplyVector
      (cexAnalyzer.fullDisp cexD1) i - cexAnalyzer.combinedLoadVector cexCombo1 i = _
  rw [cex_combP1]
  congr 1
  show (∑ j ∈ Finset.range 12, cexAnalyzer.assembleGlobalStiffnessMatrix.entry i j *
      cexAnalyzer.fullDisp cexD1 j) = _
  have hterm : ∀ j ∈ Finset.range 12,
      cexAnalyzer.assembleGlobalStiffnessMatrix.entry i j *
        cexAnalyzer.fullDisp cexD1 j =
      if j = 10 then cexAnalyzer.assembleGlobalStiffnessMatrix.entry i 10 * (1 / 4)
      else 0 := by
    intro j hj
    rw [cex_fullDisp]
    by_cases h : j = 10
    · subst h
      rw [if_pos rfl, if_pos rfl]
    · rw [if_neg h, if_neg h, mul_zero]
  rw [Finset.sum_congr rfl hterm, Finset.sum_ite_eq' (Finset.range 12) 10
    (fun _ => cexAnalyzer.assembleGlobalStiffnessMatrix.entry i 10 * (1 / 4)),
    if_pos (Finset.mem_range.mpr (by norm_num)), cex_K]
  congr 1
  by_cases hi : i < 12
  · rw [if_pos ⟨hi, by norm_num⟩, if_pos hi]
  · rw [if_neg (by tauto), if_neg hi]

/-- The combination lookup on the concrete model. -/
theorem cex_findCombo : findCombo cexModel "C1" = some cexCombo1 := rfl

/-- `analyze "C1"` reaches the success path with the solved vector. -/
theorem cex_analyze : cexAnalyzer.analyze "C1" =
    cexAnalyzer.successResult "C1" cexCombo1 cexD1 :=
  analyze_solve_ok cexAnalyzer "C1" cexCombo1 cexD1 cex_findCombo cex_solveDisp

/-- The concrete analysis succeeds. -/
theorem cex_success : (cexAnalyzer.analyze "C1").success = true := by
  rw [cex_analyze]
  rfl

/-- C2 counterexample: on the concrete one-member model with a unit
nodal moment `MY` at the tip, the analysis succeeds, yet the sum over
all nodes of the applied moments about y plus the sum of the computed
reaction moments about y is `3/2`, not zero — global equilibrium fails
for the moment components because the reaction moments do not include
the moment of the reaction forces about the reference point. -/
theorem C2_counterexample :
    Analyzer.mk? cexModel = Except.ok cexAnalyzer ∧
    (cexAnalyzer.analyze "C1").success = true ∧
    (∑ i ∈ Finset.range cexModel.nodes.length,
        cexAnalyzer.combinedNodalVector cexCombo1 (6 * i + 4)) +
      (∑ i ∈ Finset.range cexModel.nodes.length,
        cexAnalyzer.combinedMemberVector cexCombo1 (6 * i + 4)) +
      ((cexAnalyzer.analyze "C1").nodes.map (fun nr => nr.reaction.comp 4)).sum
      = 3 / 2 := by
  refine ⟨cex_mkA, cex_success, ?_⟩
  rw [cex_analyze]
  show _ + _ + ((extractNodeResults cexModel (cexAnalyzer.fullDisp cexD1)
      (cexAnalyzer.reactionsOf cexCombo1 cexD1)).map
        (fun nr => nr.reaction.comp 4)).sum = 3 / 2
  rw [extract_reaction_sum cexModel (cexAnalyzer.fullDisp cexD1)
    (cexAnalyzer.reactionsOf cexCombo1 cexD1) 4 (by norm_num)]
  rw [show cexModel.nodes.length = 2 from rfl]
  simp only [Finset.sum_range_succ, Finset.sum_range_zero, cex_combN1, cex_combM1,
    cex_reaction]
  norm_num [kLocalEntry]

/-- Witness for C2 on the concrete model: the translation component
`c = 0` of the equilibrium identity. -/
theorem C2_witness :
    (∑ i ∈ Finset.range cexModel.nodes.length,
        cexAnalyzer.combinedNodalVector cexCombo1 (6 * i + 0)) +
      (∑ i ∈ Finset.range cexModel.nodes.length,
        cexAnalyzer.combinedMemberVector cexCombo1 (6 * i + 0)) +
      ((cexAnalyzer.analyze "C1").nodes.map (fun nr => nr.reaction.comp 0)).sum
      = 0 :=
  C2_translation_equilibrium cexModel cexAnalyzer cex_mkA "C1" cexCombo1
    cex_findCombo cex_success 0 (by norm_num)

/-! ## C6 : unconstrained models are rejected by the pivot guard -/

/-- `solveAux` errors carry the singular message only. -/
theorem solveAux_error_msg (A : Mat) (b : ℕ → ℝ) (e : String)
    (h : solveAux A b = Except.error e) :
    e = "Matrix is singular or nearly singular" := by
  rw [solveAux] at h
  rcases hloop : elimLoop A.rows 0 (A.rows - 1) (A, b) with e' | st <;> rw [hloop] at h
  · replace h : (Except.error e' : Except String (ℕ → ℝ)) = Except.error e := h
    injection h with h
    rw [← h]
    exact elimLoop_error_msg A.rows (A.rows - 1) 0 A b e' hloop
  · obtain ⟨U, y⟩ := st
    replace h : (if |U.entry (A.rows - 1) (A.rows - 1)| < 1e-12
        then (Except.error "Matrix is singular or nearly singular" : Except String (ℕ → ℝ))
        else Except.ok (backSubst U A.rows y)) = Except.error e := h
    by_cases hch : |U.entry (A.rows - 1) (A.rows - 1)| < 1e-12
    · rw [if_pos hch] at h
      injection h with h
      exact h.symm
    · rw [if_neg hch] at h
      cases h

/-- On a square system `solve` errors carry the singular message only. -/
theorem solve_error_msg (A : Mat) (b : ℕ → ℝ) (n : ℕ) (e : String)
    (hr : A.rows = n) (hc : A.cols = n)
    (h : A.solve b n = Except.error e) :
    e = "Matrix is singular or nearly singular" := by
  rw [Mat.solve, if_neg (by simp [hr, hc]), if_neg (by simp [hr])] at h
  exact solveAux_error_msg A b e h

/-- Whether `solve` succeeds depends only on the matrix, never on the
right-hand side (the pivot checks read the matrix alone). -/
theorem solve_ok_b_independent (A : Mat) (n : ℕ) (b b' x : ℕ → ℝ)
    (hr : A.rows = n) (hc : A.cols = n) (hn : 1 ≤ n)
    (hok : A.solve b n = Except.ok x) : ∃ x', A.solve b' n = Except.ok x' := by
  rcases h : A.solve b' n with e | x'
  · exfalso
    have hmsg := solve_error_msg A b' n e hr hc h
    have hpc := (solve_singular_iff A b' n hr hc hn).mp (by rw [h, hmsg])
    have herr := (solve_singular_iff A b n hr hc hn).mpr hpc
    rw [herr] at hok
    cases hok
  · exact ⟨x', rfl⟩

/-- Symmetry of the assembled stiffness matrix (helper form). -/
theorem assembled_K_symm (a : Analyzer) (i j : ℕ) :
    a.assembleGlobalStiffnessMatrix.entry i j =
      a.assembleGlobalStiffnessMatrix.entry j i :=
  foldl_scatter_symm a.model a.elements (Mat.zeros a.numDOF a.numDOF)
    (fun _ _ => rfl) i j

/-- The rigid-mode indicator vector: `1` on every DOF `6·i + c`
(`i < N`), `0` elsewhere. -/
def kernelVec (N c : ℕ) : ℕ → ℝ :=
  fun q => if q % 6 = c ∧ q / 6 < N then 1 else 0

/-- A position-indexed sum over a list is the sum of its mapped values. -/
theorem map_sum_getD (l : List ℕ) (h : ℕ → ℝ) :
    (∑ q ∈ Finset.range l.length, h (l.getD q 0)) = (l.map h).sum := by
  induction l with
  | nil => simp
  | cons a t ih =>
    rw [List.length_cons, Finset.sum_range_succ']
    rw [show (∑ q ∈ Finset.range t.length, h ((a :: t).getD (q + 1) 0)) =
        ∑ q ∈ Finset.range t.length, h (t.getD q 0) from rfl, ih]
    show (t.map h).sum + h a = h a + (t.map h).sum
    ring

/-- A filter and its complement split a mapped sum. -/
theorem filter_map_sum_split (p q : ℕ → Bool) (hq : ∀ x, q x = !p x) (f : ℕ → ℝ) :
    ∀ l : List ℕ,
      ((l.filter p).map f).sum + ((l.filter q).map f).sum = (l.map f).sum := by
  intro l
  induction l with
  | nil => simp
  | cons a t ih =>
    rcases hp : p a with _ | _
    · rw [List.filter_cons_of_neg (by simp [hp]),
        List.filter_cons_of_pos (by simp [hq, hp]),
        List.map_cons, List.sum_cons, List.map_cons, List.sum_cons, ← ih]
      ring
    · rw [List.filter_cons_of_pos (by simp [hp]),
        List.filter_cons_of_neg (by simp [hq, hp]),
        List.map_cons, List.sum_cons, List.map_cons, List.sum_cons, ← ih]
      ring

/-- Mapped sum over a `flatMap` of ranges. -/
theorem flatMap_map_sum (g : ℕ → List ℕ) (f : ℕ → ℝ) (n : ℕ) :
    (((List.range n).flatMap g).map f).sum =
      ∑ i ∈ Finset.range n, ((g i).map f).sum := by
  induction n with
  | zero => simp
  | succ k ih =>
    rw [List.range_succ, List.flatMap_append, List.map_append, List.sum_append, ih,
      Finset.sum_range_succ]
    simp

/-- The free and fixed DOF lists together sum a function over every DOF. -/
theorem free_fixed_sum (m : StanalModel) (f : ℕ → ℝ) :
    ((freeDOFList m).map f).sum + ((fixedDOFList m).map f).sum =
      ∑ i ∈ Finset.range m.nodes.length, ∑ j ∈ Finset.range 6, f (6 * i + j) := by
  rw [freeDOFList, fixedDOFList, flatMap_map_sum, flatMap_map_sum,
    ← Finset.sum_add_distrib]
  apply Finset.sum_congr rfl
  intro i _
  rw [List.map_map, List.map_map]
  have hsplit := filter_map_sum_split (fun j => !(constraintAt m i j))
    (fun j => constraintAt m i j)
    (fun x => (Bool.not_not (constraintAt m i x)).symm)
    (f ∘ fun j => 6 * i + j) (List.range 6)
  rw [hsplit, list_range_map_sum]
  rfl

/-- An everywhere-unconstrained component yields a free DOF at each node. -/
theorem mem_freeDOF (m : StanalModel) (i c : ℕ) (hi : i < m.nodes.length)
    (hc : c < 6) (h : constraintAt m i c = false) :
    6 * i + c ∈ freeDOFList m := by
  rw [freeDOFList]
  refine List.mem_flatMap.mpr ⟨i, List.mem_range.mpr hi, ?_⟩
  refine List.mem_map.mpr ⟨c, List.mem_filter.mpr ⟨List.mem_range.mpr hc, ?_⟩, rfl⟩
  rw [h]
  rfl

/-- The indicator vector vanishes on every fixed DOF when the component
is unconstrained everywhere. -/
theorem fixed_kernel_zero (m : StanalModel) (c t : ℕ) (hc : c < 6)
    (hfree : ∀ i, i < m.nodes.length → constraintAt m i c = false)
    (ht : t ∈ fixedDOFList m) : kernelVec m.nodes.length c t = 0 := by
  rw [fixedDOFList] at ht
  obtain ⟨i, hi, ht2⟩ := List.mem_flatMap.mp ht
  obtain ⟨j, hj, rfl⟩ := List.mem_map.mp ht2
  obtain ⟨hj6, hcon⟩ := List.mem_filter.mp hj
  have hiN := List.mem_range.mp hi
  have hj6n := List.mem_range.mp hj6
  have hjc : j ≠ c := by
    intro heq
    rw [heq, hfree i hiN] at hcon
    exact Bool.false_ne_true hcon
  show (if (6 * i + j) % 6 = c ∧ (6 * i + j) / 6 < m.nodes.length then (1 : ℝ) else 0) = 0
  exact if_neg (by omega)

/-- C6: whenever some translation component `c < 3` is unconstrained at
every node of a constructed model (in particular for a model without any
supports), `analyze` returns `success = false` for every combination
name: the free-free block annihilates the rigid-translation indicator
vector, so it is singular, the elimination's pivot guard (which reads
only the matrix) must fire, and the thrown error is caught and surfaced
as a failed result; a successful solve would force the indicator vector
to vanish, which it does not. -/
theorem C6_unconstrained_translation_fails (m : StanalModel) (a : Analyzer)
    (hA : Analyzer.mk? m = Except.ok a) (name : String) (c : ℕ) (hc : c < 3)
    (hfree : ∀ i, i < m.nodes.length → constraintAt m i c = false) :
    (a.analyze name).success = false := by
  obtain ⟨hm, hnum, hfreeEq, hfixedEq, hval⟩ := analyzer_elements_valid m a hA
  rcases hfc : findCombo a.model name with _ | combo
  · rw [analyze_not_found a name hfc]
    rfl
  rcases hs : a.solveDisp combo with e | D1
  · rw [analyze_solve_error a name combo e hfc hs]
    rfl
  exfalso
  have hsd : a.solveDisp combo =
      (a.assembleGlobalStiffnessMatrix.subMatrix (freeDOFList m) (freeDOFList m)).solve
        (Mat.extractVector (a.combinedLoadVector combo) (freeDOFList m))
        (freeDOFList m).length := by
    rw [Analyzer.solveDisp, hfreeEq]
  rw [hsd] at hs
  by_cases hN : m.nodes.length = 0
  · have hel : a.elements = [] := by
      rcases helems : a.elements with _ | ⟨e, t⟩
      · rfl
      · exfalso
        have hv := hval e (by rw [helems]; exact List.mem_cons_self e t)
        obtain ⟨⟨i1, _, hi1N⟩, _⟩ := hv
        omega
    have hfd : freeDOFList m = [] := by
      rw [freeDOFList, hN]
      rfl
    have hK : a.assembleGlobalStiffnessMatrix = Mat.zeros a.numDOF a.numDOF := by
      rw [Analyzer.assembleGlobalStiffnessMatrix, hel]
      rfl
    rw [hfd, hK] at hs
    replace hs : (if |(0 : ℝ)| < 1e-12
        then (Except.error "Matrix is singular or nearly singular" : Except String (ℕ → ℝ))
        else Except.ok (backSubst ((Mat.zeros a.numDOF a.numDOF).subMatrix [] []) 0
          (Mat.extractVector (a.combinedLoadVector combo) []))) = Except.ok D1 := hs
    rw [if_pos (by norm_num)] at hs
    cases hs
  · have hN0 : 0 < m.nodes.length := Nat.pos_of_ne_zero hN
    have hmem0 : 6 * 0 + c ∈ freeDOFList m :=
      mem_freeDOF m 0 c hN0 (by omega) (hfree 0 hN0)
    have hn1 : 1 ≤ (freeDOFList m).length :=
      List.length_pos.mpr (List.ne_nil_of_mem hmem0)
    obtain ⟨x, hx⟩ := solve_ok_b_independent
      (a.assembleGlobalStiffnessMatrix.subMatrix (freeDOFList m) (freeDOFList m))
      (freeDOFList m).length
      (Mat.extractVector (a.combinedLoadVector combo) (freeDOFList m))
      (fun q => kernelVec m.nodes.length c ((freeDOFList m).getD q 0))
      D1 rfl rfl hn1 hs
    rw [Mat.solve, if_neg (by simp [Mat.subMatrix]), if_neg (by simp [Mat.subMatrix])] at hx
    have hsol : ∀ p, p < (freeDOFList m).length →
        (∑ q ∈ Finset.range (freeDOFList m).length,
          (a.assembleGlobalStiffnessMatrix.subMatrix (freeDOFList m)
            (freeDOFList m)).entry p q * x q) =
          kernelVec m.nodes.length c ((freeDOFList m).getD p 0) :=
      solveAux_ok_solves
        (a.assembleGlobalStiffnessMatrix.subMatrix (freeDOFList m) (freeDOFList m))
        (fun q => kernelVec m.nodes.length c ((freeDOFList m).getD q 0)) x hn1 hx
    -- the masked rows annihilate the indicator vector
    have hrow : ∀ p, (∑ q ∈ Finset.range (freeDOFList m).length,
        (a.assembleGlobalStiffnessMatrix.subMatrix (freeDOFList m)
          (freeDOFList m)).entry p q *
          kernelVec m.nodes.length c ((freeDOFList m).getD q 0)) = 0 := by
      intro p
      have hconv : (∑ q ∈ Finset.range (freeDOFList m).length,
          (a.assembleGlobalStiffnessMatrix.subMatrix (freeDOFList m)
            (freeDOFList m)).entry p q *
            kernelVec m.nodes.length c ((freeDOFList m).getD q 0)) =
          ((freeDOFList m).map (fun t =>
            a.assembleGlobalStiffnessMatrix.entry ((freeDOFList m).getD p 0) t *
              kernelVec m.nodes.length c t)).sum :=
        map_sum_getD (freeDOFList m) (fun t =>
          a.assembleGlobalStiffnessMatrix.entry ((freeDOFList m).getD p 0) t *
            kernelVec m.nodes.length c t)
      rw [hconv]
      have hfix0 : (((fixedDOFList m)).map (fun t =>
          a.assembleGlobalStiffnessMatrix.entry ((freeDOFList m).getD p 0) t *
            kernelVec m.nodes.length c t)).sum = 0 := by
        apply List.sum_eq_zero
        intro y hy
        obtain ⟨t, ht, rfl⟩ := List.mem_map.mp hy
        rw [fixed_kernel_zero m c t (by omega) hfree ht, mul_zero]
      have hsplit := free_fixed_sum m (fun t =>
        a.assembleGlobalStiffnessMatrix.entry ((freeDOFList m).getD p 0) t *
          kernelVec m.nodes.length c t)
      have htot : (∑ i ∈ Finset.range m.nodes.length, ∑ j ∈ Finset.range 6,
          a.assembleGlobalStiffnessMatrix.entry ((freeDOFList m).getD p 0) (6 * i + j) *
            kernelVec m.nodes.length c (6 * i + j)) = 0 := by
        have hcol : ∀ i ∈ Finset.range m.nodes.length, (∑ j ∈ Finset.range 6,
            a.assembleGlobalStiffnessMatrix.entry ((freeDOFList m).getD p 0) (6 * i + j) *
              kernelVec m.nodes.length c (6 * i + j)) =
            a.assembleGlobalStiffnessMatrix.entry (6 * i + c)
              ((freeDOFList m).getD p 0) := by
          intro i hi
          have hiN := Finset.mem_range.mp hi
          rw [Finset.sum_eq_single c]
          · show a.assembleGlobalStiffnessMatrix.entry _ (6 * i + c) *
              (if (6 * i + c) % 6 = c ∧ (6 * i + c) / 6 < m.nodes.length then (1 : ℝ)
               else 0) = _
            rw [if_pos ⟨by omega, by omega⟩, mul_one,
              assembled_K_symm a ((freeDOFList m).getD p 0) (6 * i + c)]
          · intro j hj hjne
            show a.assembleGlobalStiffnessMatrix.entry _ (6 * i + j) *
              (if (6 * i + j) % 6 = c ∧ (6 * i + j) / 6 < m.nodes.length then (1 : ℝ)
               else 0) = 0
            have hj6 := Finset.mem_range.mp hj
            rw [if_neg (by omega), mul_zero]
          · intro habs
            exact absurd (Finset.mem_range.mpr (by omega)) habs
        rw [Finset.sum_congr rfl hcol,
          assembled_K_rowsum m a hA c ((freeDOFList m).getD p 0) hc]
      rw [hfix0, add_zero] at hsplit
      rw [hsplit, htot]
    -- the quadratic form of the indicator vector vanishes …
    have hquad : (∑ p ∈ Finset.range (freeDOFList m).length,
        kernelVec m.nodes.length c ((freeDOFList m).getD p 0) *
          kernelVec m.nodes.length c ((freeDOFList m).getD p 0)) = 0 := by
      have h1 : ∀ p ∈ Finset.range (freeDOFList m).length,
          kernelVec m.nodes.length c ((freeDOFList m).getD p 0) *
            kernelVec m.nodes.length c ((freeDOFList m).getD p 0) =
          ∑ q ∈ Finset.range (freeDOFList m).length,
            kernelVec m.nodes.length c ((freeDOFList m).getD p 0) *
              ((a.assembleGlobalStiffnessMatrix.subMatrix (freeDOFList m)
                (freeDOFList m)).entry p q * x q) := by
        intro p hp
        rw [← Finset.mul_sum, hsol p (Finset.mem_range.mp hp)]
      rw [Finset.sum_congr rfl h1, Finset.sum_comm]
      have h2 : ∀ q ∈ Finset.range (freeDOFList m).length,
          (∑ p ∈ Finset.range (freeDOFList m).length,
            kernelVec m.nodes.length c ((freeDOFList m).getD p 0) *
              ((a.assembleGlobalStiffnessMatrix.subMatrix (freeDOFList m)
                (freeDOFList m)).entry p q * x q)) = 0 := by
        intro q hq
        have h3 : ∀ p ∈ Finset.range (freeDOFList m).length,
            kernelVec m.nodes.length c ((freeDOFList m).getD p 0) *
              ((a.assembleGlobalStiffnessMatrix.subMatrix (freeDOFList m)
                (freeDOFList m)).entry p q * x q) =
            ((a.assembleGlobalStiffnessMatrix.subMatrix (freeDOFList m)
              (freeDOFList m)).entry q p *
              kernelVec m.nodes.length c ((freeDOFList m).getD p 0)) * x q := by
          intro p hp
          rw [show (a.assembleGlobalStiffnessMatrix.subMatrix (freeDOFList m)
              (freeDOFList m)).entry p q =
            (a.assembleGlobalStiffnessMatrix.subMatrix (freeDOFList m)
              (freeDOFList m)).entry q p from
            assembled_K_symm a ((freeDOFList m).getD p 0) ((freeDOFList m).getD q 0)]
          ring
        rw [Finset.sum_congr rfl h3, ← Finset.sum_mul, hrow q, zero_mul]
      rw [Finset.sum_congr rfl h2, Finset.sum_const_zero]
    -- … yet it has a unit entry
    obtain ⟨q0, hq0n, hq0⟩ := List.mem_iff_getElem.mp hmem0
    have hz := (Finset.sum_eq_zero_iff_of_nonneg
      (fun p _ => mul_self_nonneg (kernelVec m.nodes.length c
        ((freeDOFList m).getD p 0)))).mp hquad q0 (Finset.mem_range.mpr hq0n)
    have hone : kernelVec m.nodes.length c ((freeDOFList m).getD q0 0) = 1 := by
      rw [List.getD_eq_getElem (freeDOFList m) 0 hq0n, hq0]
      show (if (6 * 0 + c) % 6 = c ∧ (6 * 0 + c) / 6 < m.nodes.length then (1 : ℝ)
        else 0) = 1
      rw [if_pos ⟨by omega, by omega⟩]
    rw [hone, one_mul] at hz
    exact one_ne_zero hz

/-- A one-node model without supports and with an empty combination. -/
def c6m : StanalModel :=
  ⟨[⟨"N1", 0, 0, 0⟩], [], [], [], [], [], [⟨"C1", []⟩]⟩

/-- The analyzer the constructor builds for `c6m`. -/
def c6a : Analyzer := ⟨c6m, [], 6, [0, 1, 2, 3, 4, 5], []⟩

/-- Witness for C6: analyzing the unsupported one-node model fails. -/
theorem C6_witness : (c6a.analyze "C1").success = false :=
  C6_unconstrained_translation_fails c6m c6a rfl "C1" 0 (by norm_num)
    (fun i hi => by rw [Nat.lt_one_iff.mp hi]; rfl)

/-! ## C7 : linearity of the whole pipeline in the load factor -/

/-- Swapping commutes with scaling the right-hand side. -/
theorem swapVec_smul (x : ℕ → ℝ) (t : ℝ) (r1 r2 i : ℕ) :
    swapVec (fun j => t * x j) r1 r2 i = t * swapVec x r1 r2 i := by
  show (if i = r1 then t * x r2 else if i = r2 then t * x r1 else t * x i) =
    t * (if i = r1 then x r2 else if i = r2 then x r1 else x i)
  split_ifs <;> rfl

/-- Row reduction of the right-hand side commutes with scaling. -/
theorem reduceV_smul (n k : ℕ) (B : Mat) (y : ℕ → ℝ) (t : ℝ) (i : ℕ) :
    reduceV n k B (fun j => t * y j) i = t * reduceV n k B y i := by
  show (if k + 1 ≤ i ∧ i < n then t * y i - B.entry i k / B.entry k k * (t * y k)
      else t * y i) =
    t * (if k + 1 ≤ i ∧ i < n then y i - B.entry i k / B.entry k k * y k else y i)
  split_ifs with h
  · ring
  · rfl

/-- One elimination step's right-hand side is linear in the input. -/
theorem elimX_smul (n : ℕ) (A : Mat) (x : ℕ → ℝ) (t : ℝ) (k : ℕ) :
    elimX n A (fun i => t * x i) k = fun i => t * elimX n A x k i := by
  funext i
  show reduceV n k (swapRowsM A k (pivotSearch A k n).1)
      (swapVec (fun j => t * x j) k (pivotSearch A k n).1) i =
    t * reduceV n k (swapRowsM A k (pivotSearch A k n).1)
      (swapVec x k (pivotSearch A k n).1) i
  rw [show swapVec (fun j => t * x j) k (pivotSearch A k n).1 =
      fun j => t * swapVec x k (pivotSearch A k n).1 j from
    funext (swapVec_smul x t k (pivotSearch A k n).1), reduceV_smul]

/-- The elimination loop is linear in the right-hand side (the matrix
part and the guards never read it). -/
theorem elimLoop_smul_ok (n : ℕ) (t : ℝ) : ∀ (steps k : ℕ) (A : Mat) (x : ℕ → ℝ)
    (U : Mat) (y : ℕ → ℝ), elimLoop n k steps (A, x) = Except.ok (U, y) →
    elimLoop n k steps (A, fun i => t * x i) = Except.ok (U, fun i => t * y i) := by
  intro steps
  induction steps with
  | zero =>
    intro k A x U y hloop
    replace hloop : (Except.ok (A, x) : Except String (Mat × (ℕ → ℝ))) =
      Except.ok (U, y) := hloop
    injection hloop with hloop
    rw [Prod.mk.injEq] at hloop
    obtain ⟨rfl, rfl⟩ := hloop
    rfl
  | succ s ih =>
    intro k A x U y hloop
    replace hloop : (match elimStep n (A, x) k with
      | Except.error e => Except.error e
      | Except.ok st' => elimLoop n (k + 1) s st') = Except.ok (U, y) := hloop
    show (match elimStep n (A, fun i => t * x i) k with
      | Except.error e => Except.error e
      | Except.ok st' => elimLoop n (k + 1) s st') = Except.ok (U, fun i => t * y i)
    rcases elimStep_cases n k A x with ⟨herr, hsm⟩ | ⟨hok, hsm⟩
    · rw [herr] at hloop
      replace hloop : (Except.error "Matrix is singular or nearly singular" :
        Except String (Mat × (ℕ → ℝ))) = Except.ok (U, y) := hloop
      cases hloop
    · rw [hok] at hloop
      replace hloop : elimLoop n (k + 1) s (elimA n A k, elimX n A x k) =
        Except.ok (U, y) := hloop
      rcases elimStep_cases n k A (fun i => t * x i) with ⟨herr2, hsm2⟩ | ⟨hok2, _⟩
      · exact absurd hsm2 hsm
      · rw [hok2, elimX_smul]
        exact ih (k + 1) (elimA n A k) (elimX n A x k) U y hloop

/-- One back-substitution pass is linear in the running vector. -/
theorem backSubst_smul (U : Mat) (n : ℕ) (t : ℝ) :
    ∀ (l : List ℕ) (y1 y2 : ℕ → ℝ), (∀ i, y2 i = t * y1 i) →
      ∀ i, (l.foldl (bsStep U n) y2) i = t * (l.foldl (bsStep U n) y1) i := by
  intro l
  induction l with
  | nil => intro y1 y2 h i; exact h i
  | cons a l ih =>
    intro y1 y2 h i
    rw [List.foldl_cons, List.foldl_cons]
    refine ih (bsStep U n y1 a) (bsStep U n y2 a) ?_ i
    intro j
    show Function.update y2 a ((y2 a - ∑ q ∈ Finset.Ico (a + 1) n,
        U.entry a q * y2 q) / U.entry a a) j = t * Function.update y1 a
        ((y1 a - ∑ q ∈ Finset.Ico (a + 1) n, U.entry a q * y1 q) / U.entry a a) j
    rw [Function.update_apply, Function.update_apply]
    by_cases hj : j = a
    · rw [if_pos hj, if_pos hj]
      have hsum : (∑ q ∈ Finset.Ico (a + 1) n, U.entry a q * y2 q) =
          t * ∑ q ∈ Finset.Ico (a + 1) n, U.entry a q * y1 q := by
        rw [Finset.mul_sum]
        exact Finset.sum_congr rfl (fun q _ => by rw [h q]; ring)
      rw [h a, hsum]
      ring
    · rw [if_neg hj, if_neg hj, h j]

/-- `solve` is linear in the right-hand side whenever it succeeds. -/
theorem solve_smul (A : Mat) (b : ℕ → ℝ) (n : ℕ) (x : ℕ → ℝ) (t : ℝ)
    (hr : A.rows = n) (hc : A.cols = n)
    (hok : A.solve b n = Except.ok x) :
    ∃ x2, A.solve (fun i => t * b i) n = Except.ok x2 ∧ ∀ i, x2 i = t * x i := by
  rw [Mat.solve, if_neg (by simp [hr, hc]), if_neg (by simp [hr])] at hok ⊢
  rw [solveAux] at hok ⊢
  rcases hloop : elimLoop A.rows 0 (A.rows - 1) (A, b) with e | st <;> rw [hloop] at hok
  · cases hok
  obtain ⟨U, y⟩ := st
  rw [elimLoop_smul_ok A.rows t (A.rows - 1) 0 A b U y hloop]
  replace hok : (if |U.entry (A.rows - 1) (A.rows - 1)| < 1e-12
      then (Except.error "Matrix is singular or nearly singular" : Except String (ℕ → ℝ))
      else Except.ok (backSubst U A.rows y)) = Except.ok x := hok
  by_cases hch : |U.entry (A.rows - 1) (A.rows - 1)| < 1e-12
  · rw [if_pos hch] at hok
    cases hok
  · rw [if_neg hch] at hok
    injection hok with hok
    subst hok
    refine ⟨backSubst U A.rows (fun i => t * y i), ?_, ?_⟩
    · show (if |U.entry (A.rows - 1) (A.rows - 1)| < 1e-12
          then (Except.error "Matrix is singular or nearly singular" :
            Except String (ℕ → ℝ))
          else Except.ok (backSubst U A.rows (fun i => t * y i))) = _
      rw [if_neg hch]
    · intro i
      exact backSubst_smul U A.rows t (List.range A.rows).reverse y (fun i => t * y i)
        (fun _ => rfl) i

/-- A single-case combination with factor `t` assembles `t` times the
load vector of the factor-`1` combination over the same case. -/
theorem combined_smul (a : Analyzer) (cb1 cb2 : LoadCombination) (s : String)
    (t : ℝ) (h1 : cb1.factors = [(s, 1)]) (h2 : cb2.factors = [(s, t)]) (i : ℕ) :
    a.combinedLoadVector cb2 i = t * a.combinedLoadVector cb1 i := by
  rw [Analyzer.combinedLoadVector, Analyzer.combinedLoadVector, h1, h2]
  rcases hlc : findLoadCase a.model s with _ | lc <;>
    simp only [List.foldl_cons, List.foldl_nil, hlc]
  · norm_num
  · show (0 : ℝ) + t * a.assembleLoadVector lc i =
      t * ((0 : ℝ) + 1 * a.assembleLoadVector lc i)
    ring

/-- If the factor-`1` solve succeeds, the factor-`t` solve succeeds with
the `t`-scaled displacements. -/
theorem solveDisp_smul (a : Analyzer) (cb1 cb2 : LoadCombination) (s : String)
    (t : ℝ) (h1 : cb1.factors = [(s, 1)]) (h2 : cb2.factors = [(s, t)])
    (D1 : ℕ → ℝ) (hok : a.solveDisp cb1 = Except.ok D1) :
    ∃ D2, a.solveDisp cb2 = Except.ok D2 ∧ ∀ i, D2 i = t * D1 i := by
  have hb : Mat.extractVector (a.combinedLoadVector cb2) a.freeDOF =
      fun q => t * Mat.extractVector (a.combinedLoadVector cb1) a.freeDOF q :=
    funext (fun q => combined_smul a cb1 cb2 s t h1 h2 (a.freeDOF.getD q 0))
  have hsd : a.solveDisp cb2 =
      (a.assembleGlobalStiffnessMatrix.subMatrix a.freeDOF a.freeDOF).solve
        (fun q => t * Mat.extractVector (a.combinedLoadVector cb1) a.freeDOF q)
        a.freeDOF.length := by
    rw [Analyzer.solveDisp, hb]
  rw [hsd]
  exact solve_smul (a.assembleGlobalStiffnessMatrix.subMatrix a.freeDOF a.freeDOF)
    (Mat.extractVector (a.combinedLoadVector cb1) a.freeDOF) a.freeDOF.length D1 t
    rfl rfl hok

/-- If the factor-`1` solve fails, the factor-`2` solve fails as well
(otherwise scaling the doubled solution by `1/2` would solve the
original system). -/
theorem solveDisp_smul_error (a : Analyzer) (cb1 cb2 : LoadCombination) (s : String)
    (h1 : cb1.factors = [(s, 1)]) (h2 : cb2.factors = [(s, 2)])
    (e : String) (herr : a.solveDisp cb1 = Except.error e) :
    ∃ e2, a.solveDisp cb2 = Except.error e2 := by
  rcases hs2 : a.solveDisp cb2 with e2 | D2
  · exact ⟨e2, rfl⟩
  exfalso
  have hb : Mat.extractVector (a.combinedLoadVector cb2) a.freeDOF =
      fun q => 2 * Mat.extractVector (a.combinedLoadVector cb1) a.freeDOF q :=
    funext (fun q => combined_smul a cb1 cb2 s 2 h1 h2 (a.freeDOF.getD q 0))
  have hsd : a.solveDisp cb2 =
      (a.assembleGlobalStiffnessMatrix.subMatrix a.freeDOF a.freeDOF).solve
        (fun q => 2 * Mat.extractVector (a.combinedLoadVector cb1) a.freeDOF q)
        a.freeDOF.length := by
    rw [Analyzer.solveDisp, hb]
  rw [hsd] at hs2
  obtain ⟨x1, hx1, _⟩ := solve_smul
    (a.assembleGlobalStiffnessMatrix.subMatrix a.freeDOF a.freeDOF)
    (fun q => 2 * Mat.extractVector (a.combinedLoadVector cb1) a.freeDOF q)
    a.freeDOF.length D2 (1 / 2) rfl rfl hs2
  have hhalf : (fun i => (1 : ℝ) / 2 *
      (2 * Mat.extractVector (a.combinedLoadVector cb1) a.freeDOF i)) =
      Mat.extractVector (a.combinedLoadVector cb1) a.freeDOF :=
    funext (fun i => by ring)
  rw [hhalf] at hx1
  have : a.solveDisp cb1 = Except.ok x1 := hx1
  rw [this] at herr
  cases herr

/-- Index-list scatter (`setVector`) is linear in the written values. -/
theorem setVector_smul (idx : List ℕ) (t : ℝ) (v1 v2 : ℕ → ℝ)
    (hv : ∀ q, v2 q = t * v1 q) :
    ∀ (l : List ℕ) (w1 w2 : ℕ → ℝ), (∀ i, w2 i = t * w1 i) → ∀ i,
      (l.foldl (fun w q => Function.update w (idx.getD q 0) (v2 q)) w2) i =
        t * (l.foldl (fun w q => Function.update w (idx.getD q 0) (v1 q)) w1) i := by
  intro l
  induction l with
  | nil => intro w1 w2 h i; exact h i
  | cons a l ih =>
    intro w1 w2 h i
    rw [List.foldl_cons, List.foldl_cons]
    refine ih (Function.update w1 (idx.getD a 0) (v1 a))
      (Function.update w2 (idx.getD a 0) (v2 a)) ?_ i
    intro j
    rw [Function.update_apply, Function.update_apply]
    by_cases hj : j = idx.getD a 0
    · rw [if_pos hj, if_pos hj, hv a]
    · rw [if_neg hj, if_neg hj, h j]

/-- The scattered full displacement vector scales with the solution. -/
theorem fullDisp_smul (a : Analyzer) (t : ℝ) (D1 D2 : ℕ → ℝ)
    (hD : ∀ i, D2 i = t * D1 i) (j : ℕ) :
    a.fullDisp D2 j = t * a.fullDisp D1 j :=
  setVector_smul a.freeDOF t D1 D2 hD (List.range a.freeDOF.length)
    (fun _ => 0) (fun _ => 0) (fun _ => by ring) j

/-- `K·D` scales with `D`. -/
theorem multiplyVector_smul (K : Mat) (t : ℝ) (D1 D2 : ℕ → ℝ)
    (hD : ∀ i, D2 i = t * D1 i) (i : ℕ) :
    K.multiplyVector D2 i = t * K.multiplyVector D1 i := by
  rw [Mat.multiplyVector, Mat.multiplyVector, Finset.mul_sum]
  exact Finset.sum_congr rfl (fun j _ => by rw [hD j]; ring)

/-- The reactions of the doubled combination are the doubled reactions. -/
theorem reactionsOf_smul (a : Analyzer) (cb1 cb2 : LoadCombination) (s : String)
    (t : ℝ) (h1 : cb1.factors = [(s, 1)]) (h2 : cb2.factors = [(s, t)])
    (D1 D2 : ℕ → ℝ) (hD : ∀ i, D2 i = t * D1 i) (i : ℕ) :
    a.reactionsOf cb2 D2 i = t * a.reactionsOf cb1 D1 i := by
  show a.assembleGlobalStiffnessMatrix.multiplyVector (a.fullDisp D2) i -
      a.combinedLoadVector cb2 i = _
  rw [multiplyVector_smul a.assembleGlobalStiffnessMatrix t (a.fullDisp D1)
      (a.fullDisp D2) (fullDisp_smul a t D1 D2 hD) i,
    combined_smul a cb1 cb2 s t h1 h2 i]
  show _ = t * (a.assembleGlobalStiffnessMatrix.multiplyVector (a.fullDisp D1) i -
      a.combinedLoadVector cb1 i)
  ring

/-- Doubling a value/location pair (the location is unchanged). -/
def doubleVL (v : ValueLoc) : ValueLoc := ⟨2 * v.value, v.location⟩

/-- Doubling all six components of a `NodeDOF`. -/
def doubleDOF (d : NodeDOF) : NodeDOF :=
  ⟨2 * d.dx, 2 * d.dy, 2 * d.dz, 2 * d.rx, 2 * d.ry, 2 * d.rz⟩

/-- Doubling a node result (id unchanged). -/
def doubleNodeResult (nr : NodeResult) : NodeResult :=
  ⟨nr.nodeId, doubleDOF nr.displacement, doubleDOF nr.reaction⟩

/-- Doubling a sampled member-force record (the station is unchanged). -/
def doubleForces (f : MemberForces) : MemberForces :=
  ⟨f.x, 2 * f.axial, 2 * f.shearY, 2 * f.shearZ, 2 * f.torsion,
   2 * f.momentY, 2 * f.momentZ⟩

/-- Doubling a member result. -/
def doubleMemberResult (mr : MemberResult) : MemberResult :=
  ⟨mr.memberId, mr.forces.map doubleForces,
   ⟨doubleVL mr.maxForces.axial, doubleVL mr.maxForces.shearY,
    doubleVL mr.maxForces.shearZ, doubleVL mr.maxForces.momentY,
    doubleVL mr.maxForces.momentZ⟩⟩

/-- Doubling a node-extreme summary entry. -/
def doubleNE (ne : NodeExtreme) : NodeExtreme := ⟨ne.nodeId, 2 * ne.value, ne.direction⟩

/-- Doubling a member-extreme summary entry. -/
def doubleME (me : MemberExtreme) : MemberExtreme :=
  ⟨me.memberId, 2 * me.value, me.location⟩

/-- Doubling the whole summary. -/
def doubleSummary (su : Summary) : Summary :=
  ⟨doubleNE su.maxDisplacement, doubleNE su.maxReaction,
   doubleME su.maxMoment, doubleME su.maxShear⟩

/-- Doubled displacement and reaction vectors extract to doubled node
results. -/
theorem extractNodeResults_double (m : StanalModel) (D1 D2 R1 R2 : ℕ → ℝ)
    (hD : ∀ i, D2 i = 2 * D1 i) (hR : ∀ i, R2 i = 2 * R1 i) :
    extractNodeResults m D2 R2 = (extractNodeResults m D1 R1).map doubleNodeResult := by
  rw [extractNodeResults, extractNodeResults, List.map_map]
  apply List.map_congr_left
  intro p _
  simp only [Function.comp_apply, doubleNodeResult, doubleDOF, hD, hR]

/-- A doubled absolute-value comparison is the original comparison. -/
theorem abs_two_mul_lt (x y : ℝ) : (|2 * x| > |2 * y|) ↔ |x| > |y| := by
  rw [abs_mul, abs_mul]
  norm_num

/-- `findMax` over doubled forces doubles the value and keeps the
location, for any component accessor that commutes with doubling. -/
theorem findMax_double (key : MemberForces → ℝ)
    (hkey : ∀ f, key (doubleForces f) = 2 * key f) :
    ∀ (l : List MemberForces) (acc : ValueLoc),
      (l.map doubleForces).foldl
        (fun acc f => if |key f| > |acc.value| then ⟨key f, f.x⟩ else acc)
        (doubleVL acc) =
      doubleVL (l.foldl
        (fun acc f => if |key f| > |acc.value| then ⟨key f, f.x⟩ else acc) acc) := by
  intro l
  induction l with
  | nil => intro acc; rfl
  | cons f t ih =>
    intro acc
    rw [List.map_cons, List.foldl_cons, List.foldl_cons]
    rw [show (if |key (doubleForces f)| > |(doubleVL acc).value|
        then (⟨key (doubleForces f), (doubleForces f).x⟩ : ValueLoc) else doubleVL acc) =
      doubleVL (if |key f| > |acc.value| then ⟨key f, f.x⟩ else acc) from ?_]
    · exact ih _
    · rw [hkey f]
      show (if |2 * key f| > |2 * acc.value| then (⟨2 * key f, f.x⟩ : ValueLoc)
        else doubleVL acc) = _
      by_cases h : |key f| > |acc.value|
      · rw [if_pos ((abs_two_mul_lt (key f) acc.value).mpr h), if_pos h]
        rfl
      · rw [if_neg (fun hc => h ((abs_two_mul_lt (key f) acc.value).mp hc)), if_neg h]

/-- `findMax` proper over doubled forces. -/
theorem findMax_double' (key : MemberForces → ℝ)
    (hkey : ∀ f, key (doubleForces f) = 2 * key f) (l : List MemberForces) :
    findMax (l.map doubleForces) key = doubleVL (findMax l key) := by
  rw [findMax, findMax]
  nth_rewrite 1 [show (⟨0, 0⟩ : ValueLoc) = doubleVL ⟨0, 0⟩ from by rw [doubleVL]; norm_num]
  exact findMax_double key hkey l ⟨0, 0⟩

/-- `getD` with default `0` commutes with doubling a list. -/
theorem map_two_getD (l : List ℝ) (i : ℕ) :
    (l.map (fun v => 2 * v)).getD i 0 = 2 * l.getD i 0 := by
  induction l generalizing i with
  | nil => simp
  | cons a t ih =>
    cases i with
    | zero => rfl
    | succ j => exact ih j

/-- Doubling the nodal displacements doubles every sampled member force
(the station positions are unchanged, the member-load lists are
irrelevant). -/
theorem computeMemberForces_double (e : Member3DElement) (d1 d2 : ℕ → ℝ)
    (loads1 loads2 : List MemberLoad) (np : ℕ) (hd : ∀ t, d2 t = 2 * d1 t) :
    e.computeMemberForces d2 loads2 np =
      (e.computeMemberForces d1 loads1 np).map
        (fun fp => ⟨fp.x, fp.forces.map (fun v => 2 * v)⟩) := by
  rw [computeMemberForces_loads_irrelevant e d2 loads2 loads1 np]
  have hf : ∀ p, e.localStiffnessMatrix.multiplyVector
      (e.transformationMatrix.multiplyVector d2) p =
      2 * e.localStiffnessMatrix.multiplyVector
        (e.transformationMatrix.multiplyVector d1) p :=
    fun p => multiplyVector_smul e.localStiffnessMatrix 2 _ _
      (fun q => multiplyVector_smul e.transformationMatrix 2 d1 d2 hd q) p
  simp only [Member3DElement.computeMemberForces, List.map_map]
  apply List.map_congr_left
  intro i _
  simp only [Function.comp_apply, hf, List.map_cons, List.map_nil]
  congr 1
  simp only [List.cons.injEq, and_true]
  exact ⟨by ring, by ring, by ring, by ring, by ring, by ring⟩

/-- Assembling a member record from doubled force samples doubles the
record. -/
theorem memberRecord_double (id : String) (F1 : List MemberForces) :
    (⟨id, F1.map doubleForces,
      ⟨findMax (F1.map doubleForces) (fun f => f.axial),
       findMax (F1.map doubleForces) (fun f => f.shearY),
       findMax (F1.map doubleForces) (fun f => f.shearZ),
       findMax (F1.map doubleForces) (fun f => f.momentY),
       findMax (F1.map doubleForces) (fun f => f.momentZ)⟩⟩ : MemberResult) =
    doubleMemberResult ⟨id, F1,
      ⟨findMax F1 (fun f => f.axial), findMax F1 (fun f => f.shearY),
       findMax F1 (fun f => f.shearZ), findMax F1 (fun f => f.momentY),
       findMax F1 (fun f => f.momentZ)⟩⟩ := by
  rw [doubleMemberResult,
    findMax_double' (fun f => f.axial) (fun f => rfl),
    findMax_double' (fun f => f.shearY) (fun f => rfl),
    findMax_double' (fun f => f.shearZ) (fun f => rfl),
    findMax_double' (fun f => f.momentY) (fun f => rfl),
    findMax_double' (fun f => f.momentZ) (fun f => rfl)]

/-- Doubling the full displacement vector doubles every member result
record produced by `extractMemberResults` (the combined-loads recombination
differs between the two combinations but is never read by the force
sampling). -/
theorem extractMemberResults_double (a : Analyzer) (D1 D2 : ℕ → ℝ)
    (cb1 cb2 : LoadCombination) (hD : ∀ i, D2 i = 2 * D1 i) :
    a.extractMemberResults D2 cb2 =
      (a.extractMemberResults D1 cb1).map doubleMemberResult := by
  rw [Analyzer.extractMemberResults, Analyzer.extractMemberResults, List.map_map]
  apply List.map_congr_left
  intro e _
  have helD : ∀ t, (fun t => if t < 6
        then D2 (6 * ((a.model.nodeIndexOf e.iNode.id).getD 0) + t)
        else if t < 12
        then D2 (6 * ((a.model.nodeIndexOf e.jNode.id).getD 0) + (t - 6)) else 0) t =
      2 * (fun t => if t < 6
        then D1 (6 * ((a.model.nodeIndexOf e.iNode.id).getD 0) + t)
        else if t < 12
        then D1 (6 * ((a.model.nodeIndexOf e.jNode.id).getD 0) + (t - 6)) else 0) t := by
    intro t
    by_cases h6 : t < 6
    · simp only [if_pos h6, hD]
    · by_cases h12 : t < 12
      · simp only [if_neg h6, if_pos h12, hD]
      · simp only [if_neg h6, if_neg h12]
        norm_num
  have hFP := computeMemberForces_double e
    (fun t => if t < 6 then D1 (6 * ((a.model.nodeIndexOf e.iNode.id).getD 0) + t)
      else if t < 12
      then D1 (6 * ((a.model.nodeIndexOf e.jNode.id).getD 0) + (t - 6)) else 0)
    (fun t => if t < 6 then D2 (6 * ((a.model.nodeIndexOf e.iNode.id).getD 0) + t)
      else if t < 12
      then D2 (6 * ((a.model.nodeIndexOf e.jNode.id).getD 0) + (t - 6)) else 0)
    (combinedLoadsFor a.model cb1 e.id) (combinedLoadsFor a.model cb2 e.id)
    11 helD
  show (⟨e.id,
      (e.computeMemberForces
        (fun t => if t < 6 then D2 (6 * ((a.model.nodeIndexOf e.iNode.id).getD 0) + t)
          else if t < 12
          then D2 (6 * ((a.model.nodeIndexOf e.jNode.id).getD 0) + (t - 6)) else 0)
        (combinedLoadsFor a.model cb2 e.id) 11).map (fun fp =>
          ⟨fp.x, fp.forces.getD 0 0, fp.forces.getD 1 0, fp.forces.getD 2 0,
           fp.forces.getD 3 0, fp.forces.getD 4 0, fp.forces.getD 5 0⟩), _⟩ :
      MemberResult) = _
  rw [hFP, List.map_map]
  have hcomp : ∀ fp : ForcePoint,
      ((fun fp : ForcePoint =>
          (⟨fp.x, fp.forces.getD 0 0, fp.forces.getD 1 0, fp.forces.getD 2 0,
            fp.forces.getD 3 0, fp.forces.getD 4 0, fp.forces.getD 5 0⟩ : MemberForces)) ∘
        (fun fp : ForcePoint =>
          (⟨fp.x, fp.forces.map (fun v => 2 * v)⟩ : ForcePoint))) fp =
      doubleForces ⟨fp.x, fp.forces.getD 0 0, fp.forces.getD 1 0, fp.forces.getD 2 0,
        fp.forces.getD 3 0, fp.forces.getD 4 0, fp.forces.getD 5 0⟩ := by
    intro fp
    show (⟨fp.x, (fp.forces.map (fun v => 2 * v)).getD 0 0,
      (fp.forces.map (fun v => 2 * v)).getD 1 0,
      (fp.forces.map (fun v => 2 * v)).getD 2 0,
      (fp.forces.map (fun v => 2 * v)).getD 3 0,
      (fp.forces.map (fun v => 2 * v)).getD 4 0,
      (fp.forces.map (fun v => 2 * v)).getD 5 0⟩ : MemberForces) = _
    rw [doubleForces]
    simp only [map_two_getD]
  rw [List.map_congr_left (fun fp _ => hcomp fp),
    show (fun fp : ForcePoint => doubleForces
        ⟨fp.x, fp.forces.getD 0 0, fp.forces.getD 1 0, fp.forces.getD 2 0,
         fp.forces.getD 3 0, fp.forces.getD 4 0, fp.forces.getD 5 0⟩) =
      (doubleForces ∘ fun fp : ForcePoint =>
        (⟨fp.x, fp.forces.getD 0 0, fp.forces.getD 1 0, fp.forces.getD 2 0,
          fp.forces.getD 3 0, fp.forces.getD 4 0, fp.forces.getD 5 0⟩ : MemberForces))
      from rfl, ← List.map_map]
  exact memberRecord_double e.id _

/-- One update of the node-extreme accumulator commutes with doubling. -/
theorem ne_step_double (id : String) (x : ℝ) (dir : String) (acc : NodeExtreme) :
    (if |2 * x| > |(doubleNE acc).value| then (⟨id, 2 * x, dir⟩ : NodeExtreme)
      else doubleNE acc) =
    doubleNE (if |x| > |acc.value| then ⟨id, x, dir⟩ else acc) := by
  show (if |2 * x| > |2 * acc.value| then (⟨id, 2 * x, dir⟩ : NodeExtreme)
      else doubleNE acc) = _
  by_cases h : |x| > |acc.value|
  · rw [if_pos ((abs_two_mul_lt x acc.value).mpr h), if_pos h]
    rfl
  · rw [if_neg (fun hc => h ((abs_two_mul_lt x acc.value).mp hc)), if_neg h]

/-- The loop body of the `maxDisplacement`/`maxReaction` fold. -/
def neStep (get : NodeResult → NodeDOF) (acc : NodeExtreme) (nr : NodeResult) :
    NodeExtreme :=
  let d := get nr
  let acc1 := if |d.dx| > |acc.value| then ⟨nr.nodeId, d.dx, "dx"⟩ else acc
  let acc2 := if |d.dy| > |acc1.value| then ⟨nr.nodeId, d.dy, "dy"⟩ else acc1
  if |d.dz| > |acc2.value| then ⟨nr.nodeId, d.dz, "dz"⟩ else acc2

/-- One node-fold step commutes with doubling. -/
theorem neStep_double (get : NodeResult → NodeDOF)
    (hget : ∀ nr, get (doubleNodeResult nr) = doubleDOF (get nr))
    (acc : NodeExtreme) (nr : NodeResult) :
    neStep get (doubleNE acc) (doubleNodeResult nr) = doubleNE (neStep get acc nr) := by
  simp only [neStep, hget]
  simp only [doubleDOF, doubleNodeResult]
  rw [ne_step_double nr.nodeId (get nr).dx "dx" acc,
    ne_step_double nr.nodeId (get nr).dy "dy"
      (if |(get nr).dx| > |acc.value| then ⟨nr.nodeId, (get nr).dx, "dx"⟩ else acc),
    ne_step_double nr.nodeId (get nr).dz "dz"
      (if |(get nr).dy| > |(if |(get nr).dx| > |acc.value|
          then (⟨nr.nodeId, (get nr).dx, "dx"⟩ : NodeExtreme) else acc).value|
        then ⟨nr.nodeId, (get nr).dy, "dy"⟩
        else if |(get nr).dx| > |acc.value| then ⟨nr.nodeId, (get nr).dx, "dx"⟩ else acc)]

/-- The node fold over doubled results doubles the extreme. -/
theorem summaryNodeFold_iter (get : NodeResult → NodeDOF)
    (hget : ∀ nr, get (doubleNodeResult nr) = doubleDOF (get nr)) :
    ∀ (l : List NodeResult) (acc : NodeExtreme),
      (l.map doubleNodeResult).foldl (neStep get) (doubleNE acc) =
        doubleNE (l.foldl (neStep get) acc) := by
  intro l
  induction l with
  | nil => intro acc; rfl
  | cons nr t ih =>
    intro acc
    rw [List.map_cons, List.foldl_cons, List.foldl_cons, neStep_double get hget]
    exact ih _

/-- `summaryNodeFold` over doubled results. -/
theorem summaryNodeFold_double (get : NodeResult → NodeDOF)
    (hget : ∀ nr, get (doubleNodeResult nr) = doubleDOF (get nr))
    (l : List NodeResult) :
    summaryNodeFold get (l.map doubleNodeResult) = doubleNE (summaryNodeFold get l) := by
  rw [show summaryNodeFold get (l.map doubleNodeResult) =
      (l.map doubleNodeResult).foldl (neStep get) ⟨"", 0, ""⟩ from rfl,
    show summaryNodeFold get l = l.foldl (neStep get) ⟨"", 0, ""⟩ from rfl]
  nth_rewrite 1 [show (⟨"", 0, ""⟩ : NodeExtreme) = doubleNE ⟨"", 0, ""⟩ from by
    rw [doubleNE]; norm_num]
  exact summaryNodeFold_iter get hget l ⟨"", 0, ""⟩

/-- The loop body of the `maxMoment`/`maxShear` fold. -/
def meStep (get : MemberResult → ValueLoc) (acc : MemberExtreme) (mr : MemberResult) :
    MemberExtreme :=
  if |(get mr).value| > |acc.value| then ⟨mr.memberId, (get mr).value, (get mr).location⟩
  else acc

/-- One member-fold step commutes with doubling. -/
theorem meStep_double (get : MemberResult → ValueLoc)
    (hget : ∀ mr, get (doubleMemberResult mr) = doubleVL (get mr))
    (acc : MemberExtreme) (mr : MemberResult) :
    meStep get (doubleME acc) (doubleMemberResult mr) = doubleME (meStep get acc mr) := by
  rw [meStep, meStep, hget]
  show (if |2 * (get mr).value| > |2 * acc.value|
      then (⟨mr.memberId, 2 * (get mr).value, (get mr).location⟩ : MemberExtreme)
      else doubleME acc) = _
  by_cases h : |(get mr).value| > |acc.value|
  · rw [if_pos ((abs_two_mul_lt (get mr).value acc.value).mpr h), if_pos h]
    rfl
  · rw [if_neg (fun hc => h ((abs_two_mul_lt (get mr).value acc.value).mp hc)), if_neg h]

/-- The member fold over doubled results doubles the extreme. -/
theorem summaryMemberFold_iter (get : MemberResult → ValueLoc)
    (hget : ∀ mr, get (doubleMemberResult mr) = doubleVL (get mr)) :
    ∀ (l : List MemberResult) (acc : MemberExtreme),
      (l.map doubleMemberResult).foldl (meStep get) (doubleME acc) =
        doubleME (l.foldl (meStep get) acc) := by
  intro l
  induction l with
  | nil => intro acc; rfl
  | cons mr t ih =>
    intro acc
    rw [List.map_cons, List.foldl_cons, List.foldl_cons, meStep_double get hget]
    exact ih _

/-- `summaryMemberFold` over doubled results. -/
theorem summaryMemberFold_double (get : MemberResult → ValueLoc)
    (hget : ∀ mr, get (doubleMemberResult mr) = doubleVL (get mr))
    (l : List MemberResult) :
    summaryMemberFold get (l.map doubleMemberResult) =
      doubleME (summaryMemberFold get l) := by
  rw [show summaryMemberFold get (l.map doubleMemberResult) =
      (l.map doubleMemberResult).foldl (meStep get) ⟨"", 0, 0⟩ from rfl,
    show summaryMemberFold get l = l.foldl (meStep get) ⟨"", 0, 0⟩ from rfl]
  nth_rewrite 1 [show (⟨"", 0, 0⟩ : MemberExtreme) = doubleME ⟨"", 0, 0⟩ from by
    rw [doubleME]; norm_num]
  exact summaryMemberFold_iter get hget l ⟨"", 0, 0⟩

/-- `computeSummary` over doubled results doubles every extreme. -/
theorem computeSummary_double (nodes : List NodeResult) (members : List MemberResult) :
    computeSummary (nodes.map doubleNodeResult) (members.map doubleMemberResult) =
      doubleSummary (computeSummary nodes members) := by
  rw [computeSummary, computeSummary, doubleSummary,
    summaryNodeFold_double (fun nr => nr.displacement) (fun nr => rfl) nodes,
    summaryNodeFold_double (fun nr => nr.reaction) (fun nr => rfl) nodes,
    summaryMemberFold_double (fun mr => mr.maxForces.momentZ) (fun mr => rfl) members,
    summaryMemberFold_double (fun mr => mr.maxForces.shearY) (fun mr => rfl) members]

/-- C7: for all combinations `cb2` (factor `2.0`) and `cb1` (factor
`1.0`) over the same single load case, every result quantity of
`analyze(cb2)` is exactly twice the corresponding quantity of
`analyze(cb1)`: the two calls succeed or fail together, node
displacements and reactions double (ids unchanged), every sampled member
force component doubles (stations unchanged), every extremum value
doubles (locations and ids unchanged), and the summary doubles. -/
theorem C7_combination_linearity (a : Analyzer) (s n1 n2 : String)
    (cb1 cb2 : LoadCombination)
    (hf1 : findCombo a.model n1 = some cb1) (hf2 : findCombo a.model n2 = some cb2)
    (h1 : cb1.factors = [(s, 1)]) (h2 : cb2.factors = [(s, 2)]) :
    (a.analyze n2).success = (a.analyze n1).success ∧
    (a.analyze n2).nodes = (a.analyze n1).nodes.map doubleNodeResult ∧
    (a.analyze n2).members = (a.analyze n1).members.map doubleMemberResult ∧
    (a.analyze n2).summary = doubleSummary (a.analyze n1).summary := by
  rcases hs1 : a.solveDisp cb1 with e | D1
  · obtain ⟨e2, hs2⟩ := solveDisp_smul_error a cb1 cb2 s h1 h2 e hs1
    rw [analyze_solve_error a n1 cb1 e hf1 hs1, analyze_solve_error a n2 cb2 e2 hf2 hs2]
    refine ⟨rfl, rfl, rfl, ?_⟩
    show emptySummary = doubleSummary emptySummary
    rw [emptySummary, doubleSummary, doubleNE, doubleME]
    norm_num
  · obtain ⟨D2, hs2, hD2⟩ := solveDisp_smul a cb1 cb2 s 2 h1 h2 D1 hs1
    rw [analyze_solve_ok a n1 cb1 D1 hf1 hs1, analyze_solve_ok a n2 cb2 D2 hf2 hs2]
    have hfull : ∀ j, a.fullDisp D2 j = 2 * a.fullDisp D1 j :=
      fullDisp_smul a 2 D1 D2 hD2
    have hreac : ∀ i, a.reactionsOf cb2 D2 i = 2 * a.reactionsOf cb1 D1 i :=
      reactionsOf_smul a cb1 cb2 s 2 h1 h2 D1 D2 hD2
    have hnodes : extractNodeResults a.model (a.fullDisp D2) (a.reactionsOf cb2 D2) =
        (extractNodeResults a.model (a.fullDisp D1)
          (a.reactionsOf cb1 D1)).map doubleNodeResult :=
      extractNodeResults_double a.model _ _ _ _ hfull hreac
    have hmems : a.extractMemberResults (a.fullDisp D2) cb2 =
        (a.extractMemberResults (a.fullDisp D1) cb1).map doubleMemberResult :=
      extractMemberResults_double a _ _ cb1 cb2 hfull
    refine ⟨rfl, hnodes, hmems, ?_⟩
    show computeSummary
        (extractNodeResults a.model (a.fullDisp D2) (a.reactionsOf cb2 D2))
        (a.extractMemberResults (a.fullDisp D2) cb2) = _
    rw [hnodes, hmems, computeSummary_double]
    rfl

/-- Witness for C7 on the concrete model, whose combinations `C1` and
`C2` reference the single case `A` with factors `1` and `2`. -/
theorem C7_witness :
    (cexAnalyzer.analyze "C2").success = (cexAnalyzer.analyze "C1").success ∧
    (cexAnalyzer.analyze "C2").nodes =
      (cexAnalyzer.analyze "C1").nodes.map doubleNodeResult ∧
    (cexAnalyzer.analyze "C2").members =
      (cexAnalyzer.analyze "C1").members.map doubleMemberResult ∧
    (cexAnalyzer.analyze "C2").summary = doubleSummary (cexAnalyzer.analyze "C1").summary :=
  C7_combination_linearity cexAnalyzer "A" "C1" "C2" cexCombo1 cexCombo2 rfl rfl rfl rfl

end

end Stanal
